import Mathlib

/-!
# DPoS consensus-state container (`core/types/dpos_context.go`)

A shallow embedding of the `DposContext` aggregate of go-dacc: five
authenticated key-value stores (epoch, delegate, vote, candidate, mint-count),
the domain operations that keep them consistent, Snapshot/Revert and Root.

Layout of the development:

* bytes, addresses and the store (`Trie`) with its fallible operations;
* `DposContext`: the aggregate with its five stores held by value, and the
  domain operations, each returning the mutated aggregate with the Go `error`;
* `Heap` / `DposContextRef`: the pointer level (`*trie.Trie` fields), needed
  for `Copy`, `Snapshot` and `RevertToSnapShot`;
* the validator-set decoding with `GetValidators`, and the database with
  `CommitTo`, `NewDposContextFromProto` and `FromProto`;
* lemmas and the theorems about the operations.
-/

namespace Dpos

/-! ## Bytes and addresses -/

/-- One byte. -/
abbrev Byte := Fin 256

/-- A Go byte slice, `[]byte`. -/
abbrev ByteSlice := List Byte

/-- A Go byte slice that may be `nil`: `none` is `nil`. -/
abbrev NilableBytes := Option ByteSlice

/-- Go `bytes.Equal`: a `nil` argument is treated as the empty slice. -/
def bytesEqual (a b : NilableBytes) : Bool :=
  decide (a.getD [] = b.getD [])

/-- Go `bytes.Compare a b < 0`: lexicographic order on byte slices, the order in
which a trie keeps and iterates its keys. -/
def bytesLess : ByteSlice → ByteSlice → Bool
  | [], [] => false
  | [], _ :: _ => true
  | _ :: _, [] => false
  | x :: xs, y :: ys => if x < y then true else if y < x then false else bytesLess xs ys

/-- Go `bytes.HasPrefix key pre`. -/
def hasPrefix : ByteSlice → ByteSlice → Bool
  | _, [] => true
  | [], _ :: _ => false
  | k :: ks, p :: ps => if k = p then hasPrefix ks ps else false

/-- Modelled from the spec: the type `common.Address` (package `common`), a
fixed-size account identifier of 20 bytes (`[20]byte`). -/
structure Address where
  /-- The method `Address.Bytes`: the 20 bytes as a slice. -/
  Bytes : ByteSlice
  /-- The array length of `common.Address`. -/
  size : Bytes.length = 20
  deriving DecidableEq

/-- The address whose twenty bytes all equal `b`. -/
def Address.ofByte (b : Byte) : Address := ⟨List.replicate 20 b, by simp⟩

/-! ## Errors -/

/-- The Go `error` values the aggregate can return. -/
inductive Err where
  /-- The type `*trie.MissingNodeError`: a trie node is missing from the database. -/
  | missingNode
  /-- Any other error raised by a store (I/O, corruption). -/
  | storeFailure
  /-- The value `errors.New("invalid candidate to delegate")`. -/
  | invalidCandidateToDelegate
  /-- The value `errors.New("invalid candidate to undelegate")`. -/
  | invalidCandidateToUndelegate
  /-- The value `errors.New("mismatch candidate to undelegate")`. -/
  | mismatchCandidateToUndelegate
  /-- The value `fmt.Errorf("failed to decode validators: %s", err)`. -/
  | failedToDecodeValidators
  /-- The value `fmt.Errorf("failed to encode validators to rlp bytes: %s", err)`. -/
  | failedToEncodeValidators
  deriving DecidableEq

/-- The type assertion `_, ok := err.(*trie.MissingNodeError)`. -/
def Err.isMissingNode : Err → Bool
  | .missingNode => true
  | _ => false

/-- The errors a store can raise. The values made by `errors.New` and `fmt.Errorf`
in the aggregate are values of their own, which no store returns. -/
inductive StoreErr where
  /-- The type `*trie.MissingNodeError`. -/
  | missingNode
  /-- Any other store error (I/O, corruption). -/
  | storeFailure
  deriving DecidableEq

/-- A store error as a Go `error`. -/
def StoreErr.toErr : StoreErr → Err
  | .missingNode => .missingNode
  | .storeFailure => .storeFailure

/-! ## The authenticated store -/

/-- The store operations that can raise an error: the three accesses by key,
the commit of the accumulated changes and the flush to the database. -/
inductive TrieOp where
  | get
  | update
  | delete
  | commit
  | flush
  deriving DecidableEq

/-- Modelled from the spec: the authenticated store `trie.Trie` of package
`trie`, an ordered key-value structure with the interface of spec section 6.
`entries` is the content, an association list kept in ascending key order;
`faults` lists the accesses at which the store raises an error (for instance
the keys whose trie path runs through a node missing from the database): an
operation `op` on `key` fails with `e` when `(op, key, e)` is listed, and then
leaves the store as it was. A store opened empty has no faults. -/
structure Trie where
  entries : List (ByteSlice × ByteSlice)
  faults : List (TrieOp × ByteSlice × StoreErr)
  deriving DecidableEq

namespace Trie

/-- Modelled from the spec: a store opened at the empty/zero digest,
`trie.NewTrieWithPrefix(common.Hash{}, ...)`: no entry and no fault. -/
def empty : Trie := ⟨[], []⟩

/-- Lookup in an association list: the value of the first entry under `key`. -/
def lookup (key : ByteSlice) : List (ByteSlice × ByteSlice) → NilableBytes
  | [] => none
  | (k, v) :: rest => if k = key then some v else lookup key rest

/-- Ordered insertion into an association list, replacing an entry under the same key. -/
def insertEntry (key value : ByteSlice) :
    List (ByteSlice × ByteSlice) → List (ByteSlice × ByteSlice)
  | [] => [(key, value)]
  | (k, v) :: rest =>
    if k = key then (key, value) :: rest
    else if bytesLess key k then (key, value) :: (k, v) :: rest
    else (k, v) :: insertEntry key value rest

/-- Removal of every entry under `key` from an association list. -/
def eraseEntry (key : ByteSlice) :
    List (ByteSlice × ByteSlice) → List (ByteSlice × ByteSlice)
  | [] => []
  | (k, v) :: rest => if k = key then eraseEntry key rest else (k, v) :: eraseEntry key rest

/-- Modelled from the spec: the content of the store at `key`,
`get(key) -> value | not_found`; `none` is the `nil` of Go (no entry). -/
def get (t : Trie) (key : ByteSlice) : NilableBytes := lookup key t.entries

/-- The error, if any, that operation `op` on `key` raises. -/
def faultAt (t : Trie) (op : TrieOp) (key : ByteSlice) : Option Err :=
  match t.faults.find? (fun f => decide (f.1 = op ∧ f.2.1 = key)) with
  | some f => some f.2.2.toErr
  | none => none

/-- Modelled from the spec: the method `Trie.TryGet`, `get(key)` with its error:
the value under `key` (`nil` when there is none, which is no error) and the
error; on an error the value is `nil`. -/
def TryGet (t : Trie) (key : ByteSlice) : NilableBytes × Option Err :=
  match t.faultAt .get key with
  | some e => (none, some e)
  | none => (t.get key, none)

/-- Modelled from the spec: the method `Trie.TryDelete`,
`delete(key) -> ok | not_found | error`: removes `key`; a key that is not there
is no error. -/
def TryDelete (t : Trie) (key : ByteSlice) : Trie × Option Err :=
  match t.faultAt .delete key with
  | some e => (t, some e)
  | none => ({ t with entries := eraseEntry key t.entries }, none)

/-- Modelled from the spec: the method `Trie.TryUpdate`,
`update(key, value) -> ok | error`: associates `key` with `value`; as in the
trie package an empty `value` deletes the key. -/
def TryUpdate (t : Trie) (key value : ByteSlice) : Trie × Option Err :=
  if value = [] then t.TryDelete key
  else
    match t.faultAt .update key with
    | some e => (t, some e)
    | none => ({ t with entries := insertEntry key value t.entries }, none)

/-- Modelled from the spec: the method `Trie.Get`, as `TryGet` with the error
logged and dropped. -/
def Get (t : Trie) (key : ByteSlice) : NilableBytes := (t.TryGet key).1

/-- Modelled from the spec: the method `Trie.Update`, as `TryUpdate` with the
error logged and dropped. -/
def Update (t : Trie) (key value : ByteSlice) : Trie := (t.TryUpdate key value).1

/-- Modelled from the spec: the method `Trie.Delete`, as `TryDelete` with the
error logged and dropped. -/
def Delete (t : Trie) (key : ByteSlice) : Trie := (t.TryDelete key).1

/-- Modelled from the spec: `prefixIterate(prefix)`, the entries visited by
`trie.NewIterator(t.PrefixIterator(pre))`: the entries whose key starts with
`pre`, in key order, a finite single-pass sequence. The iterator walks the
store as it is when the iteration starts; store handles are replaced on write,
never mutated in place, so later deletions do not change what is visited. -/
def PrefixIterator (t : Trie) (pre : ByteSlice) : List (ByteSlice × ByteSlice) :=
  t.entries.filter (fun e => hasPrefix e.1 pre)

/-- The store raises no error. -/
def NoFaults (t : Trie) : Prop := t.faults = []

instance (t : Trie) : Decidable t.NoFaults := inferInstanceAs (Decidable (t.faults = []))

end Trie

/-! ## Encoding and hashing -/

/-- Modelled from the spec: the type `common.Hash` (package `common`), a
fixed-size digest of 32 bytes (`[32]byte`). -/
structure Hash where
  /-- The method `Hash.Bytes`: the 32 bytes as a slice. -/
  Bytes : ByteSlice
  /-- The array length of `common.Hash`. -/
  size : Bytes.length = 32
  deriving DecidableEq

/-- The byte `n mod 256`. -/
def byteOf (n : Nat) : Byte := Fin.ofNat n

/-- Modelled from the spec: the size field of the canonical encoding, `putint`
of package `rlp`: `i` in big-endian without leading zero bytes (at most eight
bytes, as for a 64-bit size). -/
def putint (i : Nat) : ByteSlice :=
  if i < 2 ^ 8 then [byteOf i]
  else if i < 2 ^ 16 then [byteOf (i / 2 ^ 8), byteOf i]
  else if i < 2 ^ 24 then [byteOf (i / 2 ^ 16), byteOf (i / 2 ^ 8), byteOf i]
  else if i < 2 ^ 32 then [byteOf (i / 2 ^ 24), byteOf (i / 2 ^ 16), byteOf (i / 2 ^ 8), byteOf i]
  else if i < 2 ^ 40 then
    [byteOf (i / 2 ^ 32), byteOf (i / 2 ^ 24), byteOf (i / 2 ^ 16), byteOf (i / 2 ^ 8), byteOf i]
  else if i < 2 ^ 48 then
    [byteOf (i / 2 ^ 40), byteOf (i / 2 ^ 32), byteOf (i / 2 ^ 24), byteOf (i / 2 ^ 16),
      byteOf (i / 2 ^ 8), byteOf i]
  else if i < 2 ^ 56 then
    [byteOf (i / 2 ^ 48), byteOf (i / 2 ^ 40), byteOf (i / 2 ^ 32), byteOf (i / 2 ^ 24),
      byteOf (i / 2 ^ 16), byteOf (i / 2 ^ 8), byteOf i]
  else
    [byteOf (i / 2 ^ 56), byteOf (i / 2 ^ 48), byteOf (i / 2 ^ 40), byteOf (i / 2 ^ 32),
      byteOf (i / 2 ^ 24), byteOf (i / 2 ^ 16), byteOf (i / 2 ^ 8), byteOf i]

/-- Modelled from the spec: `encode` of a 32-byte digest, the RLP string form
used by package `rlp` (header byte `0x80 + 32`, then the bytes). -/
def rlpEncodeHash (h : Hash) : ByteSlice := byteOf (0x80 + 32) :: h.Bytes

/-- Modelled from the spec: `encode` of an address, the RLP string form
(header byte `0x80 + 20`, then the bytes). -/
def rlpEncodeAddress (a : Address) : ByteSlice := byteOf (0x80 + 20) :: a.Bytes

/-- Modelled from the spec: `encode` of an ordered sequence of addresses, the
RLP list form of `rlp.EncodeToBytes`: a list header carrying the payload size,
then the encoded elements. -/
def rlpEncodeAddresses (l : List Address) : ByteSlice :=
  let payload := (l.map rlpEncodeAddress).flatten
  if payload.length < 56 then byteOf (0xC0 + payload.length) :: payload
  else byteOf (0xF7 + (putint payload.length).length) :: (putint payload.length ++ payload)

/-- Modelled from the spec: the primitives the aggregate takes as given
functions, `hash(bytes) -> digest` and the store `digest() -> Digest`. -/
structure Primitives where
  /-- Keccak-256 of a byte string (`sha3.NewKeccak256`, written to, then summed). -/
  keccak256 : ByteSlice → Hash
  /-- The digest of a store, a function of its content (`Trie.Hash`). -/
  digest : List (ByteSlice × ByteSlice) → Hash

/-- Modelled from the spec: the method `Trie.Hash`, `digest() -> Digest`, the
root digest of the store, a function of its content. -/
def Trie.Hash (P : Primitives) (t : Trie) : Hash := P.digest t.entries

/-- Modelled from the spec: a running hash `hw` of package `sha3`, the bytes
written to it so far. -/
structure HashWriter where
  written : ByteSlice
  deriving DecidableEq

/-- Modelled from the spec: the call `sha3.NewKeccak256()`, nothing written yet. -/
def NewKeccak256 : HashWriter := ⟨[]⟩

/-- Modelled from the spec: the call `rlp.Encode(hw, h)`, which writes
`encode(h)` to `hw`. -/
def HashWriter.Encode (hw : HashWriter) (h : Hash) : HashWriter :=
  ⟨hw.written ++ rlpEncodeHash h⟩

/-- Modelled from the spec: the call `hw.Sum(h[:0])`, the `hash` of everything
written. -/
def HashWriter.Sum (P : Primitives) (hw : HashWriter) : Hash := P.keccak256 hw.written

/-! ## The aggregate -/

/-- The struct `DposContext` with its five stores held by value (the `*trie.Trie`
fields dereferenced). The database handle `db` is a shared reference: the
operations that read or write the database take it as an argument and return
it; the pointer structure of the fields is modelled by `DposContextRef`. -/
structure DposContext where
  epochTrie : Trie
  delegateTrie : Trie
  voteTrie : Trie
  candidateTrie : Trie
  mintCntTrie : Trie
  deriving DecidableEq

/-- The struct `DposContextProto`: the five store digests. -/
structure DposContextProto where
  EpochHash : Hash
  DelegateHash : Hash
  CandidateHash : Hash
  VoteHash : Hash
  MintCntHash : Hash
  deriving DecidableEq

/-- An error that is not tolerated: the Go idiom
`if err != nil { if _, ok := err.(*trie.MissingNodeError); !ok { return err } }`
returns exactly when this is `some`. -/
def notTolerated : Option Err → Option Err
  | none => none
  | some e => if e.isMissingNode then none else some e

/-- The key `[]byte("validator")`. -/
def validatorKey : ByteSlice := [118, 97, 108, 105, 100, 97, 116, 111, 114]

/-- The function `NewDposContext`: five empty stores (opening a store at the zero
digest reads nothing from the database and cannot fail). -/
def NewDposContext : DposContext :=
  ⟨Trie.empty, Trie.empty, Trie.empty, Trie.empty, Trie.empty⟩

namespace DposContext

/-- The method `DposContext.Root`. -/
def Root (P : Primitives) (d : DposContext) : Hash :=
  let hw := NewKeccak256
  let hw := hw.Encode (d.epochTrie.Hash P)
  let hw := hw.Encode (d.delegateTrie.Hash P)
  let hw := hw.Encode (d.candidateTrie.Hash P)
  let hw := hw.Encode (d.voteTrie.Hash P)
  let hw := hw.Encode (d.mintCntTrie.Hash P)
  hw.Sum P

/-- The method `DposContext.ToProto`. -/
def ToProto (P : Primitives) (d : DposContext) : DposContextProto :=
  { EpochHash := d.epochTrie.Hash P
    DelegateHash := d.delegateTrie.Hash P
    CandidateHash := d.candidateTrie.Hash P
    VoteHash := d.voteTrie.Hash P
    MintCntHash := d.mintCntTrie.Hash P }

/-- The body of the loop of `KickoutCandidate`, run over the entries the
iterator visits; `candidate` is the address being removed. -/
def kickoutLoop (candidate : ByteSlice) :
    List (ByteSlice × ByteSlice) → DposContext → DposContext × Option Err
  | [], d => (d, none)
  | (_, delegator) :: rest, d =>
    let key := candidate ++ delegator
    let del := d.delegateTrie.TryDelete key
    let d1 := { d with delegateTrie := del.1 }
    match notTolerated del.2 with
    | some e => (d1, some e)
    | none =>
      let got := d1.voteTrie.TryGet delegator
      match notTolerated got.2 with
      | some e => (d1, some e)
      | none =>
        if got.2 = none ∧ bytesEqual got.1 (some candidate) = true then
          let dv := d1.voteTrie.TryDelete delegator
          let d2 := { d1 with voteTrie := dv.1 }
          match notTolerated dv.2 with
          | some e => (d2, some e)
          | none => kickoutLoop candidate rest d2
        else kickoutLoop candidate rest d1

/-- The method `DposContext.KickoutCandidate`. -/
def KickoutCandidate (d : DposContext) (candidateAddr : Address) : DposContext × Option Err :=
  let candidate := candidateAddr.Bytes
  let del := d.candidateTrie.TryDelete candidate
  let d1 := { d with candidateTrie := del.1 }
  match notTolerated del.2 with
  | some e => (d1, some e)
  | none => kickoutLoop candidate (d1.delegateTrie.PrefixIterator candidate) d1

/-- The method `DposContext.BecomeCandidate`. -/
def BecomeCandidate (d : DposContext) (candidateAddr : Address) : DposContext × Option Err :=
  let candidate := candidateAddr.Bytes
  let upd := d.candidateTrie.TryUpdate candidate candidate
  ({ d with candidateTrie := upd.1 }, upd.2)

/-- The method `DposContext.Delegate`. -/
def Delegate (d : DposContext) (delegatorAddr candidateAddr : Address) :
    DposContext × Option Err :=
  let delegator := delegatorAddr.Bytes
  let candidate := candidateAddr.Bytes
  let candidateInTrie := d.candidateTrie.TryGet candidate
  match candidateInTrie.2 with
  | some e => (d, some e)
  | none =>
    match candidateInTrie.1 with
    | none => (d, some .invalidCandidateToDelegate)
    | some _ =>
      let old := d.voteTrie.TryGet delegator
      match notTolerated old.2 with
      | some e => (d, some e)
      | none =>
        let d1 : DposContext :=
          match old.1 with
          | some oldCandidate =>
            { d with delegateTrie := d.delegateTrie.Delete (oldCandidate ++ delegator) }
          | none => d
        let upd := d1.delegateTrie.TryUpdate (candidate ++ delegator) delegator
        let d2 := { d1 with delegateTrie := upd.1 }
        match upd.2 with
        | some e => (d2, some e)
        | none =>
          let vote := d2.voteTrie.TryUpdate delegator candidate
          ({ d2 with voteTrie := vote.1 }, vote.2)

/-- The method `DposContext.UnDelegate`. -/
def UnDelegate (d : DposContext) (delegatorAddr candidateAddr : Address) :
    DposContext × Option Err :=
  let delegator := delegatorAddr.Bytes
  let candidate := candidateAddr.Bytes
  let candidateInTrie := d.candidateTrie.TryGet candidate
  match candidateInTrie.2 with
  | some e => (d, some e)
  | none =>
    match candidateInTrie.1 with
    | none => (d, some .invalidCandidateToUndelegate)
    | some _ =>
      let old := d.voteTrie.TryGet delegator
      match old.2 with
      | some e => (d, some e)
      | none =>
        if bytesEqual (some candidate) old.1 = false then
          (d, some .mismatchCandidateToUndelegate)
        else
          let del := d.delegateTrie.TryDelete (candidate ++ delegator)
          let d1 := { d with delegateTrie := del.1 }
          match del.2 with
          | some e => (d1, some e)
          | none =>
            let vote := d1.voteTrie.TryDelete delegator
            ({ d1 with voteTrie := vote.1 }, vote.2)

/-- The method `DposContext.SetValidators`; encoding a slice of addresses cannot fail. -/
def SetValidators (d : DposContext) (validators : List Address) : DposContext × Option Err :=
  let validatorsRLP := rlpEncodeAddresses validators
  ({ d with epochTrie := d.epochTrie.Update validatorKey validatorsRLP }, none)

/-- Every store of the aggregate raises no error. -/
def NoFaults (d : DposContext) : Prop :=
  d.epochTrie.NoFaults ∧ d.delegateTrie.NoFaults ∧ d.voteTrie.NoFaults ∧
    d.candidateTrie.NoFaults ∧ d.mintCntTrie.NoFaults

instance (d : DposContext) : Decidable d.NoFaults :=
  inferInstanceAs (Decidable (_ ∧ _ ∧ _ ∧ _ ∧ _))

end DposContext

/-- The method `DposContextProto.Root`. -/
def DposContextProto.Root (P : Primitives) (p : DposContextProto) : Hash :=
  let hw := NewKeccak256
  let hw := hw.Encode p.EpochHash
  let hw := hw.Encode p.DelegateHash
  let hw := hw.Encode p.CandidateHash
  let hw := hw.Encode p.VoteHash
  let hw := hw.Encode p.MintCntHash
  hw.Sum P

/-- One call of a domain operation. -/
inductive Op where
  | becomeCandidate (candidate : Address)
  | delegate (delegator candidate : Address)
  | unDelegate (delegator candidate : Address)
  | kickoutCandidate (candidate : Address)
  | setValidators (validators : List Address)
  deriving DecidableEq

/-- The effect of one call on the aggregate, with the error it returns. -/
def Op.apply : Op → DposContext → DposContext × Option Err
  | .becomeCandidate c, d => d.BecomeCandidate c
  | .delegate dl c, d => d.Delegate dl c
  | .unDelegate dl c, d => d.UnDelegate dl c
  | .kickoutCandidate c, d => d.KickoutCandidate c
  | .setValidators l, d => d.SetValidators l

/-- The aggregate after a sequence of calls, each applied whether or not the
previous one returned an error. -/
def run : List Op → DposContext → DposContext
  | [], d => d
  | op :: ops, d => run ops (op.apply d).1

/-! ## The pointer level: Snapshot and Revert -/

/-- The heap of `trie.Trie` objects: cell `p` holds the object at address `p`. -/
abbrev Heap := List Trie

/-- The object at address `p`. -/
def Heap.read (h : Heap) (p : Nat) : Trie := h.getD p Trie.empty

/-- Overwrites the object at address `p`. -/
def Heap.write (h : Heap) (p : Nat) (t : Trie) : Heap := h.set p t

/-- Allocates a new object holding `t`; its address is the next free one. -/
def Heap.alloc (h : Heap) (t : Trie) : Heap × Nat := (h ++ [t], h.length)

/-- The struct `DposContext` as Go holds it: five `*trie.Trie` pointers. -/
structure DposContextRef where
  epochTrie : Nat
  delegateTrie : Nat
  voteTrie : Nat
  candidateTrie : Nat
  mintCntTrie : Nat
  deriving DecidableEq

namespace DposContextRef

/-- The five stores the fields point at. -/
def deref (h : Heap) (r : DposContextRef) : DposContext :=
  { epochTrie := h.read r.epochTrie
    delegateTrie := h.read r.delegateTrie
    voteTrie := h.read r.voteTrie
    candidateTrie := h.read r.candidateTrie
    mintCntTrie := h.read r.mintCntTrie }

/-- Stores the five stores of `d` into the objects the fields point at. -/
def assign (h : Heap) (r : DposContextRef) (d : DposContext) : Heap :=
  ((((h.write r.epochTrie d.epochTrie).write r.delegateTrie d.delegateTrie).write
    r.voteTrie d.voteTrie).write r.candidateTrie d.candidateTrie).write
    r.mintCntTrie d.mintCntTrie

/-- A domain operation called on the aggregate `r`: its store methods read and
mutate the `trie.Trie` objects `r` points at; no field of `r` is reassigned. -/
def exec (op : Op) (h : Heap) (r : DposContextRef) : Heap × Option Err :=
  let res := op.apply (r.deref h)
  (r.assign h res.1, res.2)

/-- A sequence of domain operations called on the aggregate `r`. -/
def execAll : List Op → Heap → DposContextRef → Heap
  | [], h, _ => h
  | op :: ops, h, r => execAll ops (exec op h r).1 r

/-- The method `DposContext.Copy`: each `trie.Trie` struct is copied into a new
object (`epochTrie := *d.epochTrie` ... `epochTrie: &epochTrie`). -/
def Copy (h : Heap) (r : DposContextRef) : Heap × DposContextRef :=
  let a1 := h.alloc (h.read r.epochTrie)
  let a2 := a1.1.alloc (h.read r.delegateTrie)
  let a3 := a2.1.alloc (h.read r.voteTrie)
  let a4 := a3.1.alloc (h.read r.candidateTrie)
  let a5 := a4.1.alloc (h.read r.mintCntTrie)
  (a5.1,
    { epochTrie := a1.2
      delegateTrie := a2.2
      voteTrie := a3.2
      candidateTrie := a4.2
      mintCntTrie := a5.2 })

/-- The method `DposContext.Snapshot`. -/
def Snapshot (h : Heap) (r : DposContextRef) : Heap × DposContextRef := Copy h r

/-- The method `DposContext.RevertToSnapShot`: the five pointer fields of the
receiver are overwritten with those of `snapshot`; the result is the receiver
after the call. -/
def RevertToSnapShot (_r snapshot : DposContextRef) : DposContextRef :=
  { epochTrie := snapshot.epochTrie
    delegateTrie := snapshot.delegateTrie
    candidateTrie := snapshot.candidateTrie
    voteTrie := snapshot.voteTrie
    mintCntTrie := snapshot.mintCntTrie }

/-- The aggregate `r` is well formed in `h`: its five pointers are allocated and
pairwise distinct, as for every aggregate made by `NewDposContext`,
`NewDposContextFromProto` or `Copy`. -/
def WF (h : Heap) (r : DposContextRef) : Prop :=
  (r.epochTrie < h.length ∧ r.delegateTrie < h.length ∧ r.voteTrie < h.length ∧
    r.candidateTrie < h.length ∧ r.mintCntTrie < h.length) ∧
  [r.epochTrie, r.delegateTrie, r.voteTrie, r.candidateTrie, r.mintCntTrie].Nodup

instance (h : Heap) (r : DposContextRef) : Decidable (r.WF h) :=
  inferInstanceAs (Decidable (_ ∧ _))

/-- The function `NewDposContext` at the pointer level: five new empty stores. -/
def New (h : Heap) : Heap × DposContextRef :=
  (h ++ [Trie.empty, Trie.empty, Trie.empty, Trie.empty, Trie.empty],
    { epochTrie := h.length
      delegateTrie := h.length + 1
      voteTrie := h.length + 2
      candidateTrie := h.length + 3
      mintCntTrie := h.length + 4 })

end DposContextRef

/-! ## Validator set: decoding and `GetValidators` -/

/-- Modelled from the spec: the value of a size field of the canonical
encoding, big-endian. -/
def readint (bs : ByteSlice) : Nat := bs.foldl (fun acc b => acc * 256 + b.val) 0

/-- Modelled from the spec: decoding of the elements of an encoded address
sequence: each element is the header byte `0x80 + 20` followed by 20 bytes.
The first argument bounds the number of elements read. -/
def rlpDecodeItems : Nat → ByteSlice → Option (List Address)
  | _, [] => some []
  | 0, _ :: _ => none
  | fuel + 1, b :: rest =>
    if h : b = byteOf (0x80 + 20) ∧ (rest.take 20).length = 20 then
      match rlpDecodeItems fuel (rest.drop 20) with
      | some l => some (⟨rest.take 20, h.2⟩ :: l)
      | none => none
    else none

/-- Modelled from the spec: `decode` of an ordered address sequence,
`rlp.DecodeBytes(validatorsRLP, &validators)`; `none` is a decode error. A nil
or empty value is an error: the decoder meets the end of the input where it
reads the list header (`io.EOF`). Otherwise the bytes must be one list whose
header carries the exact payload size in canonical form and whose payload is a
sequence of encoded addresses. -/
def rlpDecodeAddresses : NilableBytes → Option (List Address)
  | none => none
  | some [] => none
  | some (b :: rest) =>
    if b.val < 0xC0 then none
    else if b.val ≤ 0xF7 then
      if rest.length = b.val - 0xC0 then rlpDecodeItems rest.length rest else none
    else
      if (rest.take (b.val - 0xF7)).length = b.val - 0xF7 ∧
          (rest.take (b.val - 0xF7)).head? ≠ some 0 ∧
          56 ≤ readint (rest.take (b.val - 0xF7)) ∧
          (rest.drop (b.val - 0xF7)).length = readint (rest.take (b.val - 0xF7)) then
        rlpDecodeItems (rest.drop (b.val - 0xF7)).length (rest.drop (b.val - 0xF7))
      else none

/-- The method `DposContext.GetValidators`: the decoded validator set, or `nil`
with the decode error. -/
def DposContext.GetValidators (d : DposContext) : List Address × Option Err :=
  let validatorsRLP := d.epochTrie.Get validatorKey
  match rlpDecodeAddresses validatorsRLP with
  | none => ([], some .failedToDecodeValidators)
  | some validators => (validators, none)

/-! ## Commit and reconstruction -/

/-- Modelled from the spec: the backing database `ethdb.Database`, as far as
the stores use it: the store contents flushed to it, found again by digest. -/
abbrev Database := List (List (ByteSlice × ByteSlice))

/-- The value `common.Hash{}`: thirty-two zero bytes. -/
def zeroHash : Hash := ⟨List.replicate 32 0, by simp⟩

/-- Modelled from the spec: `commitChanges() -> newDigest | error`, the method
`Trie.Commit(nil)`: the digest of the store, or the zero hash with the error. -/
def Trie.Commit (P : Primitives) (t : Trie) : Dpos.Hash × Option Err :=
  match t.faultAt .commit [] with
  | some e => (zeroHash, some e)
  | none => (t.Hash P, none)

/-- Modelled from the spec: `flush(digest) -> ok | error`, the call
`t.TrieDB().Commit(node, false)` that follows the commit of `t`: the content
committed under the digest `node` is written to the database; a failing flush
writes nothing. -/
def Trie.TrieDBCommit (t : Trie) (_node : Dpos.Hash) (db : Database) :
    Database × Option Err :=
  match t.faultAt .flush [] with
  | some e => (db, some e)
  | none => (db ++ [t.entries], none)

/-- Modelled from the spec: `openAt(digest, database) -> Store | error`, the
function `trie.NewTrieWithPrefix`: the zero hash and the digest of the empty
content open an empty store; another digest opens the content flushed under
it, and fails with the missing-data error when the database has none. The key
namespace `pre` does not show in the content. -/
def NewTrieWithPrefix (P : Primitives) (node : Hash) (_pre : ByteSlice) (db : Database) :
    Option Trie × Option Err :=
  if node = zeroHash ∨ node = P.digest [] then (some Trie.empty, none)
  else
    match db.find? (fun c => decide (P.digest c = node)) with
    | some c => (some ⟨c, []⟩, none)
    | none => (none, some .missingNode)

/-- The value `epochPrefix`, `[]byte("epoch-")`. -/
def epochPrefix : ByteSlice := [101, 112, 111, 99, 104, 45]

/-- The value `delegatePrefix`, `[]byte("delegate-")`. -/
def delegatePrefix : ByteSlice := [100, 101, 108, 101, 103, 97, 116, 101, 45]

/-- The value `votePrefix`, `[]byte("vote-")`. -/
def votePrefix : ByteSlice := [118, 111, 116, 101, 45]

/-- The value `candidatePrefix`, `[]byte("candidate-")`. -/
def candidatePrefix : ByteSlice := [99, 97, 110, 100, 105, 100, 97, 116, 101, 45]

/-- The value `mintCntPrefix`, `[]byte("mintCnt-")`. -/
def mintCntPrefix : ByteSlice := [109, 105, 110, 116, 67, 110, 116, 45]

/-- The function `NewEpochTrie`. -/
def NewEpochTrie (P : Primitives) (node : Hash) (diskdb : Database) : Option Trie × Option Err :=
  NewTrieWithPrefix P node epochPrefix diskdb

/-- The function `NewDelegateTrie`. -/
def NewDelegateTrie (P : Primitives) (node : Hash) (diskdb : Database) :
    Option Trie × Option Err :=
  NewTrieWithPrefix P node delegatePrefix diskdb

/-- The function `NewVoteTrie`. -/
def NewVoteTrie (P : Primitives) (node : Hash) (diskdb : Database) : Option Trie × Option Err :=
  NewTrieWithPrefix P node votePrefix diskdb

/-- The function `NewCandidateTrie`. -/
def NewCandidateTrie (P : Primitives) (node : Hash) (diskdb : Database) :
    Option Trie × Option Err :=
  NewTrieWithPrefix P node candidatePrefix diskdb

/-- The function `NewMintCntTrie`. -/
def NewMintCntTrie (P : Primitives) (node : Hash) (diskdb : Database) :
    Option Trie × Option Err :=
  NewTrieWithPrefix P node mintCntPrefix diskdb

/-- The function `NewDposContextFromProto`: the aggregate, or `nil` with the
error of the first store that fails to open. -/
def NewDposContextFromProto (P : Primitives) (db : Database) (ctxProto : DposContextProto) :
    Option DposContext × Option Err :=
  match NewEpochTrie P ctxProto.EpochHash db with
  | (some epochTrie, none) =>
    match NewDelegateTrie P ctxProto.DelegateHash db with
    | (some delegateTrie, none) =>
      match NewVoteTrie P ctxProto.VoteHash db with
      | (some voteTrie, none) =>
        match NewCandidateTrie P ctxProto.CandidateHash db with
        | (some candidateTrie, none) =>
          match NewMintCntTrie P ctxProto.MintCntHash db with
          | (some mintCntTrie, none) =>
            (some
              { epochTrie := epochTrie
                delegateTrie := delegateTrie
                voteTrie := voteTrie
                candidateTrie := candidateTrie
                mintCntTrie := mintCntTrie }, none)
          | (_, err) => (none, err)
        | (_, err) => (none, err)
      | (_, err) => (none, err)
    | (_, err) => (none, err)
  | (_, err) => (none, err)

/-- The method `DposContext.FromProto`: the stores of `d` are replaced in the
order epoch, delegate, candidate, vote, mint-count. A store that fails to open
leaves a `nil` store in the aggregate, which is then no aggregate any more:
the result is `none` with the error. -/
def DposContext.FromProto (P : Primitives) (db : Database) (d : DposContext)
    (dcp : DposContextProto) : Option DposContext × Option Err :=
  match NewEpochTrie P dcp.EpochHash db with
  | (some epochTrie, none) =>
    let d1 := { d with epochTrie := epochTrie }
    match NewDelegateTrie P dcp.DelegateHash db with
    | (some delegateTrie, none) =>
      let d2 := { d1 with delegateTrie := delegateTrie }
      match NewCandidateTrie P dcp.CandidateHash db with
      | (some candidateTrie, none) =>
        let d3 := { d2 with candidateTrie := candidateTrie }
        match NewVoteTrie P dcp.VoteHash db with
        | (some voteTrie, none) =>
          let d4 := { d3 with voteTrie := voteTrie }
          match NewMintCntTrie P dcp.MintCntHash db with
          | (some mintCntTrie, none) => (some { d4 with mintCntTrie := mintCntTrie }, none)
          | (_, err) => (none, err)
        | (_, err) => (none, err)
      | (_, err) => (none, err)
    | (_, err) => (none, err)
  | (_, err) => (none, err)

/-- The method `DposContext.CommitTo`: the Compact Form or the error, and the
database after the call. -/
def DposContext.CommitTo (P : Primitives) (d : DposContext) (db : Database) :
    (Option DposContextProto × Option Err) × Database :=
  let epochRoot := d.epochTrie.Commit P
  match epochRoot.2 with
  | some err => ((none, some err), db)
  | none =>
    let f1 := d.epochTrie.TrieDBCommit epochRoot.1 db
    match f1.2 with
    | some err => ((none, some err), f1.1)
    | none =>
      let delegateRoot := d.delegateTrie.Commit P
      match delegateRoot.2 with
      | some err => ((none, some err), f1.1)
      | none =>
        let f2 := d.delegateTrie.TrieDBCommit delegateRoot.1 f1.1
        match f2.2 with
        | some err => ((none, some err), f2.1)
        | none =>
          let voteRoot := d.voteTrie.Commit P
          match voteRoot.2 with
          | some err => ((none, some err), f2.1)
          | none =>
            let f3 := d.voteTrie.TrieDBCommit voteRoot.1 f2.1
            match f3.2 with
            | some err => ((none, some err), f3.1)
            | none =>
              let candidateRoot := d.candidateTrie.Commit P
              match candidateRoot.2 with
              | some err => ((none, some err), f3.1)
              | none =>
                let f4 := d.candidateTrie.TrieDBCommit candidateRoot.1 f3.1
                match f4.2 with
                | some err => ((none, some err), f4.1)
                | none =>
                  let mintCntRoot := d.mintCntTrie.Commit P
                  match mintCntRoot.2 with
                  | some err => ((none, some err), f4.1)
                  | none =>
                    let f5 := d.mintCntTrie.TrieDBCommit mintCntRoot.1 f4.1
                    match f5.2 with
                    | some err => ((none, some err), f5.1)
                    | none =>
                      ((some
                        { EpochHash := epochRoot.1
                          DelegateHash := delegateRoot.1
                          VoteHash := voteRoot.1
                          CandidateHash := candidateRoot.1
                          MintCntHash := mintCntRoot.1 }, none), f5.1)

/-- The five stores in the order in which `CommitTo` commits and flushes them. -/
def DposContext.commitOrder (d : DposContext) : List Trie :=
  [d.epochTrie, d.delegateTrie, d.voteTrie, d.candidateTrie, d.mintCntTrie]

/-- A checksum over bytes used as sample hash when examples are evaluated: the
sum of the bytes and their number, each modulo 256, a byte 1 and twenty-nine
zero bytes. -/
def sampleHash (b : ByteSlice) : Hash :=
  ⟨byteOf (b.foldl (fun acc x => acc + x.val) 0) :: byteOf b.length :: 1 ::
      List.replicate 29 0,
    by simp⟩

/-- Sample primitives for evaluating examples: the checksum as hash, and as
digest the checksum of the keys and values of the content. -/
def samplePrimitives : Primitives :=
  { keccak256 := sampleHash
    digest := fun es => sampleHash (es.map (fun e => e.1 ++ e.2)).flatten }

/-! ## The Root as the specification words it -/

/-- The Root of the specification (section 3): the hash of the five encoded
store digests, concatenated in the order epoch, delegate, candidate, vote,
mint-count. -/
def specRoot (P : Primitives)
    (epochDigest delegateDigest candidateDigest voteDigest mintCntDigest : Hash) : Hash :=
  P.keccak256 (rlpEncodeHash epochDigest ++ rlpEncodeHash delegateDigest ++
    rlpEncodeHash candidateDigest ++ rlpEncodeHash voteDigest ++ rlpEncodeHash mintCntDigest)

/-! ## Well-formed content -/

/-- The entries are in strictly ascending key order (so no key occurs twice). -/
def Sorted (l : List (ByteSlice × ByteSlice)) : Prop :=
  l.Pairwise (fun a b => bytesLess a.1 b.1 = true)

/-- The invariant of the aggregate states reachable from a fresh aggregate. -/
structure Inv (d : DposContext) : Prop where
  noFaults : d.NoFaults
  sortedEpoch : Sorted d.epochTrie.entries
  sortedDelegate : Sorted d.delegateTrie.entries
  sortedVote : Sorted d.voteTrie.entries
  sortedCandidate : Sorted d.candidateTrie.entries
  sortedMintCnt : Sorted d.mintCntTrie.entries
  edge : ∀ k v, d.delegateTrie.get k = some v →
    ∃ c dl : Address, k = c.Bytes ++ dl.Bytes ∧ v = dl.Bytes ∧
      d.voteTrie.get dl.Bytes = some c.Bytes
  vote : ∀ k v, d.voteTrie.get k = some v →
    ∃ c dl : Address, k = dl.Bytes ∧ v = c.Bytes ∧
      d.delegateTrie.get (c.Bytes ++ dl.Bytes) = some dl.Bytes ∧
      d.candidateTrie.get c.Bytes = some c.Bytes
  candidate : ∀ k v, d.candidateTrie.get k = some v → v = k

/-! ## Lemmas: bytes -/

theorem bytesLess_irrefl (a : ByteSlice) : bytesLess a a = false := by
  induction a with
  | nil => rfl
  | cons x xs ih => simp [bytesLess, ih]

theorem bytesLess_trans : ∀ (a b c : ByteSlice),
    bytesLess a b = true → bytesLess b c = true → bytesLess a c = true
  | [], [], _, h, _ => by simp [bytesLess] at h
  | [], _ :: _, [], _, h => by simp [bytesLess] at h
  | [], _ :: _, _ :: _, _, _ => by simp [bytesLess]
  | _ :: _, [], _, h, _ => by simp [bytesLess] at h
  | _ :: _, _ :: _, [], _, h => by simp [bytesLess] at h
  | x :: xs, y :: ys, z :: zs, h1, h2 => by
    simp only [bytesLess] at h1 h2 ⊢
    by_cases hxy : x < y
    · by_cases hyz : y < z
      · simp [lt_trans hxy hyz]
      · by_cases hzy : z < y
        · simp [hyz, hzy] at h2
        · have : y = z := le_antisymm (not_lt.mp hzy) (not_lt.mp hyz)
          subst this
          simp [hxy]
    · by_cases hyx : y < x
      · simp [hxy, hyx] at h1
      · have hxy2 : x = y := le_antisymm (not_lt.mp hyx) (not_lt.mp hxy)
        subst hxy2
        simp only [hxy, if_false] at h1
        by_cases hxz : x < z
        · simp [hxz]
        · by_cases hzx : z < x
          · simp [hxz, hzx] at h2
          · simp only [hxz, hzx, if_false] at h2 ⊢
            exact bytesLess_trans xs ys zs h1 h2

theorem bytesLess_total : ∀ (a b : ByteSlice),
    a ≠ b → bytesLess b a = false → bytesLess a b = true
  | [], [], h, _ => absurd rfl h
  | [], _ :: _, _, _ => by simp [bytesLess]
  | _ :: _, [], _, h => by simp [bytesLess] at h
  | x :: xs, y :: ys, hne, h => by
    simp only [bytesLess] at h ⊢
    by_cases hxy : x < y
    · simp [hxy]
    · by_cases hyx : y < x
      · simp [hyx] at h
      · have hxy2 : x = y := le_antisymm (not_lt.mp hyx) (not_lt.mp hxy)
        subst hxy2
        simp only [hxy, if_false] at h ⊢
        exact bytesLess_total xs ys (fun e => hne (by rw [e])) h

theorem bytesLess_ne {a b : ByteSlice} (h : bytesLess a b = true) : a ≠ b := by
  rintro rfl
  rw [bytesLess_irrefl] at h
  exact Bool.noConfusion h

theorem hasPrefix_append (p s : ByteSlice) : hasPrefix (p ++ s) p = true := by
  induction p with
  | nil => cases s <;> rfl
  | cons x xs ih => simp [hasPrefix, ih]

theorem hasPrefix_append_iff : ∀ (p q s : ByteSlice), p.length = q.length →
    (hasPrefix (p ++ s) q = true ↔ p = q)
  | [], [], s, _ => by cases s <;> simp [hasPrefix]
  | [], _ :: _, _, h => by simp at h
  | _ :: _, [], _, h => by simp at h
  | x :: xs, y :: ys, s, h => by
    have hl : xs.length = ys.length := by simpa using h
    have ih := hasPrefix_append_iff xs ys s hl
    by_cases hxy : x = y
    · subst hxy
      simp [hasPrefix, ih]
    · simp [hasPrefix, hxy]

theorem Address.ext_bytes {a b : Address} (h : a.Bytes = b.Bytes) : a = b := by
  cases a; cases b; cases h; rfl

theorem Address.bytes_ne_nil (a : Address) : a.Bytes ≠ [] := by
  intro h
  have := a.size
  rw [h] at this
  simp at this

theorem Address.append_inj {c c2 d d2 : Address}
    (h : c.Bytes ++ d.Bytes = c2.Bytes ++ d2.Bytes) : c = c2 ∧ d = d2 := by
  have hl : c.Bytes.length = c2.Bytes.length := by rw [c.size, c2.size]
  have := List.append_inj h hl
  exact ⟨Address.ext_bytes this.1, Address.ext_bytes this.2⟩

theorem bytesEqual_some_address (v : NilableBytes) (c : Address) :
    bytesEqual v (some c.Bytes) = true ↔ v = some c.Bytes := by
  cases v with
  | none =>
    simp [bytesEqual]
    exact fun h => c.bytes_ne_nil h
  | some w => simp [bytesEqual]

/-! ## Lemmas: association lists -/

open Trie in
theorem lookup_insertEntry_self (k v : ByteSlice) (l : List (ByteSlice × ByteSlice)) :
    lookup k (insertEntry k v l) = some v := by
  induction l with
  | nil => simp [insertEntry, lookup]
  | cons e rest ih =>
    obtain ⟨k0, v0⟩ := e
    by_cases h1 : k0 = k
    · simp [insertEntry, lookup, h1]
    · by_cases h2 : bytesLess k k0 = true
      · simp [insertEntry, lookup, h1, h2]
      · simp [insertEntry, lookup, h1, h2, ih]

open Trie in
theorem lookup_insertEntry_ne {k k2 : ByteSlice} (h : k2 ≠ k) (v : ByteSlice)
    (l : List (ByteSlice × ByteSlice)) :
    lookup k2 (insertEntry k v l) = lookup k2 l := by
  have h' : ¬ k = k2 := fun e => h e.symm
  induction l with
  | nil => simp [insertEntry, lookup, h']
  | cons e rest ih =>
    obtain ⟨k0, v0⟩ := e
    by_cases h1 : k0 = k
    · subst h1
      simp [insertEntry, lookup, h']
    · by_cases h2 : bytesLess k k0 = true
      · simp [insertEntry, lookup, h1, h2, h']
      · simp [insertEntry, lookup, h1, h2, ih]

open Trie in
theorem lookup_eraseEntry_self (k : ByteSlice) (l : List (ByteSlice × ByteSlice)) :
    lookup k (eraseEntry k l) = none := by
  induction l with
  | nil => simp [eraseEntry, lookup]
  | cons e rest ih =>
    obtain ⟨k0, v0⟩ := e
    by_cases h1 : k0 = k
    · simp [eraseEntry, h1, ih]
    · simp [eraseEntry, lookup, h1, ih]

open Trie in
theorem lookup_eraseEntry_ne {k k2 : ByteSlice} (h : k2 ≠ k)
    (l : List (ByteSlice × ByteSlice)) :
    lookup k2 (eraseEntry k l) = lookup k2 l := by
  induction l with
  | nil => simp [eraseEntry]
  | cons e rest ih =>
    obtain ⟨k0, v0⟩ := e
    by_cases h1 : k0 = k
    · subst h1
      have : ¬ k0 = k2 := fun e => h e.symm
      simp [eraseEntry, lookup, ih, this]
    · simp [eraseEntry, lookup, h1, ih]

open Trie in
theorem mem_of_lookup {k v : ByteSlice} {l : List (ByteSlice × ByteSlice)}
    (h : lookup k l = some v) : (k, v) ∈ l := by
  induction l with
  | nil => simp [lookup] at h
  | cons e rest ih =>
    obtain ⟨k0, v0⟩ := e
    by_cases h1 : k0 = k
    · subst h1
      simp [lookup] at h
      simp [h]
    · simp [lookup, h1] at h
      exact List.mem_cons_of_mem _ (ih h)

open Trie in
theorem lookup_of_mem {k v : ByteSlice} {l : List (ByteSlice × ByteSlice)}
    (hs : Sorted l) (h : (k, v) ∈ l) : lookup k l = some v := by
  induction l with
  | nil => simp at h
  | cons e rest ih =>
    obtain ⟨k0, v0⟩ := e
    have hs' := List.pairwise_cons.mp hs
    rcases List.mem_cons.mp h with h | h
    · cases h
      simp [lookup]
    · have hlt := hs'.1 _ h
      have hne : k0 ≠ k := bytesLess_ne hlt
      simp [lookup, hne, ih hs'.2 h]

open Trie in
theorem mem_insertEntry {k v : ByteSlice} {e : ByteSlice × ByteSlice}
    {l : List (ByteSlice × ByteSlice)} (h : e ∈ insertEntry k v l) : e = (k, v) ∨ e ∈ l := by
  induction l with
  | nil => simpa [insertEntry] using h
  | cons e0 rest ih =>
    obtain ⟨k0, v0⟩ := e0
    by_cases h1 : k0 = k
    · simp only [insertEntry, h1, if_true, List.mem_cons] at h
      rcases h with h | h
      · exact Or.inl h
      · exact Or.inr (List.mem_cons_of_mem _ h)
    · by_cases h2 : bytesLess k k0 = true
      · simp only [insertEntry, h1, h2, if_true, if_false, List.mem_cons] at h
        rcases h with h | h | h
        · exact Or.inl h
        · exact Or.inr (by simp [h])
        · exact Or.inr (List.mem_cons_of_mem _ h)
      · simp only [insertEntry, h1, h2, if_false] at h
        rcases List.mem_cons.mp h with h3 | h3
        · exact Or.inr (by simp [h3])
        · rcases ih h3 with h4 | h4
          · exact Or.inl h4
          · exact Or.inr (List.mem_cons_of_mem _ h4)

open Trie in
theorem mem_eraseEntry {k : ByteSlice} {e : ByteSlice × ByteSlice}
    {l : List (ByteSlice × ByteSlice)} (h : e ∈ eraseEntry k l) : e ∈ l := by
  induction l with
  | nil => simp [eraseEntry] at h
  | cons e0 rest ih =>
    obtain ⟨k0, v0⟩ := e0
    by_cases h1 : k0 = k
    · simp only [eraseEntry, h1, if_true] at h
      exact List.mem_cons_of_mem _ (ih h)
    · simp only [eraseEntry, h1, if_false, List.mem_cons] at h
      rcases h with h | h
      · simp [h]
      · exact List.mem_cons_of_mem _ (ih h)

open Trie in
theorem sorted_insertEntry (k v : ByteSlice) {l : List (ByteSlice × ByteSlice)}
    (hs : Sorted l) : Sorted (insertEntry k v l) := by
  induction l with
  | nil => simp [insertEntry, Sorted]
  | cons e0 rest ih =>
    obtain ⟨k0, v0⟩ := e0
    have hs' := List.pairwise_cons.mp hs
    by_cases h1 : k0 = k
    · subst h1
      simp only [insertEntry, if_true]
      exact List.pairwise_cons.mpr ⟨hs'.1, hs'.2⟩
    · by_cases h2 : bytesLess k k0 = true
      · simp only [insertEntry, h1, h2, if_true, if_false]
        refine List.pairwise_cons.mpr ⟨?_, hs⟩
        intro e he
        rcases List.mem_cons.mp he with he | he
        · rw [he]; exact h2
        · exact bytesLess_trans _ _ _ h2 (hs'.1 e he)
      · simp only [insertEntry, h1, h2, if_false]
        have hlt : bytesLess k0 k = true :=
          bytesLess_total k0 k h1 (by simpa using h2)
        refine List.pairwise_cons.mpr ⟨?_, ih hs'.2⟩
        intro e he
        rcases mem_insertEntry he with he | he
        · rw [he]; exact hlt
        · exact hs'.1 e he

open Trie in
theorem sorted_eraseEntry (k : ByteSlice) {l : List (ByteSlice × ByteSlice)}
    (hs : Sorted l) : Sorted (eraseEntry k l) := by
  induction l with
  | nil => simp [eraseEntry, Sorted]
  | cons e0 rest ih =>
    obtain ⟨k0, v0⟩ := e0
    have hs' := List.pairwise_cons.mp hs
    by_cases h1 : k0 = k
    · simp only [eraseEntry, h1, if_true]
      exact ih hs'.2
    · simp only [eraseEntry, h1, if_false]
      refine List.pairwise_cons.mpr ⟨?_, ih hs'.2⟩
      intro e he
      exact hs'.1 e (mem_eraseEntry he)

/-! ## Lemmas: store operations without faults -/

theorem faultAt_of_noFaults {t : Trie} (h : t.NoFaults) (op : TrieOp) (k : ByteSlice) :
    t.faultAt op k = none := by
  unfold Trie.NoFaults at h
  simp [Trie.faultAt, h]

theorem TryGet_of_noFaults {t : Trie} (h : t.NoFaults) (k : ByteSlice) :
    t.TryGet k = (t.get k, none) := by
  simp [Trie.TryGet, faultAt_of_noFaults h]

theorem TryDelete_of_noFaults {t : Trie} (h : t.NoFaults) (k : ByteSlice) :
    t.TryDelete k = (⟨Trie.eraseEntry k t.entries, t.faults⟩, none) := by
  simp [Trie.TryDelete, faultAt_of_noFaults h]

theorem TryUpdate_of_noFaults {t : Trie} (h : t.NoFaults) (k : ByteSlice) {v : ByteSlice}
    (hv : v ≠ []) :
    t.TryUpdate k v = (⟨Trie.insertEntry k v t.entries, t.faults⟩, none) := by
  simp [Trie.TryUpdate, faultAt_of_noFaults h, hv]

theorem TryDelete_faults (t : Trie) (k : ByteSlice) : (t.TryDelete k).1.faults = t.faults := by
  unfold Trie.TryDelete
  split <;> rfl

theorem TryUpdate_faults (t : Trie) (k v : ByteSlice) :
    (t.TryUpdate k v).1.faults = t.faults := by
  unfold Trie.TryUpdate
  split
  · exact TryDelete_faults t k
  · split <;> rfl

theorem rlpEncodeAddresses_ne_nil (l : List Address) : rlpEncodeAddresses l ≠ [] := by
  unfold rlpEncodeAddresses
  dsimp only
  split <;> simp

/-! ## Lemmas: the domain operations without faults -/

namespace DposContext

theorem BecomeCandidate_of_noFaults {d : DposContext} (hf : d.NoFaults) (c : Address) :
    d.BecomeCandidate c =
      ({ d with candidateTrie :=
          ⟨Trie.insertEntry c.Bytes c.Bytes d.candidateTrie.entries, d.candidateTrie.faults⟩ },
        none) := by
  simp [BecomeCandidate, TryUpdate_of_noFaults hf.2.2.2.1 c.Bytes c.bytes_ne_nil]

theorem SetValidators_of_noFaults {d : DposContext} (hf : d.NoFaults) (l : List Address) :
    d.SetValidators l =
      ({ d with epochTrie :=
          ⟨Trie.insertEntry validatorKey (rlpEncodeAddresses l) d.epochTrie.entries,
            d.epochTrie.faults⟩ },
        none) := by
  simp [SetValidators, Trie.Update,
    TryUpdate_of_noFaults hf.1 validatorKey (rlpEncodeAddresses_ne_nil l)]

theorem Delegate_invalid {d : DposContext} (hf : d.NoFaults) (dl c : Address)
    (hc : d.candidateTrie.get c.Bytes = none) :
    d.Delegate dl c = (d, some .invalidCandidateToDelegate) := by
  simp [Delegate, TryGet_of_noFaults hf.2.2.2.1, hc]

theorem Delegate_valid {d : DposContext} (hf : d.NoFaults) (dl c : Address) {w : ByteSlice}
    (hc : d.candidateTrie.get c.Bytes = some w) :
    d.Delegate dl c =
      ({ d with
          delegateTrie :=
            ⟨Trie.insertEntry (c.Bytes ++ dl.Bytes) dl.Bytes
              (match d.voteTrie.get dl.Bytes with
                | some old => Trie.eraseEntry (old ++ dl.Bytes) d.delegateTrie.entries
                | none => d.delegateTrie.entries),
              d.delegateTrie.faults⟩
          voteTrie := ⟨Trie.insertEntry dl.Bytes c.Bytes d.voteTrie.entries, d.voteTrie.faults⟩ },
        none) := by
  have hfd := hf.2.1
  have hfv := hf.2.2.1
  cases hv : d.voteTrie.get dl.Bytes with
  | none =>
    simp [Delegate, TryGet_of_noFaults hf.2.2.2.1, hc, TryGet_of_noFaults hfv, hv, notTolerated,
      TryUpdate_of_noFaults hfd _ dl.bytes_ne_nil, TryUpdate_of_noFaults hfv _ c.bytes_ne_nil]
  | some old =>
    have hfd' : (d.delegateTrie.Delete (old ++ dl.Bytes)).NoFaults := by
      unfold Trie.NoFaults Trie.Delete
      rw [TryDelete_faults]
      exact hfd
    simp [Delegate, TryGet_of_noFaults hf.2.2.2.1, hc, TryGet_of_noFaults hfv, hv, notTolerated,
      TryUpdate_of_noFaults hfd' _ dl.bytes_ne_nil, TryUpdate_of_noFaults hfv _ c.bytes_ne_nil]
    simp [Trie.Delete, TryDelete_of_noFaults hfd]

theorem UnDelegate_invalid {d : DposContext} (hf : d.NoFaults) (dl c : Address)
    (hc : d.candidateTrie.get c.Bytes = none) :
    d.UnDelegate dl c = (d, some .invalidCandidateToUndelegate) := by
  simp [UnDelegate, TryGet_of_noFaults hf.2.2.2.1, hc]

theorem UnDelegate_mismatch {d : DposContext} (hf : d.NoFaults) (dl c : Address) {w : ByteSlice}
    (hc : d.candidateTrie.get c.Bytes = some w)
    (hv : d.voteTrie.get dl.Bytes ≠ some c.Bytes) :
    d.UnDelegate dl c = (d, some .mismatchCandidateToUndelegate) := by
  have hb : bytesEqual (some c.Bytes) (d.voteTrie.get dl.Bytes) = false := by
    cases hb : bytesEqual (some c.Bytes) (d.voteTrie.get dl.Bytes) with
    | false => rfl
    | true =>
      exfalso
      apply hv
      apply (bytesEqual_some_address _ c).mp
      simpa [bytesEqual, eq_comm] using hb
  simp [UnDelegate, TryGet_of_noFaults hf.2.2.2.1, hc, TryGet_of_noFaults hf.2.2.1, hb]

theorem UnDelegate_valid {d : DposContext} (hf : d.NoFaults) (dl c : Address) {w : ByteSlice}
    (hc : d.candidateTrie.get c.Bytes = some w)
    (hv : d.voteTrie.get dl.Bytes = some c.Bytes) :
    d.UnDelegate dl c =
      ({ d with
          delegateTrie :=
            ⟨Trie.eraseEntry (c.Bytes ++ dl.Bytes) d.delegateTrie.entries,
              d.delegateTrie.faults⟩
          voteTrie := ⟨Trie.eraseEntry dl.Bytes d.voteTrie.entries, d.voteTrie.faults⟩ },
        none) := by
  have hb : bytesEqual (some c.Bytes) (d.voteTrie.get dl.Bytes) = true := by
    simp [bytesEqual, hv]
  simp [UnDelegate, TryGet_of_noFaults hf.2.2.2.1, hc, TryGet_of_noFaults hf.2.2.1, hb,
    TryDelete_of_noFaults hf.2.1, TryDelete_of_noFaults hf.2.2.1]

end DposContext

/-! ## Lemmas: the cascade of `KickoutCandidate` -/

namespace DposContext

theorem kickoutLoop_cons {d : DposContext} (hf : d.NoFaults) (c k0 v0 : ByteSlice)
    (rest : List (ByteSlice × ByteSlice)) :
    kickoutLoop c ((k0, v0) :: rest) d =
      kickoutLoop c rest
        { d with
          delegateTrie := ⟨Trie.eraseEntry (c ++ v0) d.delegateTrie.entries, d.delegateTrie.faults⟩
          voteTrie :=
            if bytesEqual (d.voteTrie.get v0) (some c) = true then
              ⟨Trie.eraseEntry v0 d.voteTrie.entries, d.voteTrie.faults⟩
            else d.voteTrie } := by
  by_cases hb : bytesEqual (d.voteTrie.get v0) (some c) = true
  · simp [kickoutLoop, TryDelete_of_noFaults hf.2.1, TryGet_of_noFaults hf.2.2.1,
      TryDelete_of_noFaults hf.2.2.1, notTolerated, hb]
  · simp [kickoutLoop, TryDelete_of_noFaults hf.2.1, TryGet_of_noFaults hf.2.2.1,
      notTolerated, hb]

/-- What the cascade loop does to an aggregate whose stores raise no error. -/
theorem kickoutLoop_spec (c : ByteSlice) (L : List (ByteSlice × ByteSlice)) :
    ∀ d : DposContext, d.NoFaults →
      (kickoutLoop c L d).2 = none ∧
      (kickoutLoop c L d).1.NoFaults ∧
      (kickoutLoop c L d).1.epochTrie = d.epochTrie ∧
      (kickoutLoop c L d).1.candidateTrie = d.candidateTrie ∧
      (kickoutLoop c L d).1.mintCntTrie = d.mintCntTrie ∧
      (Sorted d.delegateTrie.entries → Sorted (kickoutLoop c L d).1.delegateTrie.entries) ∧
      (Sorted d.voteTrie.entries → Sorted (kickoutLoop c L d).1.voteTrie.entries) ∧
      (∀ e ∈ L, (kickoutLoop c L d).1.delegateTrie.get (c ++ e.2) = none) ∧
      (∀ k, (∀ e ∈ L, k ≠ c ++ e.2) →
        (kickoutLoop c L d).1.delegateTrie.get k = d.delegateTrie.get k) ∧
      (∀ e ∈ L, bytesEqual (d.voteTrie.get e.2) (some c) = true →
        (kickoutLoop c L d).1.voteTrie.get e.2 = none) ∧
      (∀ k, ((∀ e ∈ L, k ≠ e.2) ∨ bytesEqual (d.voteTrie.get k) (some c) = false) →
        (kickoutLoop c L d).1.voteTrie.get k = d.voteTrie.get k) := by
  induction L with
  | nil =>
    intro d hf
    simp [kickoutLoop, hf]
  | cons e0 rest ih =>
    obtain ⟨k0, v0⟩ := e0
    intro d hf
    rw [kickoutLoop_cons hf]
    have hf1 : DposContext.NoFaults
        { d with
          delegateTrie := ⟨Trie.eraseEntry (c ++ v0) d.delegateTrie.entries, d.delegateTrie.faults⟩
          voteTrie :=
            if bytesEqual (d.voteTrie.get v0) (some c) = true then
              ⟨Trie.eraseEntry v0 d.voteTrie.entries, d.voteTrie.faults⟩
            else d.voteTrie } := by
      refine ⟨hf.1, hf.2.1, ?_, hf.2.2.2.1, hf.2.2.2.2⟩
      dsimp only
      split
      · exact hf.2.2.1
      · exact hf.2.2.1
    obtain ⟨h1, h2, h3, h4, h5, h6, h7, h8, h9, h10, h11⟩ := ih _ hf1
    refine ⟨h1, h2, h3, h4, h5, ?_, ?_, ?_, ?_, ?_, ?_⟩
    · intro hs
      exact h6 (sorted_eraseEntry _ hs)
    · intro hs
      apply h7
      dsimp only
      split
      · exact sorted_eraseEntry _ hs
      · exact hs
    · intro e he
      rcases List.mem_cons.mp he with he | he
      · subst he
        by_cases hex : ∃ e ∈ rest, c ++ v0 = c ++ e.2
        · obtain ⟨e, he, heq⟩ := hex
          have := h8 e he
          rw [← heq] at this
          exact this
        · have hall : ∀ e ∈ rest, c ++ v0 ≠ c ++ e.2 := fun e he heq => hex ⟨e, he, heq⟩
          rw [h9 _ hall]
          exact lookup_eraseEntry_self _ _
      · exact h8 e he
    · intro k hk
      have hk0 : k ≠ c ++ v0 := hk (k0, v0) (List.mem_cons_self _ _)
      rw [h9 k (fun e he => hk e (List.mem_cons_of_mem _ he))]
      exact lookup_eraseEntry_ne hk0 _
    · intro e he hb
      by_cases hv : e.2 = v0
      · by_cases hex : (∃ e2 ∈ rest, e.2 = e2.2) ∧
            bytesEqual (Trie.get (if bytesEqual (d.voteTrie.get v0) (some c) = true then
              (⟨Trie.eraseEntry v0 d.voteTrie.entries, d.voteTrie.faults⟩ : Trie)
            else d.voteTrie) e.2) (some c) = true
        · obtain ⟨⟨e2, he2, heq⟩, hb2⟩ := hex
          rw [heq]
          apply h10 e2 he2
          rw [← heq]
          exact hb2
        · have hmiss : (∀ e2 ∈ rest, e.2 ≠ e2.2) ∨
              bytesEqual (Trie.get (if bytesEqual (d.voteTrie.get v0) (some c) = true then
                (⟨Trie.eraseEntry v0 d.voteTrie.entries, d.voteTrie.faults⟩ : Trie)
              else d.voteTrie) e.2) (some c) = false := by
            by_cases hall : ∀ e2 ∈ rest, e.2 ≠ e2.2
            · exact Or.inl hall
            · right
              push_neg at hall
              obtain ⟨e2, he2, heq⟩ := hall
              cases hbb : bytesEqual (Trie.get (if bytesEqual (d.voteTrie.get v0) (some c) = true
                then (⟨Trie.eraseEntry v0 d.voteTrie.entries, d.voteTrie.faults⟩ : Trie)
                else d.voteTrie) e.2) (some c) with
              | false => rfl
              | true => exact absurd ⟨⟨e2, he2, heq⟩, hbb⟩ hex
          rw [h11 _ hmiss]
          rw [hv] at hb ⊢
          rw [if_pos hb]
          exact lookup_eraseEntry_self _ _
      · rcases List.mem_cons.mp he with he | he
        · subst he
          exact absurd rfl hv
        · have hget : Trie.get (if bytesEqual (d.voteTrie.get v0) (some c) = true then
              (⟨Trie.eraseEntry v0 d.voteTrie.entries, d.voteTrie.faults⟩ : Trie)
            else d.voteTrie) e.2 = d.voteTrie.get e.2 := by
            split
            · exact lookup_eraseEntry_ne hv _
            · rfl
          apply h10 e he
          rw [hget]
          exact hb
    · intro k hk
      have hget : Trie.get (if bytesEqual (d.voteTrie.get v0) (some c) = true then
            (⟨Trie.eraseEntry v0 d.voteTrie.entries, d.voteTrie.faults⟩ : Trie)
          else d.voteTrie) k = d.voteTrie.get k := by
        by_cases hkv : k = v0
        · subst hkv
          rcases hk with hk | hk
          · exact absurd rfl (hk (k0, k) (List.mem_cons_self _ _))
          · rw [if_neg (by simp [hk])]
        · split
          · exact lookup_eraseEntry_ne hkv _
          · rfl
      rw [h11 k ?_, hget]
      rcases hk with hk | hk
      · exact Or.inl (fun e he => hk e (List.mem_cons_of_mem _ he))
      · right
        rw [hget]
        exact hk

end DposContext

/-! ## Lemmas: the invariant is kept by every operation -/

open Trie in
theorem lookup_eraseEntry_some {k k2 v : ByteSlice} {l : List (ByteSlice × ByteSlice)}
    (h : lookup k (eraseEntry k2 l) = some v) : k ≠ k2 ∧ lookup k l = some v := by
  by_cases hk : k = k2
  · subst hk
    rw [lookup_eraseEntry_self] at h
    exact Option.noConfusion h
  · rw [lookup_eraseEntry_ne hk] at h
    exact ⟨hk, h⟩

open Trie in
theorem lookup_insertEntry_some {k k2 v v2 : ByteSlice} {l : List (ByteSlice × ByteSlice)}
    (h : lookup k (insertEntry k2 v2 l) = some v) :
    (k = k2 ∧ v = v2) ∨ (k ≠ k2 ∧ lookup k l = some v) := by
  by_cases hk : k = k2
  · subst hk
    rw [lookup_insertEntry_self] at h
    exact Or.inl ⟨rfl, (Option.some.inj h).symm⟩
  · rw [lookup_insertEntry_ne hk] at h
    exact Or.inr ⟨hk, h⟩

theorem append_address_ne {a b : ByteSlice} {d d2 : Address} (h : d ≠ d2) :
    a ++ d.Bytes ≠ b ++ d2.Bytes := by
  intro heq
  have hl : d.Bytes.length = d2.Bytes.length := by rw [d.size, d2.size]
  exact h (Address.ext_bytes (List.append_inj' heq hl).2)

theorem inv_new : Inv NewDposContext := by
  refine ⟨?_, ?_, ?_, ?_, ?_, ?_, ?_, ?_, ?_⟩
  · exact ⟨rfl, rfl, rfl, rfl, rfl⟩
  all_goals first
    | exact List.Pairwise.nil
    | (intro k v h; simp [NewDposContext, Trie.empty, Trie.get, Trie.lookup] at h)

theorem inv_becomeCandidate {d : DposContext} (h : Inv d) (c : Address) :
    Inv (d.BecomeCandidate c).1 := by
  rw [DposContext.BecomeCandidate_of_noFaults h.noFaults]
  refine ⟨h.noFaults, h.sortedEpoch, h.sortedDelegate, h.sortedVote, ?_, h.sortedMintCnt,
    h.edge, ?_, ?_⟩
  · exact sorted_insertEntry _ _ h.sortedCandidate
  · intro k v hv
    obtain ⟨c2, dl, hk, hv2, hd, hc⟩ := h.vote k v hv
    refine ⟨c2, dl, hk, hv2, hd, ?_⟩
    show Trie.lookup c2.Bytes (Trie.insertEntry c.Bytes c.Bytes d.candidateTrie.entries) = _
    by_cases hcc : c2.Bytes = c.Bytes
    · rw [hcc, lookup_insertEntry_self]
    · rw [lookup_insertEntry_ne hcc]
      exact hc
  · intro k v hv
    rcases lookup_insertEntry_some hv with ⟨hk, hv2⟩ | ⟨_, hv2⟩
    · rw [hk, hv2]
    · exact h.candidate k v hv2

theorem inv_setValidators {d : DposContext} (h : Inv d) (l : List Address) :
    Inv (d.SetValidators l).1 := by
  rw [DposContext.SetValidators_of_noFaults h.noFaults]
  exact ⟨h.noFaults, sorted_insertEntry _ _ h.sortedEpoch, h.sortedDelegate, h.sortedVote,
    h.sortedCandidate, h.sortedMintCnt, h.edge, h.vote, h.candidate⟩

theorem inv_delegate {d : DposContext} (h : Inv d) (dl c : Address) :
    Inv (d.Delegate dl c).1 := by
  cases hc : d.candidateTrie.get c.Bytes with
  | none =>
    rw [DposContext.Delegate_invalid h.noFaults dl c hc]
    exact h
  | some w =>
    have hw : w = c.Bytes := h.candidate _ _ hc
    subst hw
    rw [DposContext.Delegate_valid h.noFaults dl c hc]
    have hbase : ∀ k v,
        Trie.lookup k (match d.voteTrie.get dl.Bytes with
          | some old => Trie.eraseEntry (old ++ dl.Bytes) d.delegateTrie.entries
          | none => d.delegateTrie.entries) = some v →
        d.delegateTrie.get k = some v ∧
          ∀ old, d.voteTrie.get dl.Bytes = some old → k ≠ old ++ dl.Bytes := by
      intro k v hkv
      cases hold : d.voteTrie.get dl.Bytes with
      | none =>
        rw [hold] at hkv
        exact ⟨hkv, fun old ho => Option.noConfusion ho⟩
      | some old =>
        rw [hold] at hkv
        have := lookup_eraseEntry_some hkv
        refine ⟨this.2, fun old2 ho => ?_⟩
        cases ho
        exact this.1
    refine ⟨h.noFaults, h.sortedEpoch, ?_, ?_, h.sortedCandidate, h.sortedMintCnt, ?_, ?_,
      h.candidate⟩
    · apply sorted_insertEntry
      cases d.voteTrie.get dl.Bytes with
      | none => exact h.sortedDelegate
      | some old => exact sorted_eraseEntry _ h.sortedDelegate
    · exact sorted_insertEntry _ _ h.sortedVote
    · intro k v hkv
      rcases lookup_insertEntry_some hkv with ⟨hk, hv⟩ | ⟨hk, hkv2⟩
      · exact ⟨c, dl, hk, hv, lookup_insertEntry_self _ _ _⟩
      · obtain ⟨hget, hnot⟩ := hbase k v hkv2
        obtain ⟨c2, d2, hk2, hv2, hvote⟩ := h.edge k v hget
        refine ⟨c2, d2, hk2, hv2, ?_⟩
        show Trie.lookup d2.Bytes (Trie.insertEntry dl.Bytes c.Bytes d.voteTrie.entries) = _
        by_cases hdd : d2 = dl
        · subst hdd
          exact absurd hk2 (hnot _ hvote)
        · rw [lookup_insertEntry_ne (fun e => hdd (Address.ext_bytes e))]
          exact hvote
    · intro k v hkv
      rcases lookup_insertEntry_some hkv with ⟨hk, hv⟩ | ⟨hk, hkv2⟩
      · exact ⟨c, dl, hk, hv, lookup_insertEntry_self _ _ _, hc⟩
      · obtain ⟨c2, d2, hk2, hv2, hedge, hcand⟩ := h.vote k v hkv2
        refine ⟨c2, d2, hk2, hv2, ?_, hcand⟩
        have hdd : d2 ≠ dl := fun e => hk (by rw [hk2, e])
        show Trie.lookup (c2.Bytes ++ d2.Bytes) (Trie.insertEntry (c.Bytes ++ dl.Bytes) dl.Bytes _)
          = _
        rw [lookup_insertEntry_ne (append_address_ne hdd)]
        cases hold : d.voteTrie.get dl.Bytes with
        | none => exact hedge
        | some old =>
          show Trie.lookup _ (Trie.eraseEntry _ _) = _
          rw [lookup_eraseEntry_ne (append_address_ne hdd)]
          exact hedge

theorem inv_unDelegate {d : DposContext} (h : Inv d) (dl c : Address) :
    Inv (d.UnDelegate dl c).1 := by
  cases hc : d.candidateTrie.get c.Bytes with
  | none =>
    rw [DposContext.UnDelegate_invalid h.noFaults dl c hc]
    exact h
  | some w =>
    by_cases hv : d.voteTrie.get dl.Bytes = some c.Bytes
    · rw [DposContext.UnDelegate_valid h.noFaults dl c hc hv]
      refine ⟨h.noFaults, h.sortedEpoch, sorted_eraseEntry _ h.sortedDelegate,
        sorted_eraseEntry _ h.sortedVote, h.sortedCandidate, h.sortedMintCnt, ?_, ?_,
        h.candidate⟩
      · intro k v hkv
        obtain ⟨hk, hkv2⟩ := lookup_eraseEntry_some hkv
        obtain ⟨c2, d2, hk2, hv2, hvote⟩ := h.edge k v hkv2
        refine ⟨c2, d2, hk2, hv2, ?_⟩
        show Trie.lookup d2.Bytes (Trie.eraseEntry dl.Bytes d.voteTrie.entries) = _
        by_cases hdd : d2 = dl
        · subst hdd
          rw [hv] at hvote
          rw [← Option.some.inj hvote] at hk2
          exact absurd hk2 hk
        · rw [lookup_eraseEntry_ne (fun e => hdd (Address.ext_bytes e))]
          exact hvote
      · intro k v hkv
        obtain ⟨hk, hkv2⟩ := lookup_eraseEntry_some hkv
        obtain ⟨c2, d2, hk2, hv2, hedge, hcand⟩ := h.vote k v hkv2
        refine ⟨c2, d2, hk2, hv2, ?_, hcand⟩
        have hdd : d2 ≠ dl := fun e => hk (by rw [hk2, e])
        show Trie.lookup (c2.Bytes ++ d2.Bytes) (Trie.eraseEntry (c.Bytes ++ dl.Bytes) _) = _
        rw [lookup_eraseEntry_ne (append_address_ne hdd)]
        exact hedge
    · rw [DposContext.UnDelegate_mismatch h.noFaults dl c hc hv]
      exact h

theorem KickoutCandidate_of_noFaults {d : DposContext} (hf : d.NoFaults) (c : Address) :
    d.KickoutCandidate c =
      DposContext.kickoutLoop c.Bytes (d.delegateTrie.PrefixIterator c.Bytes)
        { d with candidateTrie :=
            ⟨Trie.eraseEntry c.Bytes d.candidateTrie.entries, d.candidateTrie.faults⟩ } := by
  simp [DposContext.KickoutCandidate, TryDelete_of_noFaults hf.2.2.2.1, notTolerated]

theorem address_append_hasPrefix (c2 d2 c : Address) :
    hasPrefix (c2.Bytes ++ d2.Bytes) c.Bytes = true ↔ c2 = c := by
  rw [hasPrefix_append_iff _ _ _ (by rw [c2.size, c.size])]
  exact ⟨Address.ext_bytes, fun h => by rw [h]⟩

/-- The cascade on a state that satisfies the invariant: it succeeds, keeps
the invariant, and removes the candidate with all its edges and votes. -/
theorem kickout_of_inv {d : DposContext} (h : Inv d) (c : Address) :
    (d.KickoutCandidate c).2 = none ∧ Inv (d.KickoutCandidate c).1 ∧
      (d.KickoutCandidate c).1.candidateTrie.get c.Bytes = none ∧
      (∀ k v, (d.KickoutCandidate c).1.delegateTrie.get k = some v →
        hasPrefix k c.Bytes = false) ∧
      (∀ k, (d.KickoutCandidate c).1.voteTrie.get k ≠ some c.Bytes) := by
  rw [KickoutCandidate_of_noFaults h.noFaults]
  have hf0 : DposContext.NoFaults
      { d with candidateTrie :=
          ⟨Trie.eraseEntry c.Bytes d.candidateTrie.entries, d.candidateTrie.faults⟩ } :=
    ⟨h.noFaults.1, h.noFaults.2.1, h.noFaults.2.2.1, h.noFaults.2.2.2.1, h.noFaults.2.2.2.2⟩
  obtain ⟨h1, h2, h3, h4, h5, h6, h7, h8, h9, h10, h11⟩ :=
    DposContext.kickoutLoop_spec c.Bytes (d.delegateTrie.PrefixIterator c.Bytes) _ hf0
  generalize DposContext.kickoutLoop c.Bytes (d.delegateTrie.PrefixIterator c.Bytes)
      { d with candidateTrie :=
          ⟨Trie.eraseEntry c.Bytes d.candidateTrie.entries, d.candidateTrie.faults⟩ } = r
    at h1 h2 h3 h4 h5 h6 h7 h8 h9 h10 h11 ⊢
  dsimp only at h3 h4 h5 h6 h7 h9 h10 h11
  -- every edge of the candidate is visited
  have hvisit : ∀ d2 : Address, d.delegateTrie.get (c.Bytes ++ d2.Bytes) = some d2.Bytes →
      (c.Bytes ++ d2.Bytes, d2.Bytes) ∈ d.delegateTrie.PrefixIterator c.Bytes := by
    intro d2 hd2
    unfold Trie.PrefixIterator
    rw [List.mem_filter]
    exact ⟨mem_of_lookup hd2, by simpa using hasPrefix_append _ _⟩
  -- a delegate entry that survives belongs to another candidate
  have hA : ∀ k v, r.1.delegateTrie.get k = some v →
      ∃ c2 d2 : Address, c2 ≠ c ∧ k = c2.Bytes ++ d2.Bytes ∧ v = d2.Bytes ∧
        d.voteTrie.get d2.Bytes = some c2.Bytes := by
    intro k v hkv
    by_cases hex : ∃ e ∈ d.delegateTrie.PrefixIterator c.Bytes, k = c.Bytes ++ e.2
    · obtain ⟨e, he, hk⟩ := hex
      rw [hk, h8 e he] at hkv
      exact Option.noConfusion hkv
    · have hall : ∀ e ∈ d.delegateTrie.PrefixIterator c.Bytes, k ≠ c.Bytes ++ e.2 :=
        fun e he hk => hex ⟨e, he, hk⟩
      rw [h9 k hall] at hkv
      obtain ⟨c2, d2, hk2, hv2, hvote⟩ := h.edge k v hkv
      refine ⟨c2, d2, ?_, hk2, hv2, hvote⟩
      intro hcc
      subst hcc
      subst hk2
      subst hv2
      exact hall _ (hvisit d2 hkv) rfl
  -- a vote entry that survives references another candidate
  have hB : ∀ k v, r.1.voteTrie.get k = some v →
      ∃ c2 d2 : Address, c2 ≠ c ∧ k = d2.Bytes ∧ v = c2.Bytes ∧
        d.delegateTrie.get (c2.Bytes ++ d2.Bytes) = some d2.Bytes ∧
        d.candidateTrie.get c2.Bytes = some c2.Bytes := by
    intro k v hkv
    by_cases hmiss : (∀ e ∈ d.delegateTrie.PrefixIterator c.Bytes, k ≠ e.2) ∨
        bytesEqual (d.voteTrie.get k) (some c.Bytes) = false
    · rw [h11 k hmiss] at hkv
      obtain ⟨c2, d2, hk2, hv2, hedge, hcand⟩ := h.vote k v hkv
      refine ⟨c2, d2, ?_, hk2, hv2, hedge, hcand⟩
      intro hcc
      subst hcc
      subst hk2
      subst hv2
      rcases hmiss with hm | hm
      · exact hm _ (hvisit d2 hedge) rfl
      · rw [hkv] at hm
        simp [bytesEqual] at hm
    · rw [not_or] at hmiss
      obtain ⟨hm1, hm2⟩ := hmiss
      push_neg at hm1
      obtain ⟨e, he, hk⟩ := hm1
      have hb : bytesEqual (d.voteTrie.get k) (some c.Bytes) = true := by
        simpa using hm2
      rw [hk] at hb hkv
      rw [h10 e he hb] at hkv
      exact Option.noConfusion hkv
  refine ⟨h1, ?_, ?_, ?_, ?_⟩
  · refine ⟨h2, ?_, h6 h.sortedDelegate, h7 h.sortedVote, ?_, ?_, ?_, ?_, ?_⟩
    · rw [h3]; exact h.sortedEpoch
    · rw [h4]; exact sorted_eraseEntry _ h.sortedCandidate
    · rw [h5]; exact h.sortedMintCnt
    · intro k v hkv
      obtain ⟨c2, d2, hcc, hk2, hv2, hvote⟩ := hA k v hkv
      refine ⟨c2, d2, hk2, hv2, ?_⟩
      rw [h11 d2.Bytes (Or.inr ?_)]
      · exact hvote
      · rw [hvote]
        simp only [bytesEqual, Option.getD_some, decide_eq_false_iff_not]
        exact fun e => hcc (Address.ext_bytes e)
    · intro k v hkv
      obtain ⟨c2, d2, hcc, hk2, hv2, hedge, hcand⟩ := hB k v hkv
      refine ⟨c2, d2, hk2, hv2, ?_, ?_⟩
      · rw [h9 _ ?_]
        · exact hedge
        · intro e _ heq
          have hl : c2.Bytes.length = c.Bytes.length := by rw [c2.size, c.size]
          exact hcc (Address.ext_bytes (List.append_inj heq hl).1)
      · rw [h4]
        show Trie.lookup c2.Bytes (Trie.eraseEntry c.Bytes d.candidateTrie.entries) = _
        rw [lookup_eraseEntry_ne (fun e => hcc (Address.ext_bytes e))]
        exact hcand
    · intro k v hkv
      rw [h4] at hkv
      exact h.candidate k v (lookup_eraseEntry_some hkv).2
  · rw [h4]
    exact lookup_eraseEntry_self _ _
  · intro k v hkv
    obtain ⟨c2, d2, hcc, hk2, _, _⟩ := hA k v hkv
    rw [hk2]
    cases hp : hasPrefix (c2.Bytes ++ d2.Bytes) c.Bytes with
    | false => rfl
    | true => exact absurd ((address_append_hasPrefix c2 d2 c).mp hp) hcc
  · intro k hkv
    obtain ⟨c2, d2, hcc, _, hv2, _, _⟩ := hB k _ hkv
    exact hcc (Address.ext_bytes hv2.symm)

theorem inv_apply {d : DposContext} (h : Inv d) (op : Op) : Inv (op.apply d).1 := by
  cases op with
  | becomeCandidate c => exact inv_becomeCandidate h c
  | delegate dl c => exact inv_delegate h dl c
  | unDelegate dl c => exact inv_unDelegate h dl c
  | kickoutCandidate c => exact (kickout_of_inv h c).2.1
  | setValidators l => exact inv_setValidators h l

theorem inv_run (ops : List Op) : ∀ {d : DposContext}, Inv d → Inv (run ops d) := by
  induction ops with
  | nil => intro d h; exact h
  | cons op ops ih => intro d h; exact ih (inv_apply h op)

/-! ## Reachable-state invariants -/

/-- C1: in every aggregate state reached from a fresh aggregate by any finite
sequence of BecomeCandidate, Delegate, UnDelegate, KickoutCandidate and
SetValidators calls (each applied whether it succeeds or fails), the delegate
store holds the key `c ++ d` with value `d` exactly when the vote store maps
`d` to `c`; a key `c ++ d` that is present carries the value `d`; and a
delegator has at most one delegation edge. -/
theorem C1_edge_iff_vote (ops : List Op) (c d : Address) :
    ((run ops NewDposContext).delegateTrie.get (c.Bytes ++ d.Bytes) = some d.Bytes ↔
      (run ops NewDposContext).voteTrie.get d.Bytes = some c.Bytes) ∧
    ((run ops NewDposContext).delegateTrie.get (c.Bytes ++ d.Bytes) ≠ none ↔
      (run ops NewDposContext).delegateTrie.get (c.Bytes ++ d.Bytes) = some d.Bytes) ∧
    (∀ c2 : Address,
      (run ops NewDposContext).delegateTrie.get (c.Bytes ++ d.Bytes) ≠ none →
      (run ops NewDposContext).delegateTrie.get (c2.Bytes ++ d.Bytes) ≠ none → c = c2) := by
  have h : Inv (run ops NewDposContext) := inv_run ops inv_new
  have key : ∀ c1 : Address, ∀ v,
      (run ops NewDposContext).delegateTrie.get (c1.Bytes ++ d.Bytes) = some v →
      v = d.Bytes ∧ (run ops NewDposContext).voteTrie.get d.Bytes = some c1.Bytes := by
    intro c1 v hv
    obtain ⟨c2, d2, hk, hv2, hvote⟩ := h.edge _ _ hv
    obtain ⟨hc, hd⟩ := Address.append_inj hk
    subst hc
    subst hd
    exact ⟨hv2, hvote⟩
  have present : ∀ c1 : Address,
      (run ops NewDposContext).delegateTrie.get (c1.Bytes ++ d.Bytes) ≠ none →
      (run ops NewDposContext).voteTrie.get d.Bytes = some c1.Bytes := by
    intro c1 hne
    cases hv : (run ops NewDposContext).delegateTrie.get (c1.Bytes ++ d.Bytes) with
    | none => exact absurd hv hne
    | some v => exact (key c1 v hv).2
  refine ⟨⟨fun hv => (key c _ hv).2, ?_⟩, ⟨?_, ?_⟩, ?_⟩
  · intro hv
    obtain ⟨c2, d2, hk, hv2, hedge, _⟩ := h.vote _ _ hv
    have hd : d2 = d := Address.ext_bytes hk.symm
    have hc : c2 = c := Address.ext_bytes hv2.symm
    subst hd
    subst hc
    exact hedge
  · intro hne
    cases hv : (run ops NewDposContext).delegateTrie.get (c.Bytes ++ d.Bytes) with
    | none => exact absurd hv hne
    | some v => rw [(key c v hv).1]
  · intro hv hnone
    rw [hnone] at hv
    exact Option.noConfusion hv
  · intro c2 h1 h2
    have e1 := present c h1
    have e2 := present c2 h2
    rw [e1] at e2
    exact Address.ext_bytes (Option.some.inj e2)

/-- C2: in every aggregate state reached from a fresh aggregate by any finite
sequence of domain operations (BecomeCandidate, Delegate, UnDelegate and
KickoutCandidate, and SetValidators as well), a vote entry of a delegator `d`
has as value an address that is present in the candidate store. -/
theorem C2_votes_reference_candidates (ops : List Op) (d : Address) (v : ByteSlice)
    (hv : (run ops NewDposContext).voteTrie.get d.Bytes = some v) :
    ∃ c : Address, v = c.Bytes ∧
      (run ops NewDposContext).candidateTrie.get c.Bytes = some c.Bytes := by
  have h : Inv (run ops NewDposContext) := inv_run ops inv_new
  obtain ⟨c2, _, _, hv2, _, hcand⟩ := h.vote _ _ hv
  exact ⟨c2, hv2, hcand⟩

theorem C2_votes_reference_candidates_witness :
    (run [.becomeCandidate (Address.ofByte 1), .delegate (Address.ofByte 2) (Address.ofByte 1)]
        NewDposContext).voteTrie.get (Address.ofByte 2).Bytes = some (Address.ofByte 1).Bytes ∧
    ∃ c : Address, (Address.ofByte 1).Bytes = c.Bytes ∧
      (run [.becomeCandidate (Address.ofByte 1), .delegate (Address.ofByte 2) (Address.ofByte 1)]
        NewDposContext).candidateTrie.get c.Bytes = some c.Bytes :=
  ⟨by decide,
    C2_votes_reference_candidates
      [.becomeCandidate (Address.ofByte 1), .delegate (Address.ofByte 2) (Address.ofByte 1)]
      (Address.ofByte 2) (Address.ofByte 1).Bytes (by decide)⟩

/-! ## The cascade of `KickoutCandidate` -/

/-- C3: on every aggregate state reached from a fresh aggregate by domain
operations and for every address `c`, KickoutCandidate(c) succeeds and
afterwards `c` is absent from the candidate store, no delegate-store key is
prefixed by `c`, no vote-store entry has value `c`, and Delegate(d, c) fails
with the invalid-candidate error for every `d`. In the scenario where `A`
registers, `D1` and `D2` delegate to `A` and `A` is kicked out, both edges and
both votes are gone and Delegate(D1, A) fails with that error. -/
theorem C3_kickout_cascade :
    (∀ (ops : List Op) (c : Address),
      ((run ops NewDposContext).KickoutCandidate c).2 = none ∧
      ((run ops NewDposContext).KickoutCandidate c).1.candidateTrie.get c.Bytes = none ∧
      (∀ e ∈ ((run ops NewDposContext).KickoutCandidate c).1.delegateTrie.entries,
        hasPrefix e.1 c.Bytes = false) ∧
      (∀ e ∈ ((run ops NewDposContext).KickoutCandidate c).1.voteTrie.entries,
        e.2 ≠ c.Bytes) ∧
      (∀ dl : Address,
        (((run ops NewDposContext).KickoutCandidate c).1.Delegate dl c).2 =
          some .invalidCandidateToDelegate)) ∧
    ((run [.becomeCandidate (Address.ofByte 1),
          .delegate (Address.ofByte 2) (Address.ofByte 1),
          .delegate (Address.ofByte 3) (Address.ofByte 1)] NewDposContext).delegateTrie.entries =
        [((Address.ofByte 1).Bytes ++ (Address.ofByte 2).Bytes, (Address.ofByte 2).Bytes),
         ((Address.ofByte 1).Bytes ++ (Address.ofByte 3).Bytes, (Address.ofByte 3).Bytes)] ∧
      (run [.becomeCandidate (Address.ofByte 1),
          .delegate (Address.ofByte 2) (Address.ofByte 1),
          .delegate (Address.ofByte 3) (Address.ofByte 1)] NewDposContext).voteTrie.entries =
        [((Address.ofByte 2).Bytes, (Address.ofByte 1).Bytes),
         ((Address.ofByte 3).Bytes, (Address.ofByte 1).Bytes)] ∧
      (run [.becomeCandidate (Address.ofByte 1),
          .delegate (Address.ofByte 2) (Address.ofByte 1),
          .delegate (Address.ofByte 3) (Address.ofByte 1),
          .kickoutCandidate (Address.ofByte 1)] NewDposContext).delegateTrie.entries = [] ∧
      (run [.becomeCandidate (Address.ofByte 1),
          .delegate (Address.ofByte 2) (Address.ofByte 1),
          .delegate (Address.ofByte 3) (Address.ofByte 1),
          .kickoutCandidate (Address.ofByte 1)] NewDposContext).voteTrie.entries = [] ∧
      (run [.becomeCandidate (Address.ofByte 1),
          .delegate (Address.ofByte 2) (Address.ofByte 1),
          .delegate (Address.ofByte 3) (Address.ofByte 1),
          .kickoutCandidate (Address.ofByte 1)] NewDposContext).candidateTrie.entries = [] ∧
      ((run [.becomeCandidate (Address.ofByte 1),
          .delegate (Address.ofByte 2) (Address.ofByte 1),
          .delegate (Address.ofByte 3) (Address.ofByte 1),
          .kickoutCandidate (Address.ofByte 1)] NewDposContext).Delegate
            (Address.ofByte 2) (Address.ofByte 1)).2 = some .invalidCandidateToDelegate) := by
  refine ⟨?_, by decide⟩
  intro ops c
  have h : Inv (run ops NewDposContext) := inv_run ops inv_new
  obtain ⟨h1, h2, h3, h4, h5⟩ := kickout_of_inv h c
  refine ⟨h1, h3, ?_, ?_, ?_⟩
  · intro e he
    exact h4 e.1 e.2 (lookup_of_mem h2.sortedDelegate he)
  · intro e he hv
    apply h5 e.1
    rw [← hv]
    exact lookup_of_mem h2.sortedVote he
  · intro dl
    rw [DposContext.Delegate_invalid h2.noFaults dl c h3]

/-! ## Delegate and UnDelegate -/

/-- C4: on an aggregate whose stores raise no error, Delegate(d, c) succeeds
exactly when `c` is present in the candidate store; when `c` is absent it fails
with the invalid-candidate error; on success the vote entry of `d` is `c` and
the delegate store maps `c ++ d` to `d`. -/
theorem C4_delegate_postcondition (s : DposContext) (hf : s.NoFaults) (d c : Address) :
    ((s.Delegate d c).2 = none ↔ s.candidateTrie.get c.Bytes ≠ none) ∧
    (s.candidateTrie.get c.Bytes = none →
      (s.Delegate d c).2 = some .invalidCandidateToDelegate) ∧
    ((s.Delegate d c).2 = none →
      (s.Delegate d c).1.voteTrie.get d.Bytes = some c.Bytes ∧
      (s.Delegate d c).1.delegateTrie.get (c.Bytes ++ d.Bytes) = some d.Bytes) := by
  cases hc : s.candidateTrie.get c.Bytes with
  | none =>
    rw [DposContext.Delegate_invalid hf d c hc]
    simp
  | some w =>
    rw [DposContext.Delegate_valid hf d c hc]
    refine ⟨by simp, by simp, fun _ => ⟨?_, ?_⟩⟩
    · exact lookup_insertEntry_self _ _ _
    · exact lookup_insertEntry_self _ _ _

theorem C4_delegate_postcondition_witness :
    (NewDposContext.BecomeCandidate (Address.ofByte 1)).1.NoFaults ∧
    (((NewDposContext.BecomeCandidate (Address.ofByte 1)).1.Delegate
        (Address.ofByte 2) (Address.ofByte 1)).2 = none ↔
      (NewDposContext.BecomeCandidate (Address.ofByte 1)).1.candidateTrie.get
        (Address.ofByte 1).Bytes ≠ none) ∧
    ((NewDposContext.BecomeCandidate (Address.ofByte 1)).1.candidateTrie.get
        (Address.ofByte 1).Bytes = none →
      ((NewDposContext.BecomeCandidate (Address.ofByte 1)).1.Delegate
        (Address.ofByte 2) (Address.ofByte 1)).2 = some .invalidCandidateToDelegate) ∧
    (((NewDposContext.BecomeCandidate (Address.ofByte 1)).1.Delegate
        (Address.ofByte 2) (Address.ofByte 1)).2 = none →
      ((NewDposContext.BecomeCandidate (Address.ofByte 1)).1.Delegate
        (Address.ofByte 2) (Address.ofByte 1)).1.voteTrie.get (Address.ofByte 2).Bytes =
          some (Address.ofByte 1).Bytes ∧
      ((NewDposContext.BecomeCandidate (Address.ofByte 1)).1.Delegate
        (Address.ofByte 2) (Address.ofByte 1)).1.delegateTrie.get
          ((Address.ofByte 1).Bytes ++ (Address.ofByte 2).Bytes) =
          some (Address.ofByte 2).Bytes) :=
  ⟨by decide,
    C4_delegate_postcondition (NewDposContext.BecomeCandidate (Address.ofByte 1)).1 (by decide)
      (Address.ofByte 2) (Address.ofByte 1)⟩

/-- Re-delegation on an aggregate whose stores raise no error: both calls
succeed and the stale edge is gone. -/
theorem redelegation_of_noFaults (s : DposContext) (hf : s.NoFaults) (d c1 c2 : Address)
    (hne : c1 ≠ c2) (h1 : s.candidateTrie.get c1.Bytes ≠ none)
    (h2 : s.candidateTrie.get c2.Bytes ≠ none) :
    (s.Delegate d c1).2 = none ∧ ((s.Delegate d c1).1.Delegate d c2).2 = none ∧
    ((s.Delegate d c1).1.Delegate d c2).1.delegateTrie.get (c1.Bytes ++ d.Bytes) = none ∧
    ((s.Delegate d c1).1.Delegate d c2).1.delegateTrie.get (c2.Bytes ++ d.Bytes) =
      some d.Bytes ∧
    ((s.Delegate d c1).1.Delegate d c2).1.voteTrie.get d.Bytes = some c2.Bytes := by
  obtain ⟨w1, hw1⟩ := Option.ne_none_iff_exists'.mp h1
  obtain ⟨w2, hw2⟩ := Option.ne_none_iff_exists'.mp h2
  rw [DposContext.Delegate_valid hf d c1 hw1]
  have hf1 : DposContext.NoFaults
      { s with
        delegateTrie :=
          ⟨Trie.insertEntry (c1.Bytes ++ d.Bytes) d.Bytes
            (match s.voteTrie.get d.Bytes with
              | some old => Trie.eraseEntry (old ++ d.Bytes) s.delegateTrie.entries
              | none => s.delegateTrie.entries),
            s.delegateTrie.faults⟩
        voteTrie := ⟨Trie.insertEntry d.Bytes c1.Bytes s.voteTrie.entries, s.voteTrie.faults⟩ } :=
    ⟨hf.1, hf.2.1, hf.2.2.1, hf.2.2.2.1, hf.2.2.2.2⟩
  dsimp only
  rw [DposContext.Delegate_valid hf1 d c2 hw2]
  have hvote : Trie.get
      ⟨Trie.insertEntry d.Bytes c1.Bytes s.voteTrie.entries, s.voteTrie.faults⟩ d.Bytes =
        some c1.Bytes := lookup_insertEntry_self _ _ _
  have hkey : c1.Bytes ++ d.Bytes ≠ c2.Bytes ++ d.Bytes :=
    fun e => hne (Address.append_inj e).1
  refine ⟨rfl, rfl, ?_, ?_, ?_⟩
  · dsimp only
    rw [hvote]
    show Trie.lookup _ (Trie.insertEntry _ _ (Trie.eraseEntry _ _)) = none
    rw [lookup_insertEntry_ne hkey, lookup_eraseEntry_self]
  · exact lookup_insertEntry_self _ _ _
  · exact lookup_insertEntry_self _ _ _

/-- C6: on an aggregate whose stores raise no error, UnDelegate(d, c) succeeds
exactly when `c` is in the candidate store and the vote entry of `d` equals `c`.
It fails with the invalid-candidate error whenever `c` is not in the candidate
store, with the candidate-mismatch error when `c` is a candidate and the vote
entry of `d` is anything else, and in particular it fails when `d` has no vote
entry at all. -/
theorem C6_undelegate_failures (s : DposContext) (hf : s.NoFaults) (d c : Address) :
    ((s.UnDelegate d c).2 = none ↔
      (s.candidateTrie.get c.Bytes ≠ none ∧ s.voteTrie.get d.Bytes = some c.Bytes)) ∧
    (s.candidateTrie.get c.Bytes = none →
      (s.UnDelegate d c).2 = some .invalidCandidateToUndelegate) ∧
    (s.candidateTrie.get c.Bytes ≠ none → s.voteTrie.get d.Bytes ≠ some c.Bytes →
      (s.UnDelegate d c).2 = some .mismatchCandidateToUndelegate) ∧
    (s.voteTrie.get d.Bytes = none → (s.UnDelegate d c).2 ≠ none) := by
  cases hc : s.candidateTrie.get c.Bytes with
  | none =>
    rw [DposContext.UnDelegate_invalid hf d c hc]
    simp
  | some w =>
    by_cases hv : s.voteTrie.get d.Bytes = some c.Bytes
    · rw [DposContext.UnDelegate_valid hf d c hc hv]
      simp [hv]
    · rw [DposContext.UnDelegate_mismatch hf d c hc hv]
      simp [hv]

theorem C6_undelegate_failures_witness :
    (run [.becomeCandidate (Address.ofByte 1), .becomeCandidate (Address.ofByte 2),
        .delegate (Address.ofByte 3) (Address.ofByte 1)] NewDposContext).NoFaults ∧
    ((run [.becomeCandidate (Address.ofByte 1), .becomeCandidate (Address.ofByte 2),
        .delegate (Address.ofByte 3) (Address.ofByte 1)] NewDposContext).UnDelegate
          (Address.ofByte 3) (Address.ofByte 2)).2 = some .mismatchCandidateToUndelegate ∧
    ((run [.becomeCandidate (Address.ofByte 1), .becomeCandidate (Address.ofByte 2),
        .delegate (Address.ofByte 3) (Address.ofByte 1)] NewDposContext).UnDelegate
          (Address.ofByte 4) (Address.ofByte 2)).2 = some .mismatchCandidateToUndelegate :=
  ⟨by decide,
    (C6_undelegate_failures
      (run [.becomeCandidate (Address.ofByte 1), .becomeCandidate (Address.ofByte 2),
        .delegate (Address.ofByte 3) (Address.ofByte 1)] NewDposContext)
      (by decide) (Address.ofByte 3) (Address.ofByte 2)).2.2.1 (by decide) (by decide),
    (C6_undelegate_failures
      (run [.becomeCandidate (Address.ofByte 1), .becomeCandidate (Address.ofByte 2),
        .delegate (Address.ofByte 3) (Address.ofByte 1)] NewDposContext)
      (by decide) (Address.ofByte 4) (Address.ofByte 2)).2.2.1 (by decide) (by decide)⟩

/-- C7: on an aggregate whose stores raise no error, for a delegator `d` and a
candidate `c` present in the candidate store, Delegate(d, c) succeeds, the
following UnDelegate(d, c) succeeds and leaves no vote entry for `d` and no
delegate-store entry under `c ++ d`, and a repeated UnDelegate(d, c) fails (with
the candidate-mismatch error). -/
theorem C7_undelegate_undoes_delegate (s : DposContext) (hf : s.NoFaults) (d c : Address)
    (hc : s.candidateTrie.get c.Bytes ≠ none) :
    (s.Delegate d c).2 = none ∧
    ((s.Delegate d c).1.UnDelegate d c).2 = none ∧
    ((s.Delegate d c).1.UnDelegate d c).1.voteTrie.get d.Bytes = none ∧
    ((s.Delegate d c).1.UnDelegate d c).1.delegateTrie.get (c.Bytes ++ d.Bytes) = none ∧
    (((s.Delegate d c).1.UnDelegate d c).1.UnDelegate d c).2 =
      some .mismatchCandidateToUndelegate := by
  obtain ⟨w, hw⟩ := Option.ne_none_iff_exists'.mp hc
  rw [DposContext.Delegate_valid hf d c hw]
  have hf1 : DposContext.NoFaults
      { s with
        delegateTrie :=
          ⟨Trie.insertEntry (c.Bytes ++ d.Bytes) d.Bytes
            (match s.voteTrie.get d.Bytes with
              | some old => Trie.eraseEntry (old ++ d.Bytes) s.delegateTrie.entries
              | none => s.delegateTrie.entries),
            s.delegateTrie.faults⟩
        voteTrie := ⟨Trie.insertEntry d.Bytes c.Bytes s.voteTrie.entries, s.voteTrie.faults⟩ } :=
    ⟨hf.1, hf.2.1, hf.2.2.1, hf.2.2.2.1, hf.2.2.2.2⟩
  have hvote : Trie.get
      ⟨Trie.insertEntry d.Bytes c.Bytes s.voteTrie.entries, s.voteTrie.faults⟩ d.Bytes =
        some c.Bytes := lookup_insertEntry_self _ _ _
  dsimp only
  rw [DposContext.UnDelegate_valid hf1 d c hw hvote]
  dsimp only
  refine ⟨rfl, rfl, lookup_eraseEntry_self _ _, lookup_eraseEntry_self _ _, ?_⟩
  have key : ∀ x : DposContext, x.NoFaults → x.candidateTrie.get c.Bytes = some w →
      x.voteTrie.get d.Bytes ≠ some c.Bytes →
      (x.UnDelegate d c).2 = some .mismatchCandidateToUndelegate := by
    intro x hx hcx hvx
    rw [DposContext.UnDelegate_mismatch hx d c hcx hvx]
  apply key
  · exact ⟨hf.1, hf.2.1, hf.2.2.1, hf.2.2.2.1, hf.2.2.2.2⟩
  · exact hw
  · show Trie.lookup _ (Trie.eraseEntry _ _) ≠ _
    rw [lookup_eraseEntry_self]
    exact fun h => Option.noConfusion h

theorem C7_undelegate_undoes_delegate_witness :
    (NewDposContext.BecomeCandidate (Address.ofByte 1)).1.NoFaults ∧
    (NewDposContext.BecomeCandidate (Address.ofByte 1)).1.candidateTrie.get
      (Address.ofByte 1).Bytes ≠ none ∧
    ((((NewDposContext.BecomeCandidate (Address.ofByte 1)).1.Delegate (Address.ofByte 2)
      (Address.ofByte 1)).1.UnDelegate (Address.ofByte 2) (Address.ofByte 1)).1.UnDelegate
        (Address.ofByte 2) (Address.ofByte 1)).2 = some .mismatchCandidateToUndelegate :=
  ⟨by decide, by decide,
    (C7_undelegate_undoes_delegate (NewDposContext.BecomeCandidate (Address.ofByte 1)).1
      (by decide) (Address.ofByte 2) (Address.ofByte 1) (by decide)).2.2.2.2⟩

/-! ## Lemmas: the heap -/

theorem read_write_ne (h : Heap) {p q : Nat} (hpq : p ≠ q) (t : Trie) :
    (h.write q t).read p = h.read p := by
  simp [Heap.read, Heap.write, List.getD_eq_getElem?_getD, List.getElem?_set_ne (Ne.symm hpq)]

theorem length_write (h : Heap) (q : Nat) (t : Trie) : (h.write q t).length = h.length := by
  simp [Heap.write]

theorem read_append_left (h l : Heap) {p : Nat} (hp : p < h.length) :
    Heap.read (h ++ l) p = h.read p := by
  simp [Heap.read, List.getD_eq_getElem?_getD, List.getElem?_append_left hp]

theorem read_assign_ne (h : Heap) (r : DposContextRef) (d : DposContext) {p : Nat}
    (h1 : p ≠ r.epochTrie) (h2 : p ≠ r.delegateTrie) (h3 : p ≠ r.voteTrie)
    (h4 : p ≠ r.candidateTrie) (h5 : p ≠ r.mintCntTrie) :
    (r.assign h d).read p = h.read p := by
  unfold DposContextRef.assign
  rw [read_write_ne _ h5, read_write_ne _ h4, read_write_ne _ h3, read_write_ne _ h2,
    read_write_ne _ h1]

theorem length_assign (h : Heap) (r : DposContextRef) (d : DposContext) :
    (r.assign h d).length = h.length := by
  simp [DposContextRef.assign, length_write]

theorem read_execAll_ne (ops : List Op) (r : DposContextRef) {p : Nat}
    (h1 : p ≠ r.epochTrie) (h2 : p ≠ r.delegateTrie) (h3 : p ≠ r.voteTrie)
    (h4 : p ≠ r.candidateTrie) (h5 : p ≠ r.mintCntTrie) :
    ∀ h : Heap, (DposContextRef.execAll ops h r).read p = h.read p := by
  induction ops with
  | nil => intro h; rfl
  | cons op ops ih =>
    intro h
    simp only [DposContextRef.execAll, DposContextRef.exec]
    rw [ih, read_assign_ne _ _ _ h1 h2 h3 h4 h5]

theorem Copy_heap (h : Heap) (r : DposContextRef) :
    (r.Copy h).1 = h ++ [h.read r.epochTrie, h.read r.delegateTrie, h.read r.voteTrie,
      h.read r.candidateTrie, h.read r.mintCntTrie] := by
  simp [DposContextRef.Copy, Heap.alloc]

theorem Copy_ref (h : Heap) (r : DposContextRef) :
    (r.Copy h).2 = ⟨h.length, h.length + 1, h.length + 2, h.length + 3, h.length + 4⟩ := by
  simp [DposContextRef.Copy, Heap.alloc]

theorem read_append_right (h : Heap) (l : Heap) (i : Nat) :
    Heap.read (h ++ l) (h.length + i) = Heap.read l i := by
  simp [Heap.read, List.getD_eq_getElem?_getD,
    List.getElem?_append_right (Nat.le_add_right h.length i)]

/-- The copy made by `Copy` holds the contents of the original. -/
theorem deref_Copy (h : Heap) (r : DposContextRef) :
    (r.Copy h).2.deref (r.Copy h).1 = r.deref h := by
  rw [Copy_heap, Copy_ref]
  unfold DposContextRef.deref
  have e0 := read_append_right h [h.read r.epochTrie, h.read r.delegateTrie, h.read r.voteTrie,
      h.read r.candidateTrie, h.read r.mintCntTrie] 0
  rw [Nat.add_zero] at e0
  simp only [e0, read_append_right]
  rfl

/-- Operations on an aggregate leave the stores of a snapshot taken of it as they were. -/
theorem deref_snapshot_execAll (h : Heap) (r : DposContextRef) (hwf : r.WF h) (ops : List Op) :
    (r.Snapshot h).2.deref (DposContextRef.execAll ops (r.Snapshot h).1 r) = r.deref h := by
  obtain ⟨⟨b1, b2, b3, b4, b5⟩, _⟩ := hwf
  have hfix : ∀ i : Nat,
      (DposContextRef.execAll ops (r.Snapshot h).1 r).read (h.length + i) =
        (r.Snapshot h).1.read (h.length + i) := by
    intro i
    apply read_execAll_ne <;> omega
  have hcopy := deref_Copy h r
  unfold DposContextRef.Snapshot at hfix ⊢
  rw [← hcopy]
  have e0 := hfix 0
  rw [Nat.add_zero] at e0
  rw [Copy_ref]
  unfold DposContextRef.deref
  simp only [e0, hfix]

theorem RevertToSnapShot_eq (r snapshot : DposContextRef) :
    r.RevertToSnapShot snapshot = snapshot := by
  cases snapshot
  rfl

/-- Operations on a snapshot leave the stores of the aggregate it was taken of as they were. -/
theorem deref_execAll_snapshot (h : Heap) (r : DposContextRef) (hwf : r.WF h) (ops : List Op) :
    r.deref (DposContextRef.execAll ops (r.Snapshot h).1 (r.Snapshot h).2) = r.deref h := by
  obtain ⟨⟨b1, b2, b3, b4, b5⟩, _⟩ := hwf
  have hfix : ∀ p : Nat, p < h.length →
      (DposContextRef.execAll ops (r.Snapshot h).1 (r.Snapshot h).2).read p = h.read p := by
    intro p hp
    unfold DposContextRef.Snapshot
    rw [read_execAll_ne, Copy_heap, read_append_left _ _ hp]
    all_goals (rw [Copy_ref]; dsimp only; omega)
  unfold DposContextRef.deref
  rw [hfix _ b1, hfix _ b2, hfix _ b3, hfix _ b4, hfix _ b5]

/-! ## Snapshot and Revert -/

/-- C8: for a well-formed aggregate `d`, a snapshot `s0` of it and any finite
sequence of domain operations then applied to `d` (successful or failing),
after `d.RevertToSnapShot(s0)` the five stores of `d` hold what they held when
the snapshot was taken, and `d.Root()` equals `s0.Root()` and the Root `d` had
at snapshot time. -/
theorem C8_snapshot_revert_roundtrip (h : Heap) (d : DposContextRef) (hwf : d.WF h)
    (ops : List Op) :
    (d.RevertToSnapShot (d.Snapshot h).2).deref
        (DposContextRef.execAll ops (d.Snapshot h).1 d) = d.deref h ∧
    ∀ P : Primitives,
      ((d.RevertToSnapShot (d.Snapshot h).2).deref
          (DposContextRef.execAll ops (d.Snapshot h).1 d)).Root P =
        ((d.Snapshot h).2.deref (DposContextRef.execAll ops (d.Snapshot h).1 d)).Root P ∧
      ((d.RevertToSnapShot (d.Snapshot h).2).deref
          (DposContextRef.execAll ops (d.Snapshot h).1 d)).Root P = (d.deref h).Root P ∧
      ((d.Snapshot h).2.deref (d.Snapshot h).1).Root P = (d.deref h).Root P := by
  rw [RevertToSnapShot_eq, deref_snapshot_execAll h d hwf ops]
  refine ⟨rfl, fun P => ⟨rfl, rfl, ?_⟩⟩
  unfold DposContextRef.Snapshot
  rw [deref_Copy]

theorem C8_snapshot_revert_roundtrip_witness :
    (DposContextRef.New []).2.WF (DposContextRef.New []).1 ∧
    ((DposContextRef.New []).2.RevertToSnapShot
        ((DposContextRef.New []).2.Snapshot (DposContextRef.New []).1).2).deref
      (DposContextRef.execAll
        [.becomeCandidate (Address.ofByte 1), .delegate (Address.ofByte 2) (Address.ofByte 1)]
        ((DposContextRef.New []).2.Snapshot (DposContextRef.New []).1).1
        (DposContextRef.New []).2) =
      (DposContextRef.New []).2.deref (DposContextRef.New []).1 :=
  ⟨by decide,
    (C8_snapshot_revert_roundtrip (DposContextRef.New []).1 (DposContextRef.New []).2
      (by decide)
      [.becomeCandidate (Address.ofByte 1), .delegate (Address.ofByte 2) (Address.ofByte 1)]).1⟩

/-- C9, evaluated on the code: a fresh aggregate `d` (pointers 0..4) is
snapshotted into `s` (pointers 5..9). After `d.RevertToSnapShot(s)` the five
pointers of `d` are those of `s`, so BecomeCandidate called on `d` changes the
candidate store of `s`, and reverting to `s` a second time does not bring back
the state captured when `s` was taken. -/
theorem C9_revert_shares_snapshot_stores :
    DposContextRef.New [] = (List.replicate 5 Trie.empty, ⟨0, 1, 2, 3, 4⟩) ∧
    (⟨0, 1, 2, 3, 4⟩ : DposContextRef).Snapshot (List.replicate 5 Trie.empty) =
      (List.replicate 10 Trie.empty, ⟨5, 6, 7, 8, 9⟩) ∧
    (⟨5, 6, 7, 8, 9⟩ : DposContextRef).deref (List.replicate 10 Trie.empty) = NewDposContext ∧
    (⟨0, 1, 2, 3, 4⟩ : DposContextRef).RevertToSnapShot ⟨5, 6, 7, 8, 9⟩ = ⟨5, 6, 7, 8, 9⟩ ∧
    ((⟨5, 6, 7, 8, 9⟩ : DposContextRef).deref
      (((⟨0, 1, 2, 3, 4⟩ : DposContextRef).RevertToSnapShot ⟨5, 6, 7, 8, 9⟩).exec
        (.becomeCandidate (Address.ofByte 1)) (List.replicate 10 Trie.empty)).1).candidateTrie.get
          (Address.ofByte 1).Bytes = some (Address.ofByte 1).Bytes ∧
    ((((⟨0, 1, 2, 3, 4⟩ : DposContextRef).RevertToSnapShot ⟨5, 6, 7, 8, 9⟩).RevertToSnapShot
        ⟨5, 6, 7, 8, 9⟩).deref
      (((⟨0, 1, 2, 3, 4⟩ : DposContextRef).RevertToSnapShot ⟨5, 6, 7, 8, 9⟩).exec
        (.becomeCandidate (Address.ofByte 1)) (List.replicate 10 Trie.empty)).1) ≠
      NewDposContext := by
  decide

/-! ## Root -/

/-- C10: the Root of an aggregate is the hash of the encodings of its five
current store digests concatenated in the order epoch, delegate, candidate,
vote, mint-count; ToProto places each store digest in the field of the same
name, and the Root of the aggregate equals the Root of its Compact Form. -/
theorem C10_root_definition (P : Primitives) (d : DposContext) :
    d.Root P =
      specRoot P (d.epochTrie.Hash P) (d.delegateTrie.Hash P) (d.candidateTrie.Hash P)
        (d.voteTrie.Hash P) (d.mintCntTrie.Hash P) ∧
    d.Root P =
      P.keccak256 (rlpEncodeHash (P.digest d.epochTrie.entries) ++
        rlpEncodeHash (P.digest d.delegateTrie.entries) ++
        rlpEncodeHash (P.digest d.candidateTrie.entries) ++
        rlpEncodeHash (P.digest d.voteTrie.entries) ++
        rlpEncodeHash (P.digest d.mintCntTrie.entries)) ∧
    ((d.ToProto P).EpochHash = d.epochTrie.Hash P ∧
      (d.ToProto P).DelegateHash = d.delegateTrie.Hash P ∧
      (d.ToProto P).CandidateHash = d.candidateTrie.Hash P ∧
      (d.ToProto P).VoteHash = d.voteTrie.Hash P ∧
      (d.ToProto P).MintCntHash = d.mintCntTrie.Hash P) ∧
    d.Root P = (d.ToProto P).Root P := by
  refine ⟨?_, ?_, ⟨rfl, rfl, rfl, rfl, rfl⟩, rfl⟩
  · simp [DposContext.Root, specRoot, HashWriter.Sum, HashWriter.Encode, NewKeccak256]
  · simp [DposContext.Root, HashWriter.Sum, HashWriter.Encode, NewKeccak256, Trie.Hash]

/-! ## Lemmas: commit and reconstruction -/

theorem Commit_of_noFault {P : Primitives} {t : Trie} (h : t.faultAt .commit [] = none) :
    t.Commit P = (t.Hash P, none) := by
  simp [Trie.Commit, h]

theorem Commit_of_fault {P : Primitives} {t : Trie} {e : Err}
    (h : t.faultAt .commit [] = some e) : t.Commit P = (zeroHash, some e) := by
  simp [Trie.Commit, h]

theorem TrieDBCommit_of_noFault {t : Trie} (h : t.faultAt .flush [] = none) (node : Hash)
    (db : Database) : t.TrieDBCommit node db = (db ++ [t.entries], none) := by
  simp [Trie.TrieDBCommit, h]

theorem TrieDBCommit_of_fault {t : Trie} {e : Err} (h : t.faultAt .flush [] = some e)
    (node : Hash) (db : Database) : t.TrieDBCommit node db = (db, some e) := by
  simp [Trie.TrieDBCommit, h]

/-- The outcome of `CommitTo` when all ten steps succeed. -/
theorem CommitTo_success (P : Primitives) (d : DposContext) (db : Database)
    (h : ∀ t ∈ d.commitOrder, t.faultAt .commit [] = none ∧ t.faultAt .flush [] = none) :
    d.CommitTo P db =
      ((some
        { EpochHash := d.epochTrie.Hash P
          DelegateHash := d.delegateTrie.Hash P
          VoteHash := d.voteTrie.Hash P
          CandidateHash := d.candidateTrie.Hash P
          MintCntHash := d.mintCntTrie.Hash P }, none),
        db ++ [d.epochTrie.entries, d.delegateTrie.entries, d.voteTrie.entries,
          d.candidateTrie.entries, d.mintCntTrie.entries]) := by
  have h1 := h d.epochTrie (by simp [DposContext.commitOrder])
  have h2 := h d.delegateTrie (by simp [DposContext.commitOrder])
  have h3 := h d.voteTrie (by simp [DposContext.commitOrder])
  have h4 := h d.candidateTrie (by simp [DposContext.commitOrder])
  have h5 := h d.mintCntTrie (by simp [DposContext.commitOrder])
  simp [DposContext.CommitTo, Commit_of_noFault h1.1, Commit_of_noFault h2.1,
    Commit_of_noFault h3.1, Commit_of_noFault h4.1, Commit_of_noFault h5.1,
    TrieDBCommit_of_noFault h1.2, TrieDBCommit_of_noFault h2.2, TrieDBCommit_of_noFault h3.2,
    TrieDBCommit_of_noFault h4.2, TrieDBCommit_of_noFault h5.2]

/-- The outcome of `CommitTo` when the commit or the flush of the store at
position `i` of the commit order is the first step to fail. -/
theorem CommitTo_first_failure (P : Primitives) (d : DposContext) (db : Database) (i : Nat)
    (t : Trie) (e : Err) (hi : d.commitOrder[i]? = some t)
    (hbefore : ∀ j u, j < i → d.commitOrder[j]? = some u →
      u.faultAt .commit [] = none ∧ u.faultAt .flush [] = none)
    (hfail : t.faultAt .commit [] = some e ∨
      (t.faultAt .commit [] = none ∧ t.faultAt .flush [] = some e)) :
    d.CommitTo P db =
      ((none, some e), db ++ (d.commitOrder.take i).map (fun u => u.entries)) := by
  have hlt : i < 5 := by
    have := (List.getElem?_eq_some.mp hi).1
    simpa [DposContext.commitOrder] using this
  have b0 := hbefore 0 d.epochTrie
  have b1 := hbefore 1 d.delegateTrie
  have b2 := hbefore 2 d.voteTrie
  have b3 := hbefore 3 d.candidateTrie
  interval_cases i
  · have ht : d.epochTrie = t := by simpa [DposContext.commitOrder] using hi
    subst ht
    rcases hfail with hc | ⟨hc, hfl⟩
    · simp [DposContext.CommitTo, Commit_of_fault hc]
    · simp [DposContext.CommitTo, Commit_of_noFault hc, TrieDBCommit_of_fault hfl]
  · have ht : d.delegateTrie = t := by simpa [DposContext.commitOrder] using hi
    subst ht
    have b0 := b0 (by omega) (by simp [DposContext.commitOrder])
    rcases hfail with hc | ⟨hc, hfl⟩
    · simp [DposContext.CommitTo, DposContext.commitOrder, Commit_of_noFault b0.1,
        TrieDBCommit_of_noFault b0.2, Commit_of_fault hc]
    · simp [DposContext.CommitTo, DposContext.commitOrder, Commit_of_noFault b0.1,
        TrieDBCommit_of_noFault b0.2, Commit_of_noFault hc, TrieDBCommit_of_fault hfl]
  · have ht : d.voteTrie = t := by simpa [DposContext.commitOrder] using hi
    subst ht
    have b0 := b0 (by omega) (by simp [DposContext.commitOrder])
    have b1 := b1 (by omega) (by simp [DposContext.commitOrder])
    rcases hfail with hc | ⟨hc, hfl⟩
    · simp [DposContext.CommitTo, DposContext.commitOrder, Commit_of_noFault b0.1,
        TrieDBCommit_of_noFault b0.2, Commit_of_noFault b1.1, TrieDBCommit_of_noFault b1.2,
        Commit_of_fault hc]
    · simp [DposContext.CommitTo, DposContext.commitOrder, Commit_of_noFault b0.1,
        TrieDBCommit_of_noFault b0.2, Commit_of_noFault b1.1, TrieDBCommit_of_noFault b1.2,
        Commit_of_noFault hc, TrieDBCommit_of_fault hfl]
  · have ht : d.candidateTrie = t := by simpa [DposContext.commitOrder] using hi
    subst ht
    have b0 := b0 (by omega) (by simp [DposContext.commitOrder])
    have b1 := b1 (by omega) (by simp [DposContext.commitOrder])
    have b2 := b2 (by omega) (by simp [DposContext.commitOrder])
    rcases hfail with hc | ⟨hc, hfl⟩
    · simp [DposContext.CommitTo, DposContext.commitOrder, Commit_of_noFault b0.1,
        TrieDBCommit_of_noFault b0.2, Commit_of_noFault b1.1, TrieDBCommit_of_noFault b1.2,
        Commit_of_noFault b2.1, TrieDBCommit_of_noFault b2.2, Commit_of_fault hc]
    · simp [DposContext.CommitTo, DposContext.commitOrder, Commit_of_noFault b0.1,
        TrieDBCommit_of_noFault b0.2, Commit_of_noFault b1.1, TrieDBCommit_of_noFault b1.2,
        Commit_of_noFault b2.1, TrieDBCommit_of_noFault b2.2, Commit_of_noFault hc,
        TrieDBCommit_of_fault hfl]
  · have ht : d.mintCntTrie = t := by simpa [DposContext.commitOrder] using hi
    subst ht
    have b0 := b0 (by omega) (by simp [DposContext.commitOrder])
    have b1 := b1 (by omega) (by simp [DposContext.commitOrder])
    have b2 := b2 (by omega) (by simp [DposContext.commitOrder])
    have b3 := b3 (by omega) (by simp [DposContext.commitOrder])
    rcases hfail with hc | ⟨hc, hfl⟩
    · simp [DposContext.CommitTo, DposContext.commitOrder, Commit_of_noFault b0.1,
        TrieDBCommit_of_noFault b0.2, Commit_of_noFault b1.1, TrieDBCommit_of_noFault b1.2,
        Commit_of_noFault b2.1, TrieDBCommit_of_noFault b2.2, Commit_of_noFault b3.1,
        TrieDBCommit_of_noFault b3.2, Commit_of_fault hc]
    · simp [DposContext.CommitTo, DposContext.commitOrder, Commit_of_noFault b0.1,
        TrieDBCommit_of_noFault b0.2, Commit_of_noFault b1.1, TrieDBCommit_of_noFault b1.2,
        Commit_of_noFault b2.1, TrieDBCommit_of_noFault b2.2, Commit_of_noFault b3.1,
        TrieDBCommit_of_noFault b3.2, Commit_of_noFault hc, TrieDBCommit_of_fault hfl]

/-- A Compact Form is returned only when none of the ten steps fails. -/
theorem CommitTo_proto_inv (P : Primitives) (d : DposContext) (db : Database)
    (p : DposContextProto) (h : (d.CommitTo P db).1.1 = some p) :
    ∀ t ∈ d.commitOrder, t.faultAt .commit [] = none ∧ t.faultAt .flush [] = none := by
  have step : ∀ (i : Nat) (t : Trie), d.commitOrder[i]? = some t →
      (∀ j u, j < i → d.commitOrder[j]? = some u →
        u.faultAt .commit [] = none ∧ u.faultAt .flush [] = none) →
      t.faultAt .commit [] = none ∧ t.faultAt .flush [] = none := by
    intro i t hi hbefore
    cases hc : t.faultAt .commit [] with
    | some e =>
      rw [CommitTo_first_failure P d db i t e hi hbefore (Or.inl hc)] at h
      exact Option.noConfusion h
    | none =>
      cases hfl : t.faultAt .flush [] with
      | some e =>
        rw [CommitTo_first_failure P d db i t e hi hbefore (Or.inr ⟨hc, hfl⟩)] at h
        exact Option.noConfusion h
      | none => exact ⟨rfl, rfl⟩
  have all : ∀ (n i : Nat) (t : Trie), i < n → d.commitOrder[i]? = some t →
      t.faultAt .commit [] = none ∧ t.faultAt .flush [] = none := by
    intro n
    induction n with
    | zero => intro i t hi; omega
    | succ n ih =>
      intro i t hi ht
      exact step i t ht (fun j u hj hu => ih j u (by omega) hu)
  intro t ht
  obtain ⟨i, hi⟩ := List.mem_iff_getElem?.mp ht
  exact all (i + 1) i t (by omega) hi

theorem NewTrieWithPrefix_of_mem (P : Primitives) (c : List (ByteSlice × ByteSlice))
    (pre : ByteSlice) (db : Database) (hz : P.digest c = zeroHash → P.digest [] = zeroHash)
    (hm : c ∈ db) :
    ∃ t, NewTrieWithPrefix P (P.digest c) pre db = (some t, none) ∧ t.Hash P = P.digest c := by
  unfold NewTrieWithPrefix
  by_cases h0 : P.digest c = zeroHash ∨ P.digest c = P.digest []
  · rw [if_pos h0]
    rcases h0 with h0 | h0
    · exact ⟨Trie.empty, rfl, (hz h0).trans h0.symm⟩
    · exact ⟨Trie.empty, rfl, h0.symm⟩
  · rw [if_neg h0]
    cases hfind : db.find? (fun c2 => decide (P.digest c2 = P.digest c)) with
    | none =>
      have := List.find?_eq_none.mp hfind c hm
      simp at this
    | some c2 =>
      have := List.find?_some hfind
      exact ⟨⟨c2, []⟩, rfl, by simpa [Trie.Hash] using this⟩

/-! ## Commit and reconstruction -/

/-- C11: when CommitTo succeeds with Compact Form `p` (a store opened at a
digest having that digest: the zero hash, which opens the empty store, is the
digest of no store or of the empty store), each field of `p` holds the digest of
the store of the same name, and the aggregate
reconstructed from `p` on the resulting database by NewDposContextFromProto, or
by FromProto on any aggregate, has ToProto equal to `p` and Root equal to the
Root of `p` and to the Root of the committed aggregate. -/
theorem C11_commit_reconstruct (P : Primitives) (d : DposContext) (db db2 : Database)
    (p : DposContextProto)
    (hz : ∀ t ∈ d.commitOrder, t.Hash P = zeroHash → P.digest [] = zeroHash)
    (h : d.CommitTo P db = ((some p, none), db2)) :
    (p.EpochHash = d.epochTrie.Hash P ∧ p.DelegateHash = d.delegateTrie.Hash P ∧
      p.VoteHash = d.voteTrie.Hash P ∧ p.CandidateHash = d.candidateTrie.Hash P ∧
      p.MintCntHash = d.mintCntTrie.Hash P) ∧
    (∃ d2, NewDposContextFromProto P db2 p = (some d2, none) ∧ d2.ToProto P = p ∧
      d2.Root P = p.Root P ∧ p.Root P = d.Root P) ∧
    (∀ d0 : DposContext, ∃ d2, d0.FromProto P db2 p = (some d2, none) ∧ d2.ToProto P = p ∧
      d2.Root P = p.Root P ∧ p.Root P = d.Root P) := by
  have hok := CommitTo_proto_inv P d db p (by rw [h])
  rw [CommitTo_success P d db hok] at h
  have hp := (Prod.mk.inj (Prod.mk.inj h).1).1
  have hdb := (Prod.mk.inj h).2
  have hp2 := Option.some.inj hp
  subst hp2
  subst hdb
  have z1 := hz d.epochTrie (by simp [DposContext.commitOrder])
  have z2 := hz d.delegateTrie (by simp [DposContext.commitOrder])
  have z3 := hz d.voteTrie (by simp [DposContext.commitOrder])
  have z4 := hz d.candidateTrie (by simp [DposContext.commitOrder])
  have z5 := hz d.mintCntTrie (by simp [DposContext.commitOrder])
  obtain ⟨t1, o1, e1⟩ := NewTrieWithPrefix_of_mem P d.epochTrie.entries epochPrefix
    (db ++ [d.epochTrie.entries, d.delegateTrie.entries, d.voteTrie.entries,
      d.candidateTrie.entries, d.mintCntTrie.entries]) z1 (by simp)
  obtain ⟨t2, o2, e2⟩ := NewTrieWithPrefix_of_mem P d.delegateTrie.entries delegatePrefix
    (db ++ [d.epochTrie.entries, d.delegateTrie.entries, d.voteTrie.entries,
      d.candidateTrie.entries, d.mintCntTrie.entries]) z2 (by simp)
  obtain ⟨t3, o3, e3⟩ := NewTrieWithPrefix_of_mem P d.voteTrie.entries votePrefix
    (db ++ [d.epochTrie.entries, d.delegateTrie.entries, d.voteTrie.entries,
      d.candidateTrie.entries, d.mintCntTrie.entries]) z3 (by simp)
  obtain ⟨t4, o4, e4⟩ := NewTrieWithPrefix_of_mem P d.candidateTrie.entries candidatePrefix
    (db ++ [d.epochTrie.entries, d.delegateTrie.entries, d.voteTrie.entries,
      d.candidateTrie.entries, d.mintCntTrie.entries]) z4 (by simp)
  obtain ⟨t5, o5, e5⟩ := NewTrieWithPrefix_of_mem P d.mintCntTrie.entries mintCntPrefix
    (db ++ [d.epochTrie.entries, d.delegateTrie.entries, d.voteTrie.entries,
      d.candidateTrie.entries, d.mintCntTrie.entries]) z5 (by simp)
  have r1 : ∀ x : DposContext, x.epochTrie = t1 → x.delegateTrie = t2 → x.voteTrie = t3 →
      x.candidateTrie = t4 → x.mintCntTrie = t5 →
      x.ToProto P =
        { EpochHash := d.epochTrie.Hash P
          DelegateHash := d.delegateTrie.Hash P
          VoteHash := d.voteTrie.Hash P
          CandidateHash := d.candidateTrie.Hash P
          MintCntHash := d.mintCntTrie.Hash P } ∧
      x.Root P = d.Root P := by
    intro x x1 x2 x3 x4 x5
    have g1 : t1.Hash P = d.epochTrie.Hash P := e1
    have g2 : t2.Hash P = d.delegateTrie.Hash P := e2
    have g3 : t3.Hash P = d.voteTrie.Hash P := e3
    have g4 : t4.Hash P = d.candidateTrie.Hash P := e4
    have g5 : t5.Hash P = d.mintCntTrie.Hash P := e5
    simp [DposContext.ToProto, DposContext.Root, x1, x2, x3, x4, x5, g1, g2, g3, g4, g5]
  have hroot : DposContextProto.Root P
      { EpochHash := d.epochTrie.Hash P
        DelegateHash := d.delegateTrie.Hash P
        VoteHash := d.voteTrie.Hash P
        CandidateHash := d.candidateTrie.Hash P
        MintCntHash := d.mintCntTrie.Hash P } = d.Root P := rfl
  refine ⟨⟨rfl, rfl, rfl, rfl, rfl⟩, ⟨⟨t1, t2, t3, t4, t5⟩, ?_, ?_⟩, fun d0 => ⟨⟨t1, t2, t3, t4, t5⟩, ?_, ?_⟩⟩
  · simp only [NewDposContextFromProto, NewEpochTrie, NewDelegateTrie, NewVoteTrie,
      NewCandidateTrie, NewMintCntTrie]
    have o1' : NewTrieWithPrefix P (d.epochTrie.Hash P) epochPrefix _ = _ := o1
    have o2' : NewTrieWithPrefix P (d.delegateTrie.Hash P) delegatePrefix _ = _ := o2
    have o3' : NewTrieWithPrefix P (d.voteTrie.Hash P) votePrefix _ = _ := o3
    have o4' : NewTrieWithPrefix P (d.candidateTrie.Hash P) candidatePrefix _ = _ := o4
    have o5' : NewTrieWithPrefix P (d.mintCntTrie.Hash P) mintCntPrefix _ = _ := o5
    rw [o1', o2', o3', o4', o5']
  · obtain ⟨a, b⟩ := r1 ⟨t1, t2, t3, t4, t5⟩ rfl rfl rfl rfl rfl
    exact ⟨a, by rw [hroot, b], hroot⟩
  · simp only [DposContext.FromProto, NewEpochTrie, NewDelegateTrie, NewVoteTrie,
      NewCandidateTrie, NewMintCntTrie]
    have o1' : NewTrieWithPrefix P (d.epochTrie.Hash P) epochPrefix _ = _ := o1
    have o2' : NewTrieWithPrefix P (d.delegateTrie.Hash P) delegatePrefix _ = _ := o2
    have o3' : NewTrieWithPrefix P (d.voteTrie.Hash P) votePrefix _ = _ := o3
    have o4' : NewTrieWithPrefix P (d.candidateTrie.Hash P) candidatePrefix _ = _ := o4
    have o5' : NewTrieWithPrefix P (d.mintCntTrie.Hash P) mintCntPrefix _ = _ := o5
    rw [o1', o2', o4', o3', o5']
  · obtain ⟨a, b⟩ := r1 ⟨t1, t2, t3, t4, t5⟩ rfl rfl rfl rfl rfl
    exact ⟨a, by rw [hroot, b], hroot⟩

theorem C11_commit_reconstruct_witness :
    (∀ t ∈ (NewDposContext.BecomeCandidate (Address.ofByte 1)).1.commitOrder,
      t.Hash samplePrimitives = zeroHash → samplePrimitives.digest [] = zeroHash) ∧
    (NewDposContext.BecomeCandidate (Address.ofByte 1)).1.CommitTo samplePrimitives [] =
      ((some ((NewDposContext.BecomeCandidate (Address.ofByte 1)).1.ToProto samplePrimitives),
        none),
        [[], [], [], [((Address.ofByte 1).Bytes, (Address.ofByte 1).Bytes)], []]) ∧
    ∃ d2,
      NewDposContextFromProto samplePrimitives
          [[], [], [], [((Address.ofByte 1).Bytes, (Address.ofByte 1).Bytes)], []]
          ((NewDposContext.BecomeCandidate (Address.ofByte 1)).1.ToProto samplePrimitives) =
        (some d2, none) ∧
      d2.ToProto samplePrimitives =
        (NewDposContext.BecomeCandidate (Address.ofByte 1)).1.ToProto samplePrimitives ∧
      d2.Root samplePrimitives =
        ((NewDposContext.BecomeCandidate (Address.ofByte 1)).1.ToProto samplePrimitives).Root
          samplePrimitives ∧
      ((NewDposContext.BecomeCandidate (Address.ofByte 1)).1.ToProto samplePrimitives).Root
          samplePrimitives =
        (NewDposContext.BecomeCandidate (Address.ofByte 1)).1.Root samplePrimitives :=
  ⟨by decide, by decide,
    (C11_commit_reconstruct samplePrimitives (NewDposContext.BecomeCandidate (Address.ofByte 1)).1
      [] [[], [], [], [((Address.ofByte 1).Bytes, (Address.ofByte 1).Bytes)], []]
      ((NewDposContext.BecomeCandidate (Address.ofByte 1)).1.ToProto samplePrimitives)
      (by decide) (by decide)).2.1⟩

/-- C15: CommitTo commits and then flushes the five stores in the order epoch,
delegate, vote, candidate, mint-count. When the commit or the flush of the store
at position `i` of that order is the first step to fail with `e`, CommitTo
returns `e` and no Compact Form, and the database holds, besides what it held,
exactly the contents of the stores before position `i`; a Compact Form is
returned only when all ten steps succeed, and then all five contents are in the
database. -/
theorem C15_commit_order_partial_failure (P : Primitives) (d : DposContext) (db : Database) :
    d.commitOrder =
      [d.epochTrie, d.delegateTrie, d.voteTrie, d.candidateTrie, d.mintCntTrie] ∧
    (∀ (i : Nat) (t : Trie) (e : Err), d.commitOrder[i]? = some t →
      (∀ j u, j < i → d.commitOrder[j]? = some u →
        u.faultAt .commit [] = none ∧ u.faultAt .flush [] = none) →
      (t.faultAt .commit [] = some e ∨
        (t.faultAt .commit [] = none ∧ t.faultAt .flush [] = some e)) →
      d.CommitTo P db =
        ((none, some e), db ++ (d.commitOrder.take i).map (fun u => u.entries))) ∧
    (∀ p, (d.CommitTo P db).1.1 = some p →
      ∀ t ∈ d.commitOrder, t.faultAt .commit [] = none ∧ t.faultAt .flush [] = none) ∧
    ((∀ t ∈ d.commitOrder, t.faultAt .commit [] = none ∧ t.faultAt .flush [] = none) →
      d.CommitTo P db =
        ((some (d.ToProto P), none),
          db ++ [d.epochTrie.entries, d.delegateTrie.entries, d.voteTrie.entries,
            d.candidateTrie.entries, d.mintCntTrie.entries])) := by
  refine ⟨rfl, ?_, ?_, ?_⟩
  · intro i t e hi hbefore hfail
    exact CommitTo_first_failure P d db i t e hi hbefore hfail
  · intro p hp
    exact CommitTo_proto_inv P d db p hp
  · intro hok
    rw [CommitTo_success P d db hok]
    rfl

theorem C15_commit_order_partial_failure_witness :
    (⟨Trie.empty, Trie.empty, ⟨[], [(.flush, [], .storeFailure)]⟩,
        ⟨[((Address.ofByte 1).Bytes, (Address.ofByte 1).Bytes)], []⟩,
        Trie.empty⟩ : DposContext).commitOrder[2]? =
      some ⟨[], [(.flush, [], .storeFailure)]⟩ ∧
    ((⟨[], [(.flush, [], .storeFailure)]⟩ : Trie).faultAt .commit [] = none ∧
      (⟨[], [(.flush, [], .storeFailure)]⟩ : Trie).faultAt .flush [] = some .storeFailure) ∧
    (⟨Trie.empty, Trie.empty, ⟨[], [(.flush, [], .storeFailure)]⟩,
        ⟨[((Address.ofByte 1).Bytes, (Address.ofByte 1).Bytes)], []⟩,
        Trie.empty⟩ : DposContext).CommitTo samplePrimitives [] =
      ((none, some .storeFailure), [[], []]) :=
  ⟨by decide, by decide,
    (C15_commit_order_partial_failure samplePrimitives
      ⟨Trie.empty, Trie.empty, ⟨[], [(.flush, [], .storeFailure)]⟩,
        ⟨[((Address.ofByte 1).Bytes, (Address.ofByte 1).Bytes)], []⟩, Trie.empty⟩ []).2.1 2
      ⟨[], [(.flush, [], .storeFailure)]⟩ .storeFailure (by decide)
      (by
        intro j u hj hu
        have hj2 : j = 0 ∨ j = 1 := by omega
        rcases hj2 with rfl | rfl
        · have hu2 : Trie.empty = u := by simpa [DposContext.commitOrder] using hu
          subst hu2
          decide
        · have hu2 : Trie.empty = u := by simpa [DposContext.commitOrder] using hu
          subst hu2
          decide)
      (Or.inr (by decide))⟩

/-! ## Lemmas: the encoding of the validator set -/

theorem byteOf_val (n : Nat) : (byteOf n).val = n % 256 := by
  simp [byteOf, Fin.ofNat]

theorem readint_putint (i : Nat) (h : i < 2 ^ 64) : readint (putint i) = i := by
  unfold putint
  split_ifs <;> simp [readint, byteOf_val] <;> omega

theorem putint_length (i : Nat) : 1 ≤ (putint i).length ∧ (putint i).length ≤ 8 := by
  unfold putint
  split_ifs <;> simp

theorem putint_head (i : Nat) (h : 0 < i) (h2 : i < 2 ^ 64) : (putint i).head? ≠ some 0 := by
  unfold putint
  split_ifs <;> simp [byteOf, Fin.ofNat, Fin.ext_iff] <;> omega

theorem length_encoded_items (l : List Address) :
    ((l.map rlpEncodeAddress).flatten).length = 21 * l.length := by
  induction l with
  | nil => rfl
  | cons a l ih =>
    simp only [List.map_cons, List.flatten_cons, List.length_append, ih, List.length_cons,
      rlpEncodeAddress, a.size]
    omega

theorem rlpDecodeItems_encoded (l : List Address) :
    ∀ fuel : Nat, l.length ≤ fuel →
      rlpDecodeItems fuel (l.map rlpEncodeAddress).flatten = some l := by
  induction l with
  | nil =>
    intro fuel _
    cases fuel <;> rfl
  | cons a l ih =>
    intro fuel hfuel
    cases fuel with
    | zero => simp at hfuel
    | succ f =>
      have hf : l.length ≤ f := by simpa using hfuel
      have htake : List.take 20 (a.Bytes ++ (l.map rlpEncodeAddress).flatten) = a.Bytes := by
        rw [List.take_left' a.size]
      have hdrop : List.drop 20 (a.Bytes ++ (l.map rlpEncodeAddress).flatten) =
          (l.map rlpEncodeAddress).flatten := by
        rw [List.drop_left' a.size]
      have hshape : ((a :: l).map rlpEncodeAddress).flatten =
          byteOf (0x80 + 20) :: (a.Bytes ++ (l.map rlpEncodeAddress).flatten) := rfl
      have hcond : byteOf (0x80 + 20) = byteOf (0x80 + 20) ∧
          (List.take 20 (a.Bytes ++ (l.map rlpEncodeAddress).flatten)).length = 20 :=
        ⟨rfl, by rw [htake, a.size]⟩
      rw [hshape, rlpDecodeItems, dif_pos hcond]
      simp only [hdrop, ih f hf]
      congr 1
      congr 1
      exact Address.ext_bytes htake

theorem rlpDecode_encode (l : List Address) (hl : 21 * l.length < 2 ^ 64) :
    rlpDecodeAddresses (some (rlpEncodeAddresses l)) = some l := by
  have hlen := length_encoded_items l
  unfold rlpEncodeAddresses
  dsimp only
  by_cases hsmall : ((l.map rlpEncodeAddress).flatten).length < 56
  · rw [if_pos hsmall]
    have hv : (byteOf (0xC0 + ((l.map rlpEncodeAddress).flatten).length)).val =
        0xC0 + ((l.map rlpEncodeAddress).flatten).length := by
      rw [byteOf_val]; omega
    simp only [rlpDecodeAddresses, hv]
    rw [if_neg (by omega), if_pos (by omega), if_pos (by omega)]
    exact rlpDecodeItems_encoded l _ (by omega)
  · rw [if_neg hsmall]
    have hk := putint_length ((l.map rlpEncodeAddress).flatten).length
    have hv : (byteOf (0xF7 + (putint ((l.map rlpEncodeAddress).flatten).length).length)).val =
        0xF7 + (putint ((l.map rlpEncodeAddress).flatten).length).length := by
      rw [byteOf_val]; omega
    have hsub : 0xF7 + (putint ((l.map rlpEncodeAddress).flatten).length).length - 0xF7 =
        (putint ((l.map rlpEncodeAddress).flatten).length).length := by omega
    simp only [rlpDecodeAddresses, hv, hsub]
    rw [if_neg (by omega), if_neg (by omega)]
    rw [List.take_left, List.drop_left]
    rw [readint_putint _ (by omega)]
    rw [if_pos ⟨rfl, putint_head _ (by omega) (by omega), by omega, rfl⟩]
    exact rlpDecodeItems_encoded l _ (by omega)

theorem Get_eq_none_of_get {t : Trie} {k : ByteSlice} (h : t.get k = none) :
    t.Get k = none := by
  unfold Trie.Get Trie.TryGet
  cases t.faultAt .get k with
  | none => exact h
  | some e => rfl

theorem get_of_Get {t : Trie} {k b : ByteSlice} (h : t.Get k = some b) : t.get k = some b := by
  unfold Trie.Get Trie.TryGet at h
  cases hf : t.faultAt .get k with
  | none => rw [hf] at h; exact h
  | some e => rw [hf] at h; exact Option.noConfusion h

theorem TryUpdate_of_noFault {t : Trie} {k v : ByteSlice} (hv : v ≠ [])
    (h : t.faultAt .update k = none) :
    t.TryUpdate k v = (⟨Trie.insertEntry k v t.entries, t.faults⟩, none) := by
  simp [Trie.TryUpdate, hv, h]

theorem TryGet_of_noFault {t : Trie} {k : ByteSlice} (h : t.faultAt .get k = none) :
    t.TryGet k = (t.get k, none) := by
  simp [Trie.TryGet, h]

theorem TryGet_of_fault {t : Trie} {k : ByteSlice} {e : Err} (h : t.faultAt .get k = some e) :
    t.TryGet k = (none, some e) := by
  simp [Trie.TryGet, h]

/-! ## Validator set -/

/-- C12, as stated, fails on the code: when the epoch store raises an error on
the key "validator" (here the missing-data error, on update and lookup alike:
an earlier validator set is stored, next to an entry under a longer key, and
the inner node above the two is missing from the database), SetValidators drops
the error of the update and returns no error, the store is as before, and the
following GetValidators() does not return the sequence. -/
theorem C12_update_error_dropped :
    ((⟨⟨[(validatorKey, rlpEncodeAddresses [Address.ofByte 2]), (validatorKey ++ [0], [1])],
          [(.update, validatorKey, .missingNode), (.get, validatorKey, .missingNode)]⟩,
        Trie.empty, Trie.empty, Trie.empty, Trie.empty⟩ : DposContext).SetValidators
          [Address.ofByte 1]).2 = none ∧
    ((⟨⟨[(validatorKey, rlpEncodeAddresses [Address.ofByte 2]), (validatorKey ++ [0], [1])],
          [(.update, validatorKey, .missingNode), (.get, validatorKey, .missingNode)]⟩,
        Trie.empty, Trie.empty, Trie.empty, Trie.empty⟩ : DposContext).SetValidators
          [Address.ofByte 1]).1.epochTrie.entries =
        [(validatorKey, rlpEncodeAddresses [Address.ofByte 2]), (validatorKey ++ [0], [1])] ∧
    ((⟨⟨[(validatorKey, rlpEncodeAddresses [Address.ofByte 2]), (validatorKey ++ [0], [1])],
          [(.update, validatorKey, .missingNode), (.get, validatorKey, .missingNode)]⟩,
        Trie.empty, Trie.empty, Trie.empty, Trie.empty⟩ : DposContext).SetValidators
          [Address.ofByte 1]).1.GetValidators = ([], some .failedToDecodeValidators) ∧
    ((⟨⟨[(validatorKey, rlpEncodeAddresses [Address.ofByte 2]), (validatorKey ++ [0], [1])],
          [(.update, validatorKey, .missingNode), (.get, validatorKey, .missingNode)]⟩,
        Trie.empty, Trie.empty, Trie.empty, Trie.empty⟩ : DposContext).SetValidators
          [Address.ofByte 1]).1.GetValidators ≠ ([Address.ofByte 1], none) := by
  decide

/-- C12, amended: on every aggregate state SetValidators(l) returns no error,
for every ordered sequence `l` of addresses (empty or with duplicates); when
the epoch store raises no error on the update and on the lookup of the key
"validator", a following GetValidators() returns `l` without error (the
encoding of `l` fitting a 64-bit size); and decoding the encoding of `l` gives
back `l`. -/
theorem C12_validators_roundtrip_amended (s : DposContext) (l : List Address)
    (hl : 21 * l.length < 2 ^ 64) :
    (s.SetValidators l).2 = none ∧
    (s.epochTrie.faultAt .update validatorKey = none →
      s.epochTrie.faultAt .get validatorKey = none →
      (s.SetValidators l).1.GetValidators = (l, none)) ∧
    rlpDecodeAddresses (some (rlpEncodeAddresses l)) = some l := by
  have hdec := rlpDecode_encode l hl
  refine ⟨rfl, ?_, hdec⟩
  intro hupd hget
  have hstore : (s.SetValidators l).1.epochTrie =
      ⟨Trie.insertEntry validatorKey (rlpEncodeAddresses l) s.epochTrie.entries,
        s.epochTrie.faults⟩ := by
    unfold DposContext.SetValidators Trie.Update
    dsimp only
    rw [TryUpdate_of_noFault (rlpEncodeAddresses_ne_nil l) hupd]
  have hget2 : Trie.faultAt
      ⟨Trie.insertEntry validatorKey (rlpEncodeAddresses l) s.epochTrie.entries,
        s.epochTrie.faults⟩ .get validatorKey = none := hget
  unfold DposContext.GetValidators
  dsimp only
  rw [hstore]
  unfold Trie.Get
  rw [TryGet_of_noFault hget2]
  dsimp only
  have hlook : Trie.get
      ⟨Trie.insertEntry validatorKey (rlpEncodeAddresses l) s.epochTrie.entries,
        s.epochTrie.faults⟩ validatorKey = some (rlpEncodeAddresses l) :=
    lookup_insertEntry_self _ _ _
  rw [hlook, hdec]

theorem C12_validators_roundtrip_amended_witness :
    21 * [Address.ofByte 1, Address.ofByte 1, Address.ofByte 2].length < 2 ^ 64 ∧
    NewDposContext.epochTrie.faultAt .update validatorKey = none ∧
    NewDposContext.epochTrie.faultAt .get validatorKey = none ∧
    (NewDposContext.SetValidators
        [Address.ofByte 1, Address.ofByte 1, Address.ofByte 2]).1.GetValidators =
      ([Address.ofByte 1, Address.ofByte 1, Address.ofByte 2], none) ∧
    (NewDposContext.SetValidators []).1.GetValidators = ([], none) :=
  ⟨by decide, by decide, by decide,
    (C12_validators_roundtrip_amended NewDposContext
      [Address.ofByte 1, Address.ofByte 1, Address.ofByte 2] (by decide)).2.1
      (by decide) (by decide),
    (C12_validators_roundtrip_amended NewDposContext [] (by decide)).2.1
      (by decide) (by decide)⟩

/-- C13, as stated, fails on the code: on a fresh aggregate, whose epoch store
has no entry under the key "validator", GetValidators() returns no sequence and
the decode error, although no bytes are stored under the key. -/
theorem C13_never_set_returns_error :
    NewDposContext.epochTrie.get validatorKey = none ∧
    NewDposContext.GetValidators = ([], some .failedToDecodeValidators) ∧
    NewDposContext.GetValidators ≠ ([], none) := by
  decide

/-- C13, amended: on an aggregate whose epoch store has no entry under the key
"validator", in particular on a fresh aggregate, GetValidators() returns no
sequence and the decode error. GetValidators() returns an error exactly when
the value read under the key (nil when the key is absent or the lookup fails)
does not decode; the error is then the decode error and no sequence is
returned; otherwise it returns the decoded sequence and no error. -/
theorem C13_get_validators_amended (s : DposContext) :
    (s.epochTrie.get validatorKey = none →
      s.GetValidators = ([], some .failedToDecodeValidators)) ∧
    (s.GetValidators.2 ≠ none ↔ rlpDecodeAddresses (s.epochTrie.Get validatorKey) = none) ∧
    (s.GetValidators.2 ≠ none → s.GetValidators = ([], some .failedToDecodeValidators)) ∧
    (∀ l, rlpDecodeAddresses (s.epochTrie.Get validatorKey) = some l →
      s.GetValidators = (l, none)) ∧
    (s.epochTrie.Get validatorKey = none ∨
      s.epochTrie.Get validatorKey = s.epochTrie.get validatorKey) := by
  refine ⟨?_, ?_, ?_, ?_, ?_⟩
  · intro h
    unfold DposContext.GetValidators
    dsimp only
    rw [Get_eq_none_of_get h]
    rfl
  · unfold DposContext.GetValidators
    dsimp only
    cases rlpDecodeAddresses (s.epochTrie.Get validatorKey) <;> simp
  · unfold DposContext.GetValidators
    dsimp only
    cases rlpDecodeAddresses (s.epochTrie.Get validatorKey) <;> simp
  · intro l hl
    unfold DposContext.GetValidators
    dsimp only
    rw [hl]
  · unfold Trie.Get Trie.TryGet
    cases s.epochTrie.faultAt .get validatorKey with
    | none => exact Or.inr rfl
    | some e => exact Or.inl rfl

theorem C13_get_validators_amended_witness :
    (NewDposContext.BecomeCandidate (Address.ofByte 1)).1.epochTrie.get validatorKey = none ∧
    (NewDposContext.BecomeCandidate (Address.ofByte 1)).1.GetValidators =
      ([], some .failedToDecodeValidators) ∧
    (⟨⟨[(validatorKey, [1])], []⟩, Trie.empty, Trie.empty, Trie.empty, Trie.empty⟩ :
      DposContext).GetValidators.2 ≠ none ∧
    (⟨⟨[(validatorKey, [1])], []⟩, Trie.empty, Trie.empty, Trie.empty, Trie.empty⟩ :
      DposContext).GetValidators = ([], some .failedToDecodeValidators) :=
  ⟨by decide,
    (C13_get_validators_amended (NewDposContext.BecomeCandidate (Address.ofByte 1)).1).1
      (by decide),
    by decide,
    (C13_get_validators_amended
      ⟨⟨[(validatorKey, [1])], []⟩, Trie.empty, Trie.empty, Trie.empty, Trie.empty⟩).2.2.1
      (by decide)⟩

/-! ## Lemmas: more on association lists -/

theorem bytesLess_asymm {a b : ByteSlice} (h : bytesLess a b = true) : bytesLess b a = false := by
  cases hba : bytesLess b a with
  | false => rfl
  | true =>
    have := bytesLess_trans a b a h hba
    rw [bytesLess_irrefl] at this
    exact Bool.noConfusion this

open Trie in
theorem insertEntry_of_lookup {k v : ByteSlice} {l : List (ByteSlice × ByteSlice)}
    (hs : Sorted l) (h : lookup k l = some v) : insertEntry k v l = l := by
  induction l with
  | nil => simp [lookup] at h
  | cons e rest ih =>
    obtain ⟨k0, v0⟩ := e
    have hs' := List.pairwise_cons.mp hs
    by_cases h1 : k0 = k
    · subst h1
      simp only [lookup, if_true] at h
      simp [insertEntry, Option.some.inj h]
    · simp only [lookup, h1, if_false] at h
      have hlt : bytesLess k0 k = true := hs'.1 _ (mem_of_lookup h)
      have hnot : bytesLess k k0 = false := bytesLess_asymm hlt
      simp [insertEntry, h1, hnot, ih hs'.2 h]

open Trie in
theorem insertEntry_idem (k v : ByteSlice) (l : List (ByteSlice × ByteSlice)) :
    insertEntry k v (insertEntry k v l) = insertEntry k v l := by
  induction l with
  | nil => simp [insertEntry]
  | cons e rest ih =>
    obtain ⟨k0, v0⟩ := e
    by_cases h1 : k0 = k
    · simp [insertEntry, h1]
    · by_cases h2 : bytesLess k k0 = true
      · simp [insertEntry, h1, h2]
      · simp [insertEntry, h1, h2, ih]

open Trie in
theorem eraseEntry_of_lookup_none {k : ByteSlice} {l : List (ByteSlice × ByteSlice)}
    (h : lookup k l = none) : eraseEntry k l = l := by
  induction l with
  | nil => rfl
  | cons e rest ih =>
    obtain ⟨k0, v0⟩ := e
    by_cases h1 : k0 = k
    · simp [lookup, h1] at h
    · simp only [lookup, h1, if_false] at h
      simp [eraseEntry, h1, ih h]

open Trie in
theorem eraseEntry_insertEntry {k : ByteSlice} (v : ByteSlice)
    {l : List (ByteSlice × ByteSlice)} (h : lookup k l = none) :
    eraseEntry k (insertEntry k v l) = l := by
  induction l with
  | nil => simp [insertEntry, eraseEntry]
  | cons e rest ih =>
    obtain ⟨k0, v0⟩ := e
    by_cases h1 : k0 = k
    · simp [lookup, h1] at h
    · simp only [lookup, h1, if_false] at h
      by_cases h2 : bytesLess k k0 = true
      · simp [insertEntry, eraseEntry, h1, h2, eraseEntry_of_lookup_none h]
      · simp [insertEntry, eraseEntry, h1, h2, ih h]

/-! ## Candidacy -/

/-- C14: on an aggregate whose stores raise no error, BecomeCandidate(c)
succeeds; afterwards the candidate store maps `c` to `c`, every other candidate
entry is as before, and the epoch, delegate, vote and mint-count stores are as
before; if `c` was already a candidate (the candidate store mapped `c` to `c`)
every candidate entry is as before, and with the candidate store in key order
the aggregate and its Root are unchanged; and BecomeCandidate(c) applied twice
gives the state it gives applied once. -/
theorem C14_become_candidate_idempotent (s : DposContext) (hf : s.NoFaults) (c : Address) :
    (s.BecomeCandidate c).2 = none ∧
    (s.BecomeCandidate c).1.candidateTrie.get c.Bytes = some c.Bytes ∧
    (∀ k, k ≠ c.Bytes →
      (s.BecomeCandidate c).1.candidateTrie.get k = s.candidateTrie.get k) ∧
    ((s.BecomeCandidate c).1.epochTrie = s.epochTrie ∧
      (s.BecomeCandidate c).1.delegateTrie = s.delegateTrie ∧
      (s.BecomeCandidate c).1.voteTrie = s.voteTrie ∧
      (s.BecomeCandidate c).1.mintCntTrie = s.mintCntTrie) ∧
    (s.candidateTrie.get c.Bytes = some c.Bytes →
      ∀ k, (s.BecomeCandidate c).1.candidateTrie.get k = s.candidateTrie.get k) ∧
    (Sorted s.candidateTrie.entries → s.candidateTrie.get c.Bytes = some c.Bytes →
      (s.BecomeCandidate c).1 = s ∧ ∀ P : Primitives, (s.BecomeCandidate c).1.Root P = s.Root P) ∧
    (s.BecomeCandidate c).1.BecomeCandidate c = s.BecomeCandidate c := by
  have hf1 : DposContext.NoFaults
      { s with candidateTrie :=
          ⟨Trie.insertEntry c.Bytes c.Bytes s.candidateTrie.entries, s.candidateTrie.faults⟩ } :=
    ⟨hf.1, hf.2.1, hf.2.2.1, hf.2.2.2.1, hf.2.2.2.2⟩
  rw [DposContext.BecomeCandidate_of_noFaults hf]
  dsimp only
  refine ⟨rfl, lookup_insertEntry_self _ _ _, fun k hk => lookup_insertEntry_ne hk _ _,
    ⟨rfl, rfl, rfl, rfl⟩, ?_, ?_, ?_⟩
  · intro hc k
    by_cases hk : k = c.Bytes
    · rw [hk, hc]
      exact lookup_insertEntry_self _ _ _
    · exact lookup_insertEntry_ne hk _ _
  · intro hs hc
    have hsame : ({ s with candidateTrie :=
        ⟨Trie.insertEntry c.Bytes c.Bytes s.candidateTrie.entries, s.candidateTrie.faults⟩ } :
          DposContext) = s := by
      rw [insertEntry_of_lookup hs hc]
    rw [hsame]
    exact ⟨rfl, fun _ => rfl⟩
  · rw [DposContext.BecomeCandidate_of_noFaults hf1]
    dsimp only
    rw [insertEntry_idem]

theorem C14_become_candidate_idempotent_witness :
    (NewDposContext.BecomeCandidate (Address.ofByte 1)).1.NoFaults ∧
    Sorted (NewDposContext.BecomeCandidate (Address.ofByte 1)).1.candidateTrie.entries ∧
    (NewDposContext.BecomeCandidate (Address.ofByte 1)).1.candidateTrie.get
      (Address.ofByte 1).Bytes = some (Address.ofByte 1).Bytes ∧
    ((NewDposContext.BecomeCandidate (Address.ofByte 1)).1.BecomeCandidate
      (Address.ofByte 1)).1 = (NewDposContext.BecomeCandidate (Address.ofByte 1)).1 :=
  ⟨by decide, by simp [Sorted, DposContext.BecomeCandidate, NewDposContext, Trie.TryUpdate,
      Trie.TryDelete, Trie.faultAt, Trie.empty, Trie.insertEntry, Address.ofByte],
    by decide,
    ((C14_become_candidate_idempotent (NewDposContext.BecomeCandidate (Address.ofByte 1)).1
      (by decide) (Address.ofByte 1)).2.2.2.2.2.1
      (by simp [Sorted, DposContext.BecomeCandidate, NewDposContext, Trie.TryUpdate,
        Trie.TryDelete, Trie.faultAt, Trie.empty, Trie.insertEntry, Address.ofByte])
      (by decide)).1⟩

/-! ## Delegate then UnDelegate -/

/-- C20: on an aggregate whose stores raise no error, in which `c` is a
candidate, `d` has no vote entry and the delegate store has no entry under
`c ++ d`, Delegate(d, c) followed by UnDelegate(d, c) succeeds in both steps and
leaves all five stores, and so the Root, as they were. -/
theorem C20_delegate_undelegate_identity (s : DposContext) (hf : s.NoFaults) (d c : Address)
    (hc : s.candidateTrie.get c.Bytes ≠ none) (hv : s.voteTrie.get d.Bytes = none)
    (he : s.delegateTrie.get (c.Bytes ++ d.Bytes) = none) :
    (s.Delegate d c).2 = none ∧ ((s.Delegate d c).1.UnDelegate d c).2 = none ∧
    ((s.Delegate d c).1.UnDelegate d c).1 = s ∧
    ∀ P : Primitives, ((s.Delegate d c).1.UnDelegate d c).1.Root P = s.Root P := by
  obtain ⟨w, hw⟩ := Option.ne_none_iff_exists'.mp hc
  rw [DposContext.Delegate_valid hf d c hw, hv]
  dsimp only
  have hf1 : DposContext.NoFaults
      { s with
        delegateTrie :=
          ⟨Trie.insertEntry (c.Bytes ++ d.Bytes) d.Bytes s.delegateTrie.entries,
            s.delegateTrie.faults⟩
        voteTrie := ⟨Trie.insertEntry d.Bytes c.Bytes s.voteTrie.entries, s.voteTrie.faults⟩ } :=
    ⟨hf.1, hf.2.1, hf.2.2.1, hf.2.2.2.1, hf.2.2.2.2⟩
  have hvote : Trie.get
      ⟨Trie.insertEntry d.Bytes c.Bytes s.voteTrie.entries, s.voteTrie.faults⟩ d.Bytes =
        some c.Bytes := lookup_insertEntry_self _ _ _
  rw [DposContext.UnDelegate_valid hf1 d c hw hvote]
  dsimp only
  have hsame : ({ epochTrie := s.epochTrie
                  delegateTrie :=
                    ⟨Trie.eraseEntry (c.Bytes ++ d.Bytes)
                      (Trie.insertEntry (c.Bytes ++ d.Bytes) d.Bytes s.delegateTrie.entries),
                      s.delegateTrie.faults⟩
                  voteTrie :=
                    ⟨Trie.eraseEntry d.Bytes
                      (Trie.insertEntry d.Bytes c.Bytes s.voteTrie.entries), s.voteTrie.faults⟩
                  candidateTrie := s.candidateTrie
                  mintCntTrie := s.mintCntTrie } : DposContext) = s := by
    rw [eraseEntry_insertEntry _ he, eraseEntry_insertEntry _ hv]
  rw [hsame]
  exact ⟨rfl, rfl, rfl, fun _ => rfl⟩

theorem C20_delegate_undelegate_identity_witness :
    (NewDposContext.BecomeCandidate (Address.ofByte 1)).1.NoFaults ∧
    (NewDposContext.BecomeCandidate (Address.ofByte 1)).1.candidateTrie.get
      (Address.ofByte 1).Bytes ≠ none ∧
    (NewDposContext.BecomeCandidate (Address.ofByte 1)).1.voteTrie.get
      (Address.ofByte 2).Bytes = none ∧
    (NewDposContext.BecomeCandidate (Address.ofByte 1)).1.delegateTrie.get
      ((Address.ofByte 1).Bytes ++ (Address.ofByte 2).Bytes) = none ∧
    (((NewDposContext.BecomeCandidate (Address.ofByte 1)).1.Delegate (Address.ofByte 2)
      (Address.ofByte 1)).1.UnDelegate (Address.ofByte 2) (Address.ofByte 1)).1 =
      (NewDposContext.BecomeCandidate (Address.ofByte 1)).1 :=
  ⟨by decide, by decide, by decide, by decide,
    (C20_delegate_undelegate_identity (NewDposContext.BecomeCandidate (Address.ofByte 1)).1
      (by decide) (Address.ofByte 2) (Address.ofByte 1) (by decide) (by decide)
      (by decide)).2.2.1⟩

/-! ## Lemmas: the errors a store raises -/

theorem faultAt_storeErr {t : Trie} {op : TrieOp} {k : ByteSlice} {e : Err}
    (h : t.faultAt op k = some e) : e = .missingNode ∨ e = .storeFailure := by
  unfold Trie.faultAt at h
  split at h
  · rename_i f _
    have := Option.some.inj h
    rw [← this]
    cases f.2.2 with
    | missingNode => exact Or.inl rfl
    | storeFailure => exact Or.inr rfl
  · exact Option.noConfusion h

theorem TryGet_storeErr {t : Trie} {k : ByteSlice} {e : Err}
    (h : (t.TryGet k).2 = some e) : e = .missingNode ∨ e = .storeFailure := by
  unfold Trie.TryGet at h
  cases hf : t.faultAt .get k with
  | none => rw [hf] at h; exact Option.noConfusion h
  | some e2 =>
    rw [hf] at h
    have := Option.some.inj h
    subst this
    exact faultAt_storeErr hf

theorem TryDelete_storeErr {t : Trie} {k : ByteSlice} {e : Err}
    (h : (t.TryDelete k).2 = some e) : e = .missingNode ∨ e = .storeFailure := by
  unfold Trie.TryDelete at h
  cases hf : t.faultAt .delete k with
  | none => rw [hf] at h; exact Option.noConfusion h
  | some e2 =>
    rw [hf] at h
    have := Option.some.inj h
    subst this
    exact faultAt_storeErr hf

theorem TryUpdate_storeErr {t : Trie} {k v : ByteSlice} {e : Err}
    (h : (t.TryUpdate k v).2 = some e) : e = .missingNode ∨ e = .storeFailure := by
  unfold Trie.TryUpdate at h
  split at h
  · exact TryDelete_storeErr h
  · cases hf : t.faultAt .update k with
    | none => rw [hf] at h; exact Option.noConfusion h
    | some e2 =>
      rw [hf] at h
      have := Option.some.inj h
      subst this
      exact faultAt_storeErr hf

theorem notTolerated_some {x : Option Err} {e : Err} (h : notTolerated x = some e) :
    x = some e ∧ e ≠ .missingNode := by
  cases x with
  | none => exact Option.noConfusion h
  | some e2 =>
    cases e2 <;> simp [notTolerated, Err.isMissingNode] at h <;> subst h <;> simp

/-- An error returned by `Delegate` is the invalid-candidate error, returned
before any write, or an error raised by a store. -/
theorem Delegate_err_cases (s : DposContext) (d c : Address) {e : Err}
    (h : (s.Delegate d c).2 = some e) :
    (e = .invalidCandidateToDelegate ∧ (s.Delegate d c).1 = s) ∨
      (e = .missingNode ∨ e = .storeFailure) := by
  unfold DposContext.Delegate at h ⊢
  dsimp only at h ⊢
  split at h
  · rename_i e0 he0
    exact Or.inr (TryGet_storeErr (he0.trans (by rw [Option.some.inj h])))
  · split at h
    · exact Or.inl ⟨(Option.some.inj h).symm, rfl⟩
    · split at h
      · rename_i e1 he1
        have := notTolerated_some he1
        exact Or.inr (TryGet_storeErr (this.1.trans (by rw [Option.some.inj h])))
      · split at h
        · rename_i e2 he2
          exact Or.inr (TryUpdate_storeErr (he2.trans (by rw [Option.some.inj h])))
        · exact Or.inr (TryUpdate_storeErr h)

/-- An error returned by `UnDelegate` is one of the two validation errors,
returned before any write, or an error raised by a store. -/
theorem UnDelegate_err_cases (s : DposContext) (d c : Address) {e : Err}
    (h : (s.UnDelegate d c).2 = some e) :
    ((e = .invalidCandidateToUndelegate ∨ e = .mismatchCandidateToUndelegate) ∧
        (s.UnDelegate d c).1 = s) ∨
      (e = .missingNode ∨ e = .storeFailure) := by
  unfold DposContext.UnDelegate at h ⊢
  dsimp only at h ⊢
  split at h
  · rename_i e0 he0
    exact Or.inr (TryGet_storeErr (he0.trans (by rw [Option.some.inj h])))
  · split at h
    · exact Or.inl ⟨Or.inl (Option.some.inj h).symm, rfl⟩
    · split at h
      · rename_i e1 he1
        exact Or.inr (TryGet_storeErr (he1.trans (by rw [Option.some.inj h])))
      · split at h
        · rename_i hb
          refine Or.inl ⟨Or.inr (Option.some.inj h).symm, ?_⟩
          rw [if_pos hb]
        · split at h
          · rename_i e2 he2
            exact Or.inr (TryDelete_storeErr (he2.trans (by rw [Option.some.inj h])))
          · exact Or.inr (TryDelete_storeErr h)

/-! ## Validation failures -/

/-- C19: whenever Delegate(d, c) returns the invalid-candidate error, or
UnDelegate(d, c) returns the invalid-candidate or the candidate-mismatch error,
the five stores of the aggregate, and so its Root, are as they were before the
call. -/
theorem C19_validation_failures_atomic (s : DposContext) (d c : Address) :
    ((s.Delegate d c).2 = some .invalidCandidateToDelegate →
      (s.Delegate d c).1 = s ∧ ∀ P : Primitives, (s.Delegate d c).1.Root P = s.Root P) ∧
    ((s.UnDelegate d c).2 = some .invalidCandidateToUndelegate →
      (s.UnDelegate d c).1 = s ∧ ∀ P : Primitives, (s.UnDelegate d c).1.Root P = s.Root P) ∧
    ((s.UnDelegate d c).2 = some .mismatchCandidateToUndelegate →
      (s.UnDelegate d c).1 = s ∧ ∀ P : Primitives, (s.UnDelegate d c).1.Root P = s.Root P) := by
  refine ⟨fun h => ?_, fun h => ?_, fun h => ?_⟩
  · rcases Delegate_err_cases s d c h with ⟨_, hs⟩ | h2 | h2
    · exact ⟨hs, fun P => by rw [hs]⟩
    · exact Err.noConfusion h2
    · exact Err.noConfusion h2
  · rcases UnDelegate_err_cases s d c h with ⟨_, hs⟩ | h2 | h2
    · exact ⟨hs, fun P => by rw [hs]⟩
    · exact Err.noConfusion h2
    · exact Err.noConfusion h2
  · rcases UnDelegate_err_cases s d c h with ⟨_, hs⟩ | h2 | h2
    · exact ⟨hs, fun P => by rw [hs]⟩
    · exact Err.noConfusion h2
    · exact Err.noConfusion h2

theorem C19_validation_failures_atomic_witness :
    ((NewDposContext.Delegate (Address.ofByte 2) (Address.ofByte 1)).2 =
        some .invalidCandidateToDelegate ∧
      (NewDposContext.Delegate (Address.ofByte 2) (Address.ofByte 1)).1 = NewDposContext) ∧
    ((NewDposContext.UnDelegate (Address.ofByte 2) (Address.ofByte 1)).2 =
        some .invalidCandidateToUndelegate ∧
      (NewDposContext.UnDelegate (Address.ofByte 2) (Address.ofByte 1)).1 = NewDposContext) ∧
    (((NewDposContext.BecomeCandidate (Address.ofByte 1)).1.UnDelegate (Address.ofByte 2)
        (Address.ofByte 1)).2 = some .mismatchCandidateToUndelegate ∧
      ((NewDposContext.BecomeCandidate (Address.ofByte 1)).1.UnDelegate (Address.ofByte 2)
        (Address.ofByte 1)).1 = (NewDposContext.BecomeCandidate (Address.ofByte 1)).1) :=
  ⟨⟨by decide,
      ((C19_validation_failures_atomic NewDposContext (Address.ofByte 2) (Address.ofByte 1)).1
        (by decide)).1⟩,
    ⟨by decide,
      ((C19_validation_failures_atomic NewDposContext (Address.ofByte 2)
        (Address.ofByte 1)).2.1 (by decide)).1⟩,
    ⟨by decide,
      ((C19_validation_failures_atomic (NewDposContext.BecomeCandidate (Address.ofByte 1)).1
        (Address.ofByte 2) (Address.ofByte 1)).2.2 (by decide)).1⟩⟩

/-! ## Lemmas: what `KickoutCandidate` leaves alone -/

theorem TryDelete_get_ne (t : Trie) {k k2 : ByteSlice} (h : k2 ≠ k) :
    (t.TryDelete k).1.get k2 = t.get k2 := by
  unfold Trie.TryDelete
  cases t.faultAt .delete k with
  | none => exact lookup_eraseEntry_ne h _
  | some e => rfl

theorem TryDelete_get_some (t : Trie) {k k2 v : ByteSlice}
    (h : (t.TryDelete k).1.get k2 = some v) : t.get k2 = some v := by
  unfold Trie.TryDelete at h
  cases hf : t.faultAt .delete k with
  | none =>
    rw [hf] at h
    exact (lookup_eraseEntry_some h).2
  | some e =>
    rw [hf] at h
    exact h

theorem TryGet_fst_of_ok {t : Trie} {k : ByteSlice} (h : (t.TryGet k).2 = none) :
    (t.TryGet k).1 = t.get k := by
  unfold Trie.TryGet at h ⊢
  cases hf : t.faultAt .get k with
  | none => rfl
  | some e => rw [hf] at h; exact Option.noConfusion h

theorem hasPrefix_append_ne {k c v : ByteSlice} (h : hasPrefix k c = false) : k ≠ c ++ v := by
  intro hk
  rw [hk, hasPrefix_append] at h
  exact Bool.noConfusion h

/-- The cascade loop, on any aggregate and with any store errors, changes
nothing but delegate entries under the candidate and votes for the candidate. -/
theorem kickoutLoop_frame (c : ByteSlice) (L : List (ByteSlice × ByteSlice)) :
    ∀ d : DposContext,
      (DposContext.kickoutLoop c L d).1.epochTrie = d.epochTrie ∧
      (DposContext.kickoutLoop c L d).1.candidateTrie = d.candidateTrie ∧
      (DposContext.kickoutLoop c L d).1.mintCntTrie = d.mintCntTrie ∧
      (∀ k, hasPrefix k c = false →
        (DposContext.kickoutLoop c L d).1.delegateTrie.get k = d.delegateTrie.get k) ∧
      (∀ k v, d.voteTrie.get k = some v → v ≠ c →
        (DposContext.kickoutLoop c L d).1.voteTrie.get k = some v) ∧
      (∀ k v, (DposContext.kickoutLoop c L d).1.voteTrie.get k = some v →
        d.voteTrie.get k = some v) ∧
      (∀ k v, (DposContext.kickoutLoop c L d).1.delegateTrie.get k = some v →
        d.delegateTrie.get k = some v) := by
  induction L with
  | nil =>
    intro d
    exact ⟨rfl, rfl, rfl, fun _ _ => rfl, fun _ _ h _ => h, fun _ _ h => h, fun _ _ h => h⟩
  | cons e0 rest ih =>
    obtain ⟨k0, v0⟩ := e0
    intro d
    -- the frame from `d` to an intermediate state carries over to the end of the loop
    have comp : ∀ (d2 : DposContext) (res : DposContext × Option Err),
        (res = DposContext.kickoutLoop c rest d2 ∨ res.1 = d2) →
        d2.epochTrie = d.epochTrie → d2.candidateTrie = d.candidateTrie →
        d2.mintCntTrie = d.mintCntTrie →
        (∀ k, hasPrefix k c = false → d2.delegateTrie.get k = d.delegateTrie.get k) →
        (∀ k v, d.voteTrie.get k = some v → v ≠ c → d2.voteTrie.get k = some v) →
        (∀ k v, d2.voteTrie.get k = some v → d.voteTrie.get k = some v) →
        (∀ k v, d2.delegateTrie.get k = some v → d.delegateTrie.get k = some v) →
        res.1.epochTrie = d.epochTrie ∧ res.1.candidateTrie = d.candidateTrie ∧
        res.1.mintCntTrie = d.mintCntTrie ∧
        (∀ k, hasPrefix k c = false → res.1.delegateTrie.get k = d.delegateTrie.get k) ∧
        (∀ k v, d.voteTrie.get k = some v → v ≠ c → res.1.voteTrie.get k = some v) ∧
        (∀ k v, res.1.voteTrie.get k = some v → d.voteTrie.get k = some v) ∧
        (∀ k v, res.1.delegateTrie.get k = some v → d.delegateTrie.get k = some v) := by
      intro d2 res hres a1 a2 a3 a4 a5 a6 a7
      rcases hres with hres | hres
      · obtain ⟨i1, i2, i3, i4, i5, i6, i7⟩ := ih d2
        rw [hres]
        exact ⟨i1.trans a1, i2.trans a2, i3.trans a3,
          fun k hk => (i4 k hk).trans (a4 k hk),
          fun k v hkv hv => i5 k v (a5 k v hkv hv) hv,
          fun k v hkv => a6 k v (i6 k v hkv),
          fun k v hkv => a7 k v (i7 k v hkv)⟩
      · rw [hres]
        exact ⟨a1, a2, a3, a4, a5, a6, a7⟩
    -- the state once the edge is deleted
    have f1 : ∀ k, hasPrefix k c = false →
        (d.delegateTrie.TryDelete (c ++ v0)).1.get k = d.delegateTrie.get k :=
      fun k hk => TryDelete_get_ne _ (hasPrefix_append_ne hk)
    have f2 : ∀ k v, (d.delegateTrie.TryDelete (c ++ v0)).1.get k = some v →
        d.delegateTrie.get k = some v := fun k v h => TryDelete_get_some _ h
    rw [DposContext.kickoutLoop]
    dsimp only
    split
    · exact comp _ _ (Or.inr rfl) rfl rfl rfl f1 (fun k v hkv _ => hkv) (fun k v hkv => hkv) f2
    · split
      · exact comp _ _ (Or.inr rfl) rfl rfl rfl f1 (fun k v hkv _ => hkv)
          (fun k v hkv => hkv) f2
      · split
        · rename_i hcond
          have g5 : ∀ k v, d.voteTrie.get k = some v → v ≠ c →
              (d.voteTrie.TryDelete v0).1.get k = some v := by
            intro k v hkv hv
            have hk : k ≠ v0 := by
              intro hk
              subst hk
              have hget := TryGet_fst_of_ok hcond.1
              have hb := hcond.2
              rw [hget, hkv] at hb
              simp [bytesEqual] at hb
              exact hv hb
            rw [TryDelete_get_ne _ hk]
            exact hkv
          have g6 : ∀ k v, (d.voteTrie.TryDelete v0).1.get k = some v →
              d.voteTrie.get k = some v := fun k v h => TryDelete_get_some _ h
          split
          · exact comp _ _ (Or.inr rfl) rfl rfl rfl f1 g5 g6 f2
          · exact comp _ _ (Or.inl rfl) rfl rfl rfl f1 g5 g6 f2
        · exact comp _ _ (Or.inl rfl) rfl rfl rfl f1 (fun k v hkv _ => hkv)
            (fun k v hkv => hkv) f2

/-! ## The frame of `KickoutCandidate` -/

/-- C18: on every aggregate state, reachable or not and whatever errors its
stores raise, after KickoutCandidate(c) every candidate other than `c` keeps
its membership, every delegate-store entry whose key is not prefixed by `c` is
unchanged, every vote entry whose value is not `c` is unchanged and no vote
entry is added, and the epoch and mint-count stores are unchanged. In the
example a delegator with a stale edge under `A` that votes for `B` keeps its
vote when `A` is kicked out. -/
theorem C18_kickout_frame (s : DposContext) (c : Address) :
    (∀ k, k ≠ c.Bytes →
      (s.KickoutCandidate c).1.candidateTrie.get k = s.candidateTrie.get k) ∧
    (∀ k, hasPrefix k c.Bytes = false →
      (s.KickoutCandidate c).1.delegateTrie.get k = s.delegateTrie.get k) ∧
    (∀ k v, s.voteTrie.get k = some v → v ≠ c.Bytes →
      (s.KickoutCandidate c).1.voteTrie.get k = some v) ∧
    (∀ k v, (s.KickoutCandidate c).1.voteTrie.get k = some v → s.voteTrie.get k = some v) ∧
    (s.KickoutCandidate c).1.epochTrie = s.epochTrie ∧
    (s.KickoutCandidate c).1.mintCntTrie = s.mintCntTrie ∧
    (((⟨Trie.empty,
          ⟨[((Address.ofByte 1).Bytes ++ (Address.ofByte 3).Bytes, (Address.ofByte 3).Bytes)], []⟩,
          ⟨[((Address.ofByte 3).Bytes, (Address.ofByte 2).Bytes)], []⟩,
          ⟨[((Address.ofByte 1).Bytes, (Address.ofByte 1).Bytes),
            ((Address.ofByte 2).Bytes, (Address.ofByte 2).Bytes)], []⟩,
          Trie.empty⟩ : DposContext).KickoutCandidate (Address.ofByte 1)).1 =
      ⟨Trie.empty, Trie.empty,
        ⟨[((Address.ofByte 3).Bytes, (Address.ofByte 2).Bytes)], []⟩,
        ⟨[((Address.ofByte 2).Bytes, (Address.ofByte 2).Bytes)], []⟩,
        Trie.empty⟩) := by
  refine ⟨?_, ?_, ?_, ?_, ?_, ?_, by decide⟩
  all_goals unfold DposContext.KickoutCandidate
  all_goals dsimp only
  all_goals split
  · intro k hk
    exact TryDelete_get_ne _ hk
  · intro k hk
    rw [(kickoutLoop_frame c.Bytes _ _).2.1]
    exact TryDelete_get_ne _ hk
  · intro k _
    rfl
  · intro k hk
    exact (kickoutLoop_frame c.Bytes _ _).2.2.2.1 k hk
  · intro k v hkv _
    exact hkv
  · intro k v hkv hv
    exact (kickoutLoop_frame c.Bytes _ _).2.2.2.2.1 k v hkv hv
  · intro k v hkv
    exact hkv
  · intro k v hkv
    exact (kickoutLoop_frame c.Bytes (s.delegateTrie.PrefixIterator c.Bytes)
      { s with candidateTrie := (s.candidateTrie.TryDelete c.Bytes).1 }).2.2.2.2.2.1 k v hkv
  · rfl
  · exact (kickoutLoop_frame c.Bytes _ _).1
  · rfl
  · exact (kickoutLoop_frame c.Bytes _ _).2.2.1

/-! ## Lemmas: which store errors the operations return -/

theorem notTolerated_of_ne {e : Err} (h : e ≠ .missingNode) : notTolerated (some e) = some e := by
  cases e <;> simp [notTolerated, Err.isMissingNode] at h ⊢

theorem notTolerated_missingNode : notTolerated (some .missingNode) = none := rfl

/-- The cascade loop never returns a missing-data error. -/
theorem kickoutLoop_no_missingNode (c : ByteSlice) (L : List (ByteSlice × ByteSlice)) :
    ∀ d : DposContext, (DposContext.kickoutLoop c L d).2 ≠ some .missingNode := by
  induction L with
  | nil =>
    intro d h
    exact Option.noConfusion h
  | cons e0 rest ih =>
    obtain ⟨k0, v0⟩ := e0
    intro d
    rw [DposContext.kickoutLoop]
    dsimp only
    split
    · rename_i e he
      intro h
      exact (notTolerated_some he).2 (Option.some.inj h)
    · split
      · rename_i e he
        intro h
        exact (notTolerated_some he).2 (Option.some.inj h)
      · split
        · split
          · rename_i e he
            intro h
            exact (notTolerated_some he).2 (Option.some.inj h)
          · exact ih _
        · exact ih _

/-- The loop over a list that continues after a first part run without error. -/
theorem kickoutLoop_append (c : ByteSlice) (pre post : List (ByteSlice × ByteSlice)) :
    ∀ d : DposContext, (DposContext.kickoutLoop c pre d).2 = none →
      DposContext.kickoutLoop c (pre ++ post) d =
        DposContext.kickoutLoop c post (DposContext.kickoutLoop c pre d).1 := by
  induction pre with
  | nil =>
    intro d _
    rfl
  | cons e0 rest ih =>
    obtain ⟨k0, v0⟩ := e0
    intro d h
    rw [List.cons_append, DposContext.kickoutLoop]
    rw [DposContext.kickoutLoop] at h ⊢
    dsimp only at h ⊢
    split
    · rename_i e he
      rw [he] at h
      exact Option.noConfusion h
    · rename_i he
      rw [he] at h
      dsimp only at h
      split
      · rename_i e he2
        rw [he2] at h
        exact Option.noConfusion h
      · rename_i he2
        rw [he2] at h
        dsimp only at h
        split
        · rename_i hcond
          rw [if_pos hcond] at h
          split
          · rename_i e he3
            rw [he3] at h
            exact Option.noConfusion h
          · rename_i he3
            rw [he3] at h
            exact ih _ h
        · rename_i hcond
          rw [if_neg hcond] at h
          exact ih _ h

/-- The errors of one round of the cascade loop that end it. -/
theorem kickoutLoop_step_errors (c : ByteSlice) (e0 : ByteSlice × ByteSlice)
    (post : List (ByteSlice × ByteSlice)) (d : DposContext) (e : Err) (he : e ≠ .missingNode) :
    ((d.delegateTrie.TryDelete (c ++ e0.2)).2 = some e →
      (DposContext.kickoutLoop c (e0 :: post) d).2 = some e) ∧
    (notTolerated (d.delegateTrie.TryDelete (c ++ e0.2)).2 = none →
      (d.voteTrie.TryGet e0.2).2 = some e →
      (DposContext.kickoutLoop c (e0 :: post) d).2 = some e) ∧
    (notTolerated (d.delegateTrie.TryDelete (c ++ e0.2)).2 = none →
      (d.voteTrie.TryGet e0.2).2 = none →
      bytesEqual (d.voteTrie.TryGet e0.2).1 (some c) = true →
      (d.voteTrie.TryDelete e0.2).2 = some e →
      (DposContext.kickoutLoop c (e0 :: post) d).2 = some e) := by
  obtain ⟨k0, v0⟩ := e0
  refine ⟨fun h1 => ?_, fun h1 h2 => ?_, fun h1 h2 h3 h4 => ?_⟩
  · rw [DposContext.kickoutLoop]
    dsimp only
    rw [h1, notTolerated_of_ne he]
  · rw [DposContext.kickoutLoop]
    dsimp only at h1 h2 ⊢
    rw [h1]
    dsimp only
    rw [h2, notTolerated_of_ne he]
  · rw [DposContext.kickoutLoop]
    dsimp only at h1 h2 h3 h4 ⊢
    rw [h1]
    dsimp only
    rw [h2]
    have hn : notTolerated (none : Option Err) = none := rfl
    rw [hn]
    dsimp only
    rw [if_pos ⟨rfl, h3⟩, h4, notTolerated_of_ne he]

/-! ## Store errors in `KickoutCandidate` and `Delegate` -/

/-- The second error of `Delegate` once a missing-data error of its vote lookup
is passed over: that of the edge update or else that of the vote update. -/
theorem Delegate_after_missing_vote_lookup (s : DposContext) (c dl : Address) (w : ByteSlice)
    (hc : s.candidateTrie.TryGet c.Bytes = (some w, none))
    (hv : (s.voteTrie.TryGet dl.Bytes).2 = some .missingNode) :
    (s.Delegate dl c).2 =
      match (s.delegateTrie.TryUpdate (c.Bytes ++ dl.Bytes) dl.Bytes).2 with
      | some e => some e
      | none => (s.voteTrie.TryUpdate dl.Bytes c.Bytes).2 := by
  have hnil : (s.voteTrie.TryGet dl.Bytes).1 = none := by
    unfold Trie.TryGet at hv ⊢
    cases hf : s.voteTrie.faultAt .get dl.Bytes with
    | none => rw [hf] at hv; exact Option.noConfusion hv
    | some e => rfl
  unfold DposContext.Delegate
  dsimp only
  rw [hc]
  dsimp only
  rw [hv, notTolerated_missingNode]
  dsimp only
  rw [hnil]
  dsimp only
  cases (s.delegateTrie.TryUpdate (c.Bytes ++ dl.Bytes) dl.Bytes).2 <;> rfl

/-- C16, as stated, fails on the code: with the candidates `A` and `B`
registered (their entries lie under one inner node of the candidate store) and
the delete of `A` raising a missing-data error (that node is missing from the
database), KickoutCandidate(A) returns no error and `A` stays a candidate. -/
theorem C16_missing_data_swallowed :
    ((⟨[((Address.ofByte 16).Bytes, (Address.ofByte 16).Bytes),
          ((Address.ofByte 17).Bytes, (Address.ofByte 17).Bytes)],
        [(.delete, (Address.ofByte 16).Bytes, .missingNode)]⟩ : Trie).TryDelete
          (Address.ofByte 16).Bytes).2 = some .missingNode ∧
    ((⟨Trie.empty, Trie.empty, Trie.empty,
        ⟨[((Address.ofByte 16).Bytes, (Address.ofByte 16).Bytes),
            ((Address.ofByte 17).Bytes, (Address.ofByte 17).Bytes)],
          [(.delete, (Address.ofByte 16).Bytes, .missingNode)]⟩,
        Trie.empty⟩ : DposContext).KickoutCandidate (Address.ofByte 16)).2 = none ∧
    ((⟨Trie.empty, Trie.empty, Trie.empty,
        ⟨[((Address.ofByte 16).Bytes, (Address.ofByte 16).Bytes),
            ((Address.ofByte 17).Bytes, (Address.ofByte 17).Bytes)],
          [(.delete, (Address.ofByte 16).Bytes, .missingNode)]⟩,
        Trie.empty⟩ : DposContext).KickoutCandidate (Address.ofByte 16)).1.candidateTrie.get
          (Address.ofByte 16).Bytes = some (Address.ofByte 16).Bytes := by
  decide

/-- C16, amended: KickoutCandidate never returns a missing-data error: such an
error of the candidate delete, of a delegation-edge delete, of a vote lookup or
of a vote delete is tolerated and the cascade goes on; every other error of one
of these store operations makes KickoutCandidate fail with that error. Every
error of the candidate lookup of Delegate, missing data included, and every
other error of its vote lookup makes Delegate fail with that error. After a
missing-data error of its vote lookup, the vote store raising it again on the
update of the same key, Delegate fails: it returns that error from the vote
update, or the error of the edge update before it when that update fails. -/
theorem C16_store_errors_amended (s : DposContext) (c dl : Address) :
    (s.KickoutCandidate c).2 ≠ some .missingNode ∧
    ((s.candidateTrie.TryDelete c.Bytes).2 = some .missingNode →
      s.KickoutCandidate c =
        DposContext.kickoutLoop c.Bytes (s.delegateTrie.PrefixIterator c.Bytes)
          { s with candidateTrie := (s.candidateTrie.TryDelete c.Bytes).1 }) ∧
    (∀ e, e ≠ .missingNode → (s.candidateTrie.TryDelete c.Bytes).2 = some e →
      (s.KickoutCandidate c).2 = some e) ∧
    (∀ (pre post : List (ByteSlice × ByteSlice)) (e0 : ByteSlice × ByteSlice) (e : Err),
      e ≠ .missingNode → (DposContext.kickoutLoop c.Bytes pre s).2 = none →
      (((DposContext.kickoutLoop c.Bytes pre s).1.delegateTrie.TryDelete
          (c.Bytes ++ e0.2)).2 = some e →
        (DposContext.kickoutLoop c.Bytes (pre ++ e0 :: post) s).2 = some e) ∧
      (notTolerated ((DposContext.kickoutLoop c.Bytes pre s).1.delegateTrie.TryDelete
          (c.Bytes ++ e0.2)).2 = none →
        ((DposContext.kickoutLoop c.Bytes pre s).1.voteTrie.TryGet e0.2).2 = some e →
        (DposContext.kickoutLoop c.Bytes (pre ++ e0 :: post) s).2 = some e) ∧
      (notTolerated ((DposContext.kickoutLoop c.Bytes pre s).1.delegateTrie.TryDelete
          (c.Bytes ++ e0.2)).2 = none →
        ((DposContext.kickoutLoop c.Bytes pre s).1.voteTrie.TryGet e0.2).2 = none →
        bytesEqual ((DposContext.kickoutLoop c.Bytes pre s).1.voteTrie.TryGet e0.2).1
          (some c.Bytes) = true →
        ((DposContext.kickoutLoop c.Bytes pre s).1.voteTrie.TryDelete e0.2).2 = some e →
        (DposContext.kickoutLoop c.Bytes (pre ++ e0 :: post) s).2 = some e)) ∧
    (∀ e, (s.candidateTrie.TryGet c.Bytes).2 = some e →
      s.Delegate dl c = (s, some e)) ∧
    (∀ e w, e ≠ .missingNode → s.candidateTrie.TryGet c.Bytes = (some w, none) →
      (s.voteTrie.TryGet dl.Bytes).2 = some e → s.Delegate dl c = (s, some e)) ∧
    (∀ w, s.candidateTrie.TryGet c.Bytes = (some w, none) →
      (s.voteTrie.TryGet dl.Bytes).2 = some .missingNode →
      (s.voteTrie.TryUpdate dl.Bytes c.Bytes).2 = some .missingNode →
      (s.Delegate dl c).2 ≠ none ∧
      ((s.delegateTrie.TryUpdate (c.Bytes ++ dl.Bytes) dl.Bytes).2 = none →
        (s.Delegate dl c).2 = some .missingNode) ∧
      (∀ e, (s.delegateTrie.TryUpdate (c.Bytes ++ dl.Bytes) dl.Bytes).2 = some e →
        (s.Delegate dl c).2 = some e)) := by
  refine ⟨?_, ?_, ?_, ?_, ?_, ?_, ?_⟩
  · unfold DposContext.KickoutCandidate
    dsimp only
    split
    · rename_i e he
      intro h
      exact (notTolerated_some he).2 (Option.some.inj h)
    · exact kickoutLoop_no_missingNode _ _ _
  · intro h
    unfold DposContext.KickoutCandidate
    dsimp only
    rw [h, notTolerated_missingNode]
  · intro e he h
    unfold DposContext.KickoutCandidate
    dsimp only
    rw [h, notTolerated_of_ne he]
  · intro pre post e0 e he hpre
    rw [kickoutLoop_append c.Bytes pre (e0 :: post) s hpre]
    exact kickoutLoop_step_errors c.Bytes e0 post _ e he
  · intro e h
    unfold DposContext.Delegate
    dsimp only
    rw [h]
  · intro e w he hc hv
    unfold DposContext.Delegate
    dsimp only
    rw [hc]
    dsimp only
    rw [hv, notTolerated_of_ne he]
  · intro w hc hv hu
    have key := Delegate_after_missing_vote_lookup s c dl w hc hv
    rw [key, hu]
    refine ⟨?_, ?_, ?_⟩
    · cases (s.delegateTrie.TryUpdate (c.Bytes ++ dl.Bytes) dl.Bytes).2 <;> simp
    · intro h
      rw [h]
    · intro e h
      rw [h]

theorem C16_store_errors_amended_witness :
    ((⟨[], [(.delete, (Address.ofByte 1).Bytes, .storeFailure)]⟩ : Trie).TryDelete
        (Address.ofByte 1).Bytes).2 = some .storeFailure ∧
    ((⟨Trie.empty, Trie.empty, Trie.empty,
        ⟨[], [(.delete, (Address.ofByte 1).Bytes, .storeFailure)]⟩, Trie.empty⟩ :
      DposContext).KickoutCandidate (Address.ofByte 1)).2 = some .storeFailure ∧
    ((⟨[], [(.get, (Address.ofByte 1).Bytes, .missingNode)]⟩ : Trie).TryGet
        (Address.ofByte 1).Bytes).2 = some .missingNode ∧
    (⟨Trie.empty, Trie.empty, Trie.empty,
        ⟨[], [(.get, (Address.ofByte 1).Bytes, .missingNode)]⟩, Trie.empty⟩ :
      DposContext).Delegate (Address.ofByte 2) (Address.ofByte 1) =
      (⟨Trie.empty, Trie.empty, Trie.empty,
        ⟨[], [(.get, (Address.ofByte 1).Bytes, .missingNode)]⟩, Trie.empty⟩,
        some .missingNode) ∧
    ((⟨[], [(.get, (Address.ofByte 2).Bytes, .missingNode),
        (.update, (Address.ofByte 2).Bytes, .missingNode)]⟩ : Trie).TryGet
          (Address.ofByte 2).Bytes).2 = some .missingNode ∧
    ((⟨[], [(.get, (Address.ofByte 2).Bytes, .missingNode),
        (.update, (Address.ofByte 2).Bytes, .missingNode)]⟩ : Trie).TryUpdate
          (Address.ofByte 2).Bytes (Address.ofByte 1).Bytes).2 = some .missingNode ∧
    ((⟨Trie.empty, Trie.empty,
        ⟨[], [(.get, (Address.ofByte 2).Bytes, .missingNode),
          (.update, (Address.ofByte 2).Bytes, .missingNode)]⟩,
        ⟨[((Address.ofByte 1).Bytes, (Address.ofByte 1).Bytes)], []⟩, Trie.empty⟩ :
      DposContext).Delegate (Address.ofByte 2) (Address.ofByte 1)).2 = some .missingNode :=
  ⟨by decide,
    (C16_store_errors_amended
      ⟨Trie.empty, Trie.empty, Trie.empty,
        ⟨[], [(.delete, (Address.ofByte 1).Bytes, .storeFailure)]⟩, Trie.empty⟩
      (Address.ofByte 1) (Address.ofByte 2)).2.2.1 .storeFailure (by decide) (by decide),
    by decide,
    (C16_store_errors_amended
      ⟨Trie.empty, Trie.empty, Trie.empty,
        ⟨[], [(.get, (Address.ofByte 1).Bytes, .missingNode)]⟩, Trie.empty⟩
      (Address.ofByte 1) (Address.ofByte 2)).2.2.2.2.1 .missingNode (by decide),
    by decide, by decide,
    ((C16_store_errors_amended
      ⟨Trie.empty, Trie.empty,
        ⟨[], [(.get, (Address.ofByte 2).Bytes, .missingNode),
          (.update, (Address.ofByte 2).Bytes, .missingNode)]⟩,
        ⟨[((Address.ofByte 1).Bytes, (Address.ofByte 1).Bytes)], []⟩, Trie.empty⟩
      (Address.ofByte 1) (Address.ofByte 2)).2.2.2.2.2.2 (Address.ofByte 1).Bytes (by decide)
      (by decide) (by decide)).2.1 (by decide)⟩

/-! ## Lemmas: the bytes hashed by Root -/

theorem Hash.eq_of_bytes {a b : Hash} (h : a.Bytes = b.Bytes) : a = b := by
  cases a; cases b; cases h; rfl

theorem rlpEncodeHash_length (h : Hash) : (rlpEncodeHash h).length = 33 := by
  simp [rlpEncodeHash, h.size]

theorem rlpEncodeHash_inj {a b : Hash} (h : rlpEncodeHash a = rlpEncodeHash b) : a = b := by
  unfold rlpEncodeHash at h
  exact Hash.eq_of_bytes (List.cons.inj h).2

/-- The five encoded digests can be read back from their concatenation. -/
theorem root_input_inj {a1 a2 a3 a4 a5 b1 b2 b3 b4 b5 : Hash}
    (h : rlpEncodeHash a1 ++ rlpEncodeHash a2 ++ rlpEncodeHash a3 ++ rlpEncodeHash a4 ++
        rlpEncodeHash a5 =
      rlpEncodeHash b1 ++ rlpEncodeHash b2 ++ rlpEncodeHash b3 ++ rlpEncodeHash b4 ++
        rlpEncodeHash b5) :
    a1 = b1 ∧ a2 = b2 ∧ a3 = b3 ∧ a4 = b4 ∧ a5 = b5 := by
  have len : ∀ x y : Hash, (rlpEncodeHash x).length = (rlpEncodeHash y).length := by
    intro x y
    rw [rlpEncodeHash_length, rlpEncodeHash_length]
  obtain ⟨h4, e5⟩ := List.append_inj' h (len a5 b5)
  obtain ⟨h3, e4⟩ := List.append_inj' h4 (len a4 b4)
  obtain ⟨h2, e3⟩ := List.append_inj' h3 (len a3 b3)
  obtain ⟨e1, e2⟩ := List.append_inj' h2 (len a2 b2)
  exact ⟨rlpEncodeHash_inj e1, rlpEncodeHash_inj e2, rlpEncodeHash_inj e3,
    rlpEncodeHash_inj e4, rlpEncodeHash_inj e5⟩

theorem Root_eq_keccak (P : Primitives) (d : DposContext) :
    d.Root P =
      P.keccak256 (rlpEncodeHash (d.epochTrie.Hash P) ++ rlpEncodeHash (d.delegateTrie.Hash P) ++
        rlpEncodeHash (d.candidateTrie.Hash P) ++ rlpEncodeHash (d.voteTrie.Hash P) ++
        rlpEncodeHash (d.mintCntTrie.Hash P)) := by
  simp [DposContext.Root, HashWriter.Sum, HashWriter.Encode, NewKeccak256]

open Trie in
theorem insertEntry_ne_of_lookup_none {k v : ByteSlice} {l : List (ByteSlice × ByteSlice)}
    (h : lookup k l = none) : insertEntry k v l ≠ l := by
  intro heq
  have := lookup_insertEntry_self k v l
  rw [heq, h] at this
  exact Option.noConfusion this

/-! ## Root tracks content -/

/-- C17: Root is a function of the five store digests only (two aggregates with
equal digests have equal Root; Root is a pure function of the aggregate, so
computing it changes no store). When neither the hash nor the store digest
collides on the two aggregates compared, their Roots differ exactly when the
content of at least one of the five stores differs; in particular
BecomeCandidate(c) changes the Root when `c` was not yet a candidate. -/
theorem C17_root_tracks_content (P : Primitives) (d1 d2 : DposContext)
    (hk : P.keccak256 (rlpEncodeHash (d1.epochTrie.Hash P) ++
          rlpEncodeHash (d1.delegateTrie.Hash P) ++ rlpEncodeHash (d1.candidateTrie.Hash P) ++
          rlpEncodeHash (d1.voteTrie.Hash P) ++ rlpEncodeHash (d1.mintCntTrie.Hash P)) =
        P.keccak256 (rlpEncodeHash (d2.epochTrie.Hash P) ++
          rlpEncodeHash (d2.delegateTrie.Hash P) ++ rlpEncodeHash (d2.candidateTrie.Hash P) ++
          rlpEncodeHash (d2.voteTrie.Hash P) ++ rlpEncodeHash (d2.mintCntTrie.Hash P)) →
      rlpEncodeHash (d1.epochTrie.Hash P) ++
          rlpEncodeHash (d1.delegateTrie.Hash P) ++ rlpEncodeHash (d1.candidateTrie.Hash P) ++
          rlpEncodeHash (d1.voteTrie.Hash P) ++ rlpEncodeHash (d1.mintCntTrie.Hash P) =
        rlpEncodeHash (d2.epochTrie.Hash P) ++
          rlpEncodeHash (d2.delegateTrie.Hash P) ++ rlpEncodeHash (d2.candidateTrie.Hash P) ++
          rlpEncodeHash (d2.voteTrie.Hash P) ++ rlpEncodeHash (d2.mintCntTrie.Hash P))
    (h1 : d1.epochTrie.Hash P = d2.epochTrie.Hash P →
      d1.epochTrie.entries = d2.epochTrie.entries)
    (h2 : d1.delegateTrie.Hash P = d2.delegateTrie.Hash P →
      d1.delegateTrie.entries = d2.delegateTrie.entries)
    (h3 : d1.candidateTrie.Hash P = d2.candidateTrie.Hash P →
      d1.candidateTrie.entries = d2.candidateTrie.entries)
    (h4 : d1.voteTrie.Hash P = d2.voteTrie.Hash P →
      d1.voteTrie.entries = d2.voteTrie.entries)
    (h5 : d1.mintCntTrie.Hash P = d2.mintCntTrie.Hash P →
      d1.mintCntTrie.entries = d2.mintCntTrie.entries) :
    ((d1.epochTrie.Hash P = d2.epochTrie.Hash P ∧
        d1.delegateTrie.Hash P = d2.delegateTrie.Hash P ∧
        d1.candidateTrie.Hash P = d2.candidateTrie.Hash P ∧
        d1.voteTrie.Hash P = d2.voteTrie.Hash P ∧
        d1.mintCntTrie.Hash P = d2.mintCntTrie.Hash P) →
      d1.Root P = d2.Root P) ∧
    (d1.Root P ≠ d2.Root P ↔
      (d1.epochTrie.entries ≠ d2.epochTrie.entries ∨
        d1.delegateTrie.entries ≠ d2.delegateTrie.entries ∨
        d1.candidateTrie.entries ≠ d2.candidateTrie.entries ∨
        d1.voteTrie.entries ≠ d2.voteTrie.entries ∨
        d1.mintCntTrie.entries ≠ d2.mintCntTrie.entries)) ∧
    (∀ c : Address, d1.NoFaults → d1.candidateTrie.get c.Bytes = none →
      d2 = (d1.BecomeCandidate c).1 → d1.Root P ≠ d2.Root P) := by
  have hfun : (d1.epochTrie.Hash P = d2.epochTrie.Hash P ∧
        d1.delegateTrie.Hash P = d2.delegateTrie.Hash P ∧
        d1.candidateTrie.Hash P = d2.candidateTrie.Hash P ∧
        d1.voteTrie.Hash P = d2.voteTrie.Hash P ∧
        d1.mintCntTrie.Hash P = d2.mintCntTrie.Hash P) → d1.Root P = d2.Root P := by
    rintro ⟨e1, e2, e3, e4, e5⟩
    rw [Root_eq_keccak, Root_eq_keccak, e1, e2, e3, e4, e5]
  have hiff : d1.Root P ≠ d2.Root P ↔
      (d1.epochTrie.entries ≠ d2.epochTrie.entries ∨
        d1.delegateTrie.entries ≠ d2.delegateTrie.entries ∨
        d1.candidateTrie.entries ≠ d2.candidateTrie.entries ∨
        d1.voteTrie.entries ≠ d2.voteTrie.entries ∨
        d1.mintCntTrie.entries ≠ d2.mintCntTrie.entries) := by
    constructor
    · intro hne
      by_contra hall
      simp only [not_or, not_not] at hall
      obtain ⟨a1, a2, a3, a4, a5⟩ := hall
      apply hne
      apply hfun
      unfold Trie.Hash
      rw [a1, a2, a3, a4, a5]
      exact ⟨rfl, rfl, rfl, rfl, rfl⟩
    · intro hdiff hroot
      rw [Root_eq_keccak, Root_eq_keccak] at hroot
      obtain ⟨e1, e2, e3, e4, e5⟩ := root_input_inj (hk hroot)
      rcases hdiff with h | h | h | h | h
      · exact h (h1 e1)
      · exact h (h2 e2)
      · exact h (h3 e3)
      · exact h (h4 e4)
      · exact h (h5 e5)
  refine ⟨hfun, hiff, ?_⟩
  intro c hf hc hd2
  apply hiff.mpr
  right; right; left
  rw [hd2, DposContext.BecomeCandidate_of_noFaults hf]
  exact fun h => insertEntry_ne_of_lookup_none hc h.symm

set_option maxRecDepth 8000 in
theorem C17_root_tracks_content_witness :
    NewDposContext.NoFaults ∧
    NewDposContext.candidateTrie.get (Address.ofByte 1).Bytes = none ∧
    NewDposContext.Root samplePrimitives ≠
      (NewDposContext.BecomeCandidate (Address.ofByte 1)).1.Root samplePrimitives :=
  ⟨by decide, by decide,
    (C17_root_tracks_content samplePrimitives NewDposContext
      (NewDposContext.BecomeCandidate (Address.ofByte 1)).1
      (by decide) (by decide) (by decide) (by decide) (by decide) (by decide)).2.2
      (Address.ofByte 1) (by decide) (by decide) rfl⟩

/-! ## Lemmas: a successful `Delegate`, whatever errors the stores raise -/

theorem faultAt_of_faults_eq {t u : Trie} (h : t.faults = u.faults) (op : TrieOp)
    (k : ByteSlice) : t.faultAt op k = u.faultAt op k := by
  unfold Trie.faultAt
  rw [h]

theorem TryUpdate_of_ok {t : Trie} {k v : ByteSlice} (hv : v ≠ [])
    (h : (t.TryUpdate k v).2 = none) :
    (t.TryUpdate k v).1 = ⟨Trie.insertEntry k v t.entries, t.faults⟩ := by
  cases hf : t.faultAt .update k with
  | none => rw [TryUpdate_of_noFault hv hf]
  | some e =>
    have : (t.TryUpdate k v).2 = some e := by simp [Trie.TryUpdate, hv, hf]
    rw [this] at h
    exact Option.noConfusion h

theorem Delete_faults (t : Trie) (k : ByteSlice) : (t.Delete k).faults = t.faults :=
  TryDelete_faults t k

theorem Delete_of_noFault {t : Trie} {k : ByteSlice} (h : t.faultAt .delete k = none) :
    t.Delete k = ⟨Trie.eraseEntry k t.entries, t.faults⟩ := by
  simp [Trie.Delete, Trie.TryDelete, h]

/-- The state a call of `Delegate` that returns no error leaves: the new edge
written over the delegate store as the removal of the stale edge left it, and
the new vote. -/
theorem Delegate_success (s : DposContext) (d c : Address) (h : (s.Delegate d c).2 = none) :
    (s.Delegate d c).1 =
      { s with
        delegateTrie :=
          ⟨Trie.insertEntry (c.Bytes ++ d.Bytes) d.Bytes
            (match (s.voteTrie.TryGet d.Bytes).1 with
              | some oldCandidate => s.delegateTrie.Delete (oldCandidate ++ d.Bytes)
              | none => s.delegateTrie).entries,
            s.delegateTrie.faults⟩
        voteTrie := ⟨Trie.insertEntry d.Bytes c.Bytes s.voteTrie.entries, s.voteTrie.faults⟩ } := by
  cases hc2 : (s.candidateTrie.TryGet c.Bytes).2 with
  | some e =>
    simp only [DposContext.Delegate, hc2] at h
    exact Option.noConfusion h
  | none =>
    cases hc1 : (s.candidateTrie.TryGet c.Bytes).1 with
    | none =>
      simp only [DposContext.Delegate, hc2, hc1] at h
      exact Option.noConfusion h
    | some w =>
      cases hn : notTolerated (s.voteTrie.TryGet d.Bytes).2 with
      | some e =>
        simp only [DposContext.Delegate, hc2, hc1, hn] at h
        exact Option.noConfusion h
      | none =>
        cases hv : (s.voteTrie.TryGet d.Bytes).1 with
        | none =>
          simp only [DposContext.Delegate, hc2, hc1, hn, hv] at h ⊢
          cases hu : (s.delegateTrie.TryUpdate (c.Bytes ++ d.Bytes) d.Bytes).2 with
          | some e =>
            simp only [hu] at h
            exact Option.noConfusion h
          | none =>
            simp only [hu] at h ⊢
            rw [TryUpdate_of_ok d.bytes_ne_nil hu, TryUpdate_of_ok c.bytes_ne_nil h]
        | some oc =>
          simp only [DposContext.Delegate, hc2, hc1, hn, hv] at h ⊢
          cases hu : ((s.delegateTrie.Delete (oc ++ d.Bytes)).TryUpdate (c.Bytes ++ d.Bytes)
              d.Bytes).2 with
          | some e =>
            simp only [hu] at h
            exact Option.noConfusion h
          | none =>
            simp only [hu] at h ⊢
            rw [TryUpdate_of_ok d.bytes_ne_nil hu, TryUpdate_of_ok c.bytes_ne_nil h,
              Delete_faults]

theorem Delegate_success_shape (s : DposContext) (d c : Address)
    (h : (s.Delegate d c).2 = none) :
    ∃ E : List (ByteSlice × ByteSlice),
      (s.Delegate d c).1 =
        { s with
          delegateTrie := ⟨Trie.insertEntry (c.Bytes ++ d.Bytes) d.Bytes E, s.delegateTrie.faults⟩
          voteTrie :=
            ⟨Trie.insertEntry d.Bytes c.Bytes s.voteTrie.entries, s.voteTrie.faults⟩ } ∧
      ∀ oc, (s.voteTrie.TryGet d.Bytes).1 = some oc →
        E = (s.delegateTrie.Delete (oc ++ d.Bytes)).entries := by
  refine ⟨_, Delegate_success s d c h, ?_⟩
  intro oc hoc
  rw [hoc]

/-! ## Re-delegation -/

/-- C5, as stated, fails on the code: with `c1` and `c2` both candidates, two
other delegators voting for `c1` (their edges lie in a subtree next to the key
`c1 ++ d`), and a delegate store that raises the missing-data error on the
delete of `c1 ++ d` (the subtree is missing from the database and the delete
has to read it), Delegate(d, c1) and Delegate(d, c2) both return no error, the
error of the delete of the stale edge being dropped, and the entry under
`c1 ++ d` stays. -/
theorem C5_stale_edge_survives :
    Address.ofByte 1 ≠ Address.ofByte 2 ∧
    (⟨Trie.empty,
        ⟨[((Address.ofByte 1).Bytes ++ (Address.ofByte 64).Bytes, (Address.ofByte 64).Bytes),
            ((Address.ofByte 1).Bytes ++ (Address.ofByte 65).Bytes, (Address.ofByte 65).Bytes)],
          [(.delete, (Address.ofByte 1).Bytes ++ (Address.ofByte 48).Bytes, .missingNode)]⟩,
        ⟨[((Address.ofByte 64).Bytes, (Address.ofByte 1).Bytes),
            ((Address.ofByte 65).Bytes, (Address.ofByte 1).Bytes)], []⟩,
        ⟨[((Address.ofByte 1).Bytes, (Address.ofByte 1).Bytes),
          ((Address.ofByte 2).Bytes, (Address.ofByte 2).Bytes)], []⟩,
        Trie.empty⟩ : DposContext).candidateTrie.get (Address.ofByte 1).Bytes ≠ none ∧
    (⟨Trie.empty,
        ⟨[((Address.ofByte 1).Bytes ++ (Address.ofByte 64).Bytes, (Address.ofByte 64).Bytes),
            ((Address.ofByte 1).Bytes ++ (Address.ofByte 65).Bytes, (Address.ofByte 65).Bytes)],
          [(.delete, (Address.ofByte 1).Bytes ++ (Address.ofByte 48).Bytes, .missingNode)]⟩,
        ⟨[((Address.ofByte 64).Bytes, (Address.ofByte 1).Bytes),
            ((Address.ofByte 65).Bytes, (Address.ofByte 1).Bytes)], []⟩,
        ⟨[((Address.ofByte 1).Bytes, (Address.ofByte 1).Bytes),
          ((Address.ofByte 2).Bytes, (Address.ofByte 2).Bytes)], []⟩,
        Trie.empty⟩ : DposContext).candidateTrie.get (Address.ofByte 2).Bytes ≠ none ∧
    ((⟨Trie.empty,
        ⟨[((Address.ofByte 1).Bytes ++ (Address.ofByte 64).Bytes, (Address.ofByte 64).Bytes),
            ((Address.ofByte 1).Bytes ++ (Address.ofByte 65).Bytes, (Address.ofByte 65).Bytes)],
          [(.delete, (Address.ofByte 1).Bytes ++ (Address.ofByte 48).Bytes, .missingNode)]⟩,
        ⟨[((Address.ofByte 64).Bytes, (Address.ofByte 1).Bytes),
            ((Address.ofByte 65).Bytes, (Address.ofByte 1).Bytes)], []⟩,
        ⟨[((Address.ofByte 1).Bytes, (Address.ofByte 1).Bytes),
          ((Address.ofByte 2).Bytes, (Address.ofByte 2).Bytes)], []⟩,
        Trie.empty⟩ : DposContext).Delegate (Address.ofByte 48) (Address.ofByte 1)).2 = none ∧
    (((⟨Trie.empty,
        ⟨[((Address.ofByte 1).Bytes ++ (Address.ofByte 64).Bytes, (Address.ofByte 64).Bytes),
            ((Address.ofByte 1).Bytes ++ (Address.ofByte 65).Bytes, (Address.ofByte 65).Bytes)],
          [(.delete, (Address.ofByte 1).Bytes ++ (Address.ofByte 48).Bytes, .missingNode)]⟩,
        ⟨[((Address.ofByte 64).Bytes, (Address.ofByte 1).Bytes),
            ((Address.ofByte 65).Bytes, (Address.ofByte 1).Bytes)], []⟩,
        ⟨[((Address.ofByte 1).Bytes, (Address.ofByte 1).Bytes),
          ((Address.ofByte 2).Bytes, (Address.ofByte 2).Bytes)], []⟩,
        Trie.empty⟩ : DposContext).Delegate (Address.ofByte 48) (Address.ofByte 1)).1.Delegate
          (Address.ofByte 48) (Address.ofByte 2)).2 = none ∧
    (((⟨Trie.empty,
        ⟨[((Address.ofByte 1).Bytes ++ (Address.ofByte 64).Bytes, (Address.ofByte 64).Bytes),
            ((Address.ofByte 1).Bytes ++ (Address.ofByte 65).Bytes, (Address.ofByte 65).Bytes)],
          [(.delete, (Address.ofByte 1).Bytes ++ (Address.ofByte 48).Bytes, .missingNode)]⟩,
        ⟨[((Address.ofByte 64).Bytes, (Address.ofByte 1).Bytes),
            ((Address.ofByte 65).Bytes, (Address.ofByte 1).Bytes)], []⟩,
        ⟨[((Address.ofByte 1).Bytes, (Address.ofByte 1).Bytes),
          ((Address.ofByte 2).Bytes, (Address.ofByte 2).Bytes)], []⟩,
        Trie.empty⟩ : DposContext).Delegate (Address.ofByte 48) (Address.ofByte 1)).1.Delegate
          (Address.ofByte 48) (Address.ofByte 2)).1.delegateTrie.get
            ((Address.ofByte 1).Bytes ++ (Address.ofByte 48).Bytes) =
      some (Address.ofByte 48).Bytes := by
  decide

/-- C5, amended: on every aggregate state, for a delegator `d` and two different
candidates `c1`, `c2`: when both are in the candidate store and the stores
raise no error, Delegate(d, c1) and then Delegate(d, c2) both return no error;
whenever both calls return no error, the delegate store has the entry
`c2 ++ d -> d` and the vote entry of `d` equals `c2`; and the delegate store has
no entry under `c1 ++ d` when the vote lookup of `d` and the delete of the stale
edge `c1 ++ d` raise no store error. -/
theorem C5_redelegation_amended (s : DposContext) (d c1 c2 : Address) (hne : c1 ≠ c2) :
    (s.NoFaults → s.candidateTrie.get c1.Bytes ≠ none → s.candidateTrie.get c2.Bytes ≠ none →
      (s.Delegate d c1).2 = none ∧ ((s.Delegate d c1).1.Delegate d c2).2 = none) ∧
    ((s.Delegate d c1).2 = none → ((s.Delegate d c1).1.Delegate d c2).2 = none →
      ((s.Delegate d c1).1.Delegate d c2).1.delegateTrie.get (c2.Bytes ++ d.Bytes) =
        some d.Bytes ∧
      ((s.Delegate d c1).1.Delegate d c2).1.voteTrie.get d.Bytes = some c2.Bytes ∧
      (s.voteTrie.faultAt .get d.Bytes = none →
        s.delegateTrie.faultAt .delete (c1.Bytes ++ d.Bytes) = none →
        ((s.Delegate d c1).1.Delegate d c2).1.delegateTrie.get (c1.Bytes ++ d.Bytes) =
          none)) := by
  refine ⟨fun hf p1 p2 => ?_, fun h1 h2 => ?_⟩
  · have := redelegation_of_noFaults s hf d c1 c2 hne p1 p2
    exact ⟨this.1, this.2.1⟩
  · obtain ⟨E1, hs1, _⟩ := Delegate_success_shape s d c1 h1
    rw [hs1] at h2 ⊢
    obtain ⟨E2, hs2, hE2⟩ := Delegate_success_shape _ d c2 h2
    rw [hs2]
    dsimp only at hE2 ⊢
    refine ⟨lookup_insertEntry_self _ _ _, lookup_insertEntry_self _ _ _, ?_⟩
    intro hget hdel
    have hget2 : Trie.faultAt
        ⟨Trie.insertEntry d.Bytes c1.Bytes s.voteTrie.entries, s.voteTrie.faults⟩ .get
          d.Bytes = none := hget
    have hdel2 : Trie.faultAt
        ⟨Trie.insertEntry (c1.Bytes ++ d.Bytes) d.Bytes E1, s.delegateTrie.faults⟩ .delete
          (c1.Bytes ++ d.Bytes) = none := hdel
    have hold : (Trie.TryGet
        ⟨Trie.insertEntry d.Bytes c1.Bytes s.voteTrie.entries, s.voteTrie.faults⟩
          d.Bytes).1 = some c1.Bytes := by
      rw [TryGet_of_noFault hget2]
      exact lookup_insertEntry_self _ _ _
    have hE := hE2 c1.Bytes hold
    rw [Delete_of_noFault hdel2] at hE
    dsimp only at hE
    have hkey : c1.Bytes ++ d.Bytes ≠ c2.Bytes ++ d.Bytes :=
      fun e => hne (Address.append_inj e).1
    show Trie.lookup _ (Trie.insertEntry _ _ E2) = none
    rw [lookup_insertEntry_ne hkey, hE, lookup_eraseEntry_self]

theorem C5_redelegation_amended_witness :
    Address.ofByte 1 ≠ Address.ofByte 2 ∧
    ((run [.becomeCandidate (Address.ofByte 1), .becomeCandidate (Address.ofByte 2)]
        NewDposContext).Delegate (Address.ofByte 3) (Address.ofByte 1)).2 = none ∧
    (((run [.becomeCandidate (Address.ofByte 1), .becomeCandidate (Address.ofByte 2)]
        NewDposContext).Delegate (Address.ofByte 3) (Address.ofByte 1)).1.Delegate
          (Address.ofByte 3) (Address.ofByte 2)).2 = none ∧
    (run [.becomeCandidate (Address.ofByte 1), .becomeCandidate (Address.ofByte 2)]
        NewDposContext).voteTrie.faultAt .get (Address.ofByte 3).Bytes = none ∧
    (run [.becomeCandidate (Address.ofByte 1), .becomeCandidate (Address.ofByte 2)]
        NewDposContext).delegateTrie.faultAt .delete
          ((Address.ofByte 1).Bytes ++ (Address.ofByte 3).Bytes) = none ∧
    (((run [.becomeCandidate (Address.ofByte 1), .becomeCandidate (Address.ofByte 2)]
        NewDposContext).Delegate (Address.ofByte 3) (Address.ofByte 1)).1.Delegate
          (Address.ofByte 3) (Address.ofByte 2)).1.delegateTrie.get
            ((Address.ofByte 1).Bytes ++ (Address.ofByte 3).Bytes) = none :=
  ⟨by decide, by decide, by decide, by decide, by decide,
    ((C5_redelegation_amended
      (run [.becomeCandidate (Address.ofByte 1), .becomeCandidate (Address.ofByte 2)]
        NewDposContext)
      (Address.ofByte 3) (Address.ofByte 1) (Address.ofByte 2) (by decide)).2
      (by decide) (by decide)).2.2 (by decide) (by decide)⟩

end Dpos
